import Mathlib

/-!
# Storage façade of `src/storage/indexedDbStore.js`

A shallow embedding of the dual-backend persistence module: the module-level
variables (`dbPromise`, `useMemoryFallback`, the three memory mirrors) together
with the contents of the on-device database form an explicit state, every
exported function is a state-passing function, and everything the browser
decides (how the open request settles, how the transaction of a call ends) is
an explicit input of the call.

Exceptions are explicit: a computation yields `Except JsError _` next to the
state it leaves behind, so that the `try`/`catch` of `withDb` is visible in the
model and "no error reaches the caller" is a statement about the result.
-/

namespace IndexedDbStore

/-! ## JavaScript values -/

/-- Primitive JavaScript values. Numbers are integers; keys of the mirrors and
of the object stores are primitives, compared by value. -/
inductive Prim where
  | undefined
  | null
  | bool (b : Bool)
  | num (n : Int)
  | str (s : String)
  deriving DecidableEq, Repr

/-- A stored payload: a primitive or a plain object with primitive fields. -/
inductive JsVal where
  | prim (p : Prim)
  | obj (fields : List (String × Prim))
  deriving DecidableEq, Repr

/-- A value at the boundary of the module: a payload or an array of payloads. -/
inductive JsAny where
  | value (v : JsVal)
  | array (items : List JsVal)
  deriving DecidableEq, Repr

/-- Errors that can be raised while a call runs. -/
inductive JsError where
  | unavailable
  | openError
  | dataError
  | invalidState
  | requestError
  | transactionError
  | transactionAbort
  | typeError
  deriving DecidableEq, Repr

/-- The value `null`. -/
def jsNull : JsVal := .prim .null

/-- The value `undefined`. -/
def jsUndefined : JsVal := .prim .undefined

/-- Truthiness of a primitive (`!!p`). -/
def Prim.truthy : Prim → Bool
  | .undefined => false
  | .null => false
  | .bool b => b
  | .num n => n != 0
  | .str s => s != ""

/-- Truthiness of a payload: every object is truthy. -/
def JsVal.truthy : JsVal → Bool
  | .prim p => p.truthy
  | .obj _ => true

/-- Whether a payload is `null` or `undefined`. -/
def JsVal.nullish : JsVal → Bool
  | .prim .undefined => true
  | .prim .null => true
  | _ => false

/-- Optional property read `v?.id`: `undefined` when `v` is nullish or has no
such property. -/
def JsVal.optId : JsVal → Prim
  | .obj fields => (List.lookup "id" fields).getD .undefined
  | .prim _ => .undefined

/-- Plain property read `v.id`: a `TypeError` on `null` and `undefined`. -/
def JsVal.getId (v : JsVal) : Except JsError Prim :=
  if v.nullish then .error .typeError else .ok v.optId

/-- Truthiness of a boundary value: every array is truthy. -/
def JsAny.truthy : JsAny → Bool
  | .value v => v.truthy
  | .array _ => true

/-- Whether a boundary value is `null` or `undefined`. -/
def JsAny.nullish : JsAny → Bool
  | .value v => v.nullish
  | .array _ => false

/-- Plain property read `r.id` on a boundary value; an array has no `id`. -/
def JsAny.getId : JsAny → Except JsError Prim
  | .value v => v.getId
  | .array _ => .ok .undefined

/-- The test `Array.isArray(r)`. -/
def JsAny.isArray : JsAny → Bool
  | .value _ => false
  | .array _ => true

/-- Nullish coalescing `a ?? b`. -/
def JsAny.orElse (a b : JsAny) : JsAny :=
  if a.nullish then b else a

/-! ## A JavaScript `Map` with primitive keys -/

/-- Entries of a `Map` in insertion order. -/
abbrev JsMap := List (Prim × JsVal)

/-- The method `Map.prototype.get`: `undefined` for a missing key. -/
def JsMap.get : JsMap → Prim → JsVal
  | [], _ => jsUndefined
  | (k', v) :: m, k => if k' = k then v else JsMap.get m k

/-- The method `Map.prototype.set`: an existing key keeps its position. -/
def JsMap.set : JsMap → Prim → JsVal → JsMap
  | [], k, v => [(k, v)]
  | (k', v') :: m, k, v => if k' = k then (k, v) :: m else (k', v') :: JsMap.set m k v

/-- The method `Map.prototype.delete`. -/
def JsMap.delete (m : JsMap) (k : Prim) : JsMap :=
  m.filter (fun kv => decide (kv.1 ≠ k))

/-- The values of a `Map` in insertion order (`Array.from(m.values())`). -/
def JsMap.values (m : JsMap) : List JsVal :=
  m.map Prod.snd

/-! ## The on-device database -/

/-- A primitive is a valid key of an object store when it is a number or a
string; any other key makes the request raise a `DataError`. -/
def validKey : Prim → Bool
  | .num _ => true
  | .str _ => true
  | _ => false

/-- The UTF-16 code units of a character, as a JavaScript string holds it: one
unit below `0x10000`, a surrogate pair from there on. -/
def utf16Units (c : Char) : List Nat :=
  if c.toNat < 65536 then [c.toNat]
  else [55296 + (c.toNat - 65536) / 1024, 56320 + (c.toNat - 65536) % 1024]

/-- Strict order of string keys: lexicographic on the UTF-16 code units. -/
def strLt (a b : String) : Bool :=
  decide ((a.data.map utf16Units).flatten < (b.data.map utf16Units).flatten)

/-- Key order of an object store: numbers before strings. -/
def keyLe : Prim → Prim → Bool
  | .num a, .num b => decide (a ≤ b)
  | .num _, .str _ => true
  | .str _, .num _ => false
  | .str a, .str b => !strLt b a
  | _, _ => true

/-- Order of the records of the `series` store: by their `id`. -/
def recordLe (a b : JsVal) : Prop :=
  keyLe a.optId b.optId = true

instance : DecidableRel recordLe :=
  fun a b => inferInstanceAs (Decidable (keyLe a.optId b.optId = true))

/-- Contents of the three object stores created by the upgrade handler. -/
structure Durable where
  /-- Records `{ key, value }` of the store `settings` (key path `key`). -/
  settings : JsMap
  /-- Records of the auto-increment store `trial-log`, in key order. -/
  trialLog : List JsVal
  /-- Records of the store `series` (key path `id`), in key order. -/
  series : List JsVal
  deriving DecidableEq, Repr

/-- The request `store.get(key)` on `settings`, followed by `value?.value`. -/
def settingsGet (d : Durable) (key : Prim) : Except JsError JsVal :=
  if validKey key then .ok (d.settings.get key) else .error .dataError

/-- The request `store.put({ key, value })` on `settings`. -/
def settingsPut (d : Durable) (key : Prim) (value : JsVal) : Except JsError Durable :=
  if validKey key then .ok { d with settings := d.settings.set key value }
  else .error .dataError

/-- The request `store.add(entry)` on `trial-log`: the next key is generated. -/
def trialLogAdd (d : Durable) (entry : JsVal) : Durable :=
  { d with trialLog := d.trialLog ++ [entry] }

/-- The request `store.clear()` on `trial-log`. -/
def trialLogClear (d : Durable) : Durable :=
  { d with trialLog := [] }

/-- The request `store.get(id)` on `series`: `undefined` when no record has
that key. -/
def seriesGet (d : Durable) (id : Prim) : Except JsError JsVal :=
  if validKey id then
    .ok ((d.series.find? (fun r => decide (r.optId = id))).getD jsUndefined)
  else .error .dataError

/-- The request `store.delete(id)` on `series`. -/
def seriesDelete (d : Durable) (id : Prim) : Except JsError Durable :=
  if validKey id then
    .ok { d with series := d.series.filter (fun r => decide (r.optId ≠ id)) }
  else .error .dataError

/-- The request `store.put(series)` on `series`: the key is read from the
record through the key path `id`, and a record with that key is replaced. -/
def seriesPut (d : Durable) (series : JsVal) : Except JsError Durable :=
  if validKey series.optId then
    .ok { d with series :=
      (d.series.filter (fun r => decide (r.optId ≠ series.optId))).orderedInsert recordLe series }
  else .error .dataError

/-! ## What the browser decides -/

/-- How the promise created by `openDb` settles. -/
inductive OpenOutcome where
  /-- The promise rejects: no `indexedDB` in `window`, the open request
  errors, or the upgrade fails. -/
  | rejected (error : JsError)
  /-- The promise resolves with `request.result`. A successful open request
  carries a database handle (`true`); the value `false` stands for the falsy
  result that the guard `if (!db)` of `withDb` tests for and that
  `indexedDB.open` does not produce. -/
  | resolved (handle : Bool)
  deriving DecidableEq, Repr

/-- How the transaction of a call ends. -/
inductive TxOutcome where
  /-- Every request succeeds and `oncomplete` fires. -/
  | complete
  /-- Opening the transaction or issuing a request throws. -/
  | threw
  /-- A request fires `onerror`. -/
  | requestError
  /-- The transaction fires `onerror`. -/
  | error
  /-- The transaction fires `onabort`. -/
  | abort
  deriving DecidableEq, Repr

/-- The inputs of one call that come from the browser. -/
structure Env where
  /-- How the open settles, used only by the call that performs it. -/
  openOutcome : OpenOutcome
  /-- How the transaction of this call ends. -/
  tx : TxOutcome
  deriving DecidableEq, Repr

/-- Runs the requests of one transaction and awaits it, as the units of work do
through `requestToPromise` and `transactionToPromise`. The writes take effect
only when the transaction completes; otherwise the awaited promise rejects
and the database is left as it was. -/
def runTransaction (tx : TxOutcome) (d : Durable)
    (body : Durable → Except JsError (JsAny × Durable)) : Except JsError JsAny × Durable :=
  match tx with
  | .threw => (.error .invalidState, d)
  | .requestError => (.error .requestError, d)
  | .error => (.error .transactionError, d)
  | .abort => (.error .transactionAbort, d)
  | .complete =>
    match body d with
    | .ok (r, d') => (.ok r, d')
    | .error err => (.error err, d)

/-! ## Module state -/

/-- The module-level variables and the database they talk to. -/
structure State where
  /-- The memoized open attempt; `none` is the initial `null`. -/
  dbPromise : Option OpenOutcome
  /-- The one-way degrade flag. -/
  useMemoryFallback : Bool
  /-- Mirror of the settings. -/
  memorySettings : JsMap
  /-- Mirror of the trial log. -/
  memoryTrialLog : List JsVal
  /-- Mirror of the series, keyed by `id`. -/
  memorySeries : JsMap
  /-- Contents of the database. -/
  durable : Durable
  deriving DecidableEq, Repr

/-- The state when the module is loaded, over a database with contents `d`. -/
def initial (d : Durable) : State :=
  { dbPromise := none
    useMemoryFallback := false
    memorySettings := []
    memoryTrialLog := []
    memorySeries := []
    durable := d }

/-- The empty database. -/
def emptyDurable : Durable :=
  { settings := [], trialLog := [], series := [] }

/-! ## Connection manager -/

/-- Function `openDb`: the first call stores the open attempt in `dbPromise`,
every later call returns the stored one. -/
def openDb (s : State) (e : Env) : OpenOutcome × State :=
  match s.dbPromise with
  | some p => (p, s)
  | none => (e.openOutcome, { s with dbPromise := some e.openOutcome })

/-- The `try` block of `withDb`: await the handle, return `null` for a falsy
handle, otherwise await the unit of work. -/
def withDbTry (s : State) (e : Env)
    (operation : Durable → Except JsError JsAny × Durable) : Except JsError JsAny × State :=
  match openDb s e with
  | (.rejected err, s1) => (.error err, s1)
  | (.resolved false, s1) => (.ok (.value jsNull), s1)
  | (.resolved true, s1) =>
    match operation s1.durable with
    | (.ok r, d) => (.ok r, { s1 with durable := d })
    | (.error err, d) => (.error err, { s1 with durable := d })

/-- Function `withDb`. -/
def withDb (s : State) (e : Env)
    (operation : Durable → Except JsError JsAny × Durable) : Except JsError JsAny × State :=
  if s.useMemoryFallback then (.ok (.value jsNull), s)
  else
    match withDbTry s e operation with
    | (.ok r, s1) => (.ok r, s1)
    | (.error _, s1) => (.ok (.value jsNull), { s1 with useMemoryFallback := true })

/-! ## Storage façade: settings

The arrow function that a façade function hands to `withDb` is a definition
of its own, named after the function, taking the outcome of its transaction
and the captured arguments. -/

/-- The mirror read `memorySettings.get(key) ?? null`. -/
def mirrorSetting (s : State) (key : Prim) : JsAny :=
  (JsAny.value (s.memorySettings.get key)).orElse (.value jsNull)

/-- Unit of work of `getSetting`: read the record, return `value?.value ?? null`. -/
def getSettingOperation (tx : TxOutcome) (key : Prim) (d : Durable) :
    Except JsError JsAny × Durable :=
  runTransaction tx d (fun d =>
    match settingsGet d key with
    | .ok value => .ok ((JsAny.value value).orElse (.value jsNull), d)
    | .error err => .error err)

/-- Function `getSetting`. -/
def getSetting (s : State) (e : Env) (key : Prim) : Except JsError JsAny × State :=
  if s.useMemoryFallback then (.ok (mirrorSetting s key), s)
  else
    match withDb s e (getSettingOperation e.tx key) with
    | (.error err, s1) => (.error err, s1)
    | (.ok result, s1) =>
      if result.nullish then (.ok (mirrorSetting s1 key), s1)
      else (.ok result, s1)

/-- Unit of work of `setSetting`: put the record `{ key, value }`. -/
def setSettingOperation (tx : TxOutcome) (key : Prim) (value : JsVal) (d : Durable) :
    Except JsError JsAny × Durable :=
  runTransaction tx d (fun d =>
    match settingsPut d key value with
    | .ok d' => .ok (.value jsUndefined, d')
    | .error err => .error err)

/-- Function `setSetting`. -/
def setSetting (s : State) (e : Env) (key : Prim) (value : JsVal) :
    Except JsError JsAny × State :=
  let s1 := { s with memorySettings := s.memorySettings.set key value }
  if s1.useMemoryFallback then (.ok (.value jsUndefined), s1)
  else
    match withDb s1 e (setSettingOperation e.tx key value) with
    | (.error err, s2) => (.error err, s2)
    | (.ok _, s2) => (.ok (.value jsUndefined), s2)

/-! ## Storage façade: trial log -/

/-- Unit of work of `getTrialLog`: `getAll()`, then `entries ?? []`. -/
def getTrialLogOperation (tx : TxOutcome) (d : Durable) : Except JsError JsAny × Durable :=
  runTransaction tx d (fun d => .ok ((JsAny.array d.trialLog).orElse (.array []), d))

/-- Function `getTrialLog`. -/
def getTrialLog (s : State) (e : Env) : Except JsError JsAny × State :=
  if s.useMemoryFallback then (.ok (.array s.memoryTrialLog), s)
  else
    match withDb s e (getTrialLogOperation e.tx) with
    | (.error err, s1) => (.error err, s1)
    | (.ok (.array result), s1) => (.ok (.array result), { s1 with memoryTrialLog := result })
    | (.ok (.value _), s1) => (.ok (.array s1.memoryTrialLog), s1)

/-- Unit of work of `appendTrialLog`: add the entry. -/
def appendTrialLogOperation (tx : TxOutcome) (entry : JsVal) (d : Durable) :
    Except JsError JsAny × Durable :=
  runTransaction tx d (fun d => .ok (.value jsUndefined, trialLogAdd d entry))

/-- Function `appendTrialLog`. -/
def appendTrialLog (s : State) (e : Env) (entry : JsVal) : Except JsError JsAny × State :=
  let s1 := { s with memoryTrialLog := s.memoryTrialLog ++ [entry] }
  if s1.useMemoryFallback then (.ok (.value jsUndefined), s1)
  else
    match withDb s1 e (appendTrialLogOperation e.tx entry) with
    | (.error err, s2) => (.error err, s2)
    | (.ok _, s2) => (.ok (.value jsUndefined), s2)

/-- The default parameter `entries = []`: only `undefined` is replaced. -/
def defaultEntries (entries : JsAny) : JsAny :=
  if entries = .value jsUndefined then .array [] else entries

/-- The copy `Array.isArray(entries) ? [...entries] : []`. -/
def copyEntries : JsAny → List JsVal
  | .array items => items
  | .value _ => []

/-- Unit of work of `replaceTrialLog`: clear the store, then add every entry
of the mirror in order. -/
def replaceTrialLogOperation (tx : TxOutcome) (mirror : List JsVal) (d : Durable) :
    Except JsError JsAny × Durable :=
  runTransaction tx d (fun d =>
    .ok (.value jsUndefined, mirror.foldl trialLogAdd (trialLogClear d)))

/-- Function `replaceTrialLog`. -/
def replaceTrialLog (s : State) (e : Env) (entries : JsAny) : Except JsError JsAny × State :=
  let s1 := { s with memoryTrialLog := copyEntries (defaultEntries entries) }
  if s1.useMemoryFallback then (.ok (.value jsUndefined), s1)
  else
    match withDb s1 e (replaceTrialLogOperation e.tx s1.memoryTrialLog) with
    | (.error err, s2) => (.error err, s2)
    | (.ok _, s2) => (.ok (.value jsUndefined), s2)

/-! ## Storage façade: series -/

/-- The mirror read `memorySeries.get(id) ?? null`. -/
def mirrorSeries (s : State) (id : Prim) : JsAny :=
  (JsAny.value (s.memorySeries.get id)).orElse (.value jsNull)

/-- The rebuild of the series mirror in `getSeriesList`: `clear()`, then every
entry with a truthy `id` is set under that `id`. -/
def rebuildSeries (entries : List JsVal) : JsMap :=
  entries.foldl (fun m entry => if entry.optId.truthy then m.set entry.optId entry else m) []

/-- Unit of work of `getSeriesList`: `getAll()`, then `entries ?? []`. -/
def getSeriesListOperation (tx : TxOutcome) (d : Durable) : Except JsError JsAny × Durable :=
  runTransaction tx d (fun d => .ok ((JsAny.array d.series).orElse (.array []), d))

/-- Function `getSeriesList`. -/
def getSeriesList (s : State) (e : Env) : Except JsError JsAny × State :=
  if s.useMemoryFallback then (.ok (.array s.memorySeries.values), s)
  else
    match withDb s e (getSeriesListOperation e.tx) with
    | (.error err, s1) => (.error err, s1)
    | (.ok (.array result), s1) =>
      (.ok (.array result), { s1 with memorySeries := rebuildSeries result })
    | (.ok (.value _), s1) => (.ok (.array s1.memorySeries.values), s1)

/-- Unit of work of `getSeriesById`: read the record, return `entry ?? null`. -/
def getSeriesByIdOperation (tx : TxOutcome) (id : Prim) (d : Durable) :
    Except JsError JsAny × Durable :=
  runTransaction tx d (fun d =>
    match seriesGet d id with
    | .ok entry => .ok ((JsAny.value entry).orElse (.value jsNull), d)
    | .error err => .error err)

/-- Function `getSeriesById`. The test `result && result.id` reads `id` only
from a truthy result; an array is truthy and has no `id`. -/
def getSeriesById (s : State) (e : Env) (id : Prim) : Except JsError JsAny × State :=
  if !id.truthy then (.ok (.value jsNull), s)
  else if s.useMemoryFallback then (.ok (mirrorSeries s id), s)
  else
    match withDb s e (getSeriesByIdOperation e.tx id) with
    | (.error err, s1) => (.error err, s1)
    | (.ok (.array _), s1) => (.ok (mirrorSeries s1 id), s1)
    | (.ok (.value result), s1) =>
      if result.truthy then
        match result.getId with
        | .error err => (.error err, s1)
        | .ok rid =>
          if rid.truthy then
            (.ok (.value result), { s1 with memorySeries := s1.memorySeries.set rid result })
          else (.ok (mirrorSeries s1 id), s1)
      else (.ok (mirrorSeries s1 id), s1)

/-- Unit of work of `saveSeries`: put the record. -/
def saveSeriesOperation (tx : TxOutcome) (series : JsVal) (d : Durable) :
    Except JsError JsAny × Durable :=
  runTransaction tx d (fun d =>
    match seriesPut d series with
    | .ok d' => .ok (.value jsUndefined, d')
    | .error err => .error err)

/-- Function `saveSeries`. -/
def saveSeries (s : State) (e : Env) (series : JsVal) : Except JsError JsAny × State :=
  if !series.optId.truthy then (.ok (.value jsNull), s)
  else
    match series.getId with
    | .error err => (.error err, s)
    | .ok id =>
      let s1 := { s with memorySeries := s.memorySeries.set id series }
      if s1.useMemoryFallback then (.ok (.value series), s1)
      else
        match withDb s1 e (saveSeriesOperation e.tx series) with
        | (.error err, s2) => (.error err, s2)
        | (.ok _, s2) => (.ok (.value series), s2)

/-- Unit of work of `deleteSeries`: delete the record with that key. -/
def deleteSeriesOperation (tx : TxOutcome) (id : Prim) (d : Durable) :
    Except JsError JsAny × Durable :=
  runTransaction tx d (fun d =>
    match seriesDelete d id with
    | .ok d' => .ok (.value jsUndefined, d')
    | .error err => .error err)

/-- Function `deleteSeries`. -/
def deleteSeries (s : State) (e : Env) (id : Prim) : Except JsError JsAny × State :=
  if !id.truthy then (.ok (.value jsUndefined), s)
  else
    let s1 := { s with memorySeries := s.memorySeries.delete id }
    if s1.useMemoryFallback then (.ok (.value jsUndefined), s1)
    else
      match withDb s1 e (deleteSeriesOperation e.tx id) with
      | (.error err, s2) => (.error err, s2)
      | (.ok _, s2) => (.ok (.value jsUndefined), s2)

/-! ## Calls and reachable states -/

/-- A call of one exported function with its arguments. -/
inductive Call where
  | getSetting (key : Prim)
  | setSetting (key : Prim) (value : JsVal)
  | getTrialLog
  | appendTrialLog (entry : JsVal)
  | replaceTrialLog (entries : JsAny)
  | getSeriesList
  | getSeriesById (id : Prim)
  | saveSeries (series : JsVal)
  | deleteSeries (id : Prim)
  deriving DecidableEq, Repr

/-- Runs one call to completion. -/
def step (s : State) (e : Env) : Call → Except JsError JsAny × State
  | .getSetting key => getSetting s e key
  | .setSetting key value => setSetting s e key value
  | .getTrialLog => getTrialLog s e
  | .appendTrialLog entry => appendTrialLog s e entry
  | .replaceTrialLog entries => replaceTrialLog s e entries
  | .getSeriesList => getSeriesList s e
  | .getSeriesById id => getSeriesById s e id
  | .saveSeries series => saveSeries s e series
  | .deleteSeries id => deleteSeries s e id

/-- The states the module can be in: the initial state over any database, and
every state left by a call made in such a state. -/
inductive Reachable : State → Prop where
  | init (d : Durable) : Reachable (initial d)
  | call {s : State} (e : Env) (c : Call) : Reachable s → Reachable (step s e c).2

/-- A healthy browser for one call: the open resolves with a handle and the
transaction completes. -/
def healthy : Env :=
  { openOutcome := .resolved true, tx := .complete }

/-- A browser without `indexedDB`: the open rejects. -/
def unavailable : Env :=
  { openOutcome := .rejected .unavailable, tx := .complete }


/-- Calls of the functions without a `return` value (`setSetting`,
`appendTrialLog`, `replaceTrialLog`, `deleteSeries`): their promise resolves
with `undefined`. -/
def Call.returnsNothing : Call → Bool
  | .setSetting _ _ => true
  | .appendTrialLog _ => true
  | .replaceTrialLog _ => true
  | .deleteSeries _ => true
  | _ => false

/-! ## Sequences of calls -/

/-- Runs a sequence of calls, each with what the browser does during it, and
returns the state it leaves. -/
def run (s : State) : List (Env × Call) → State
  | [] => s
  | (e, c) :: rest => run (step s e c).2 rest

/-- The values returned by the calls of a sequence, in order. -/
def results (s : State) : List (Env × Call) → List (Except JsError JsAny)
  | [] => []
  | (e, c) :: rest => (step s e c).1 :: results (step s e c).2 rest

/-- Calls `saveSeries` on each series of a list, in order, each with what the
browser does during the call. -/
def saveAll (s : State) (saves : List (Env × JsVal)) : State :=
  run s (saves.map (fun p => (p.1, Call.saveSeries p.2)))

/-- The same calls against the pure in-memory store: the module with a backend
that is unavailable from the start. -/
def inMemory (calls : List (Env × Call)) : List (Env × Call) :=
  calls.map (fun p => (unavailable, p.2))

/-- Two answers to a call are the same up to the order of the series list: equal
for every function but `getSeriesList`, whose two lists hold the same elements. -/
def SameAnswer (c : Call) (a b : Except JsError JsAny) : Prop :=
  match c with
  | .getSeriesList => ∃ xs ys, a = .ok (.array xs) ∧ b = .ok (.array ys) ∧ xs.Perm ys
  | _ => a = b

/-- What a call returns and does on the mirrors alone. The lemma
`step_of_fallback` shows that this is the call in memory-only mode. -/
def memoryStep (s : State) : Call → JsAny × State
  | .getSetting key => (mirrorSetting s key, s)
  | .setSetting key value =>
    (.value jsUndefined, { s with memorySettings := s.memorySettings.set key value })
  | .getTrialLog => (.array s.memoryTrialLog, s)
  | .appendTrialLog entry =>
    (.value jsUndefined, { s with memoryTrialLog := s.memoryTrialLog ++ [entry] })
  | .replaceTrialLog entries =>
    (.value jsUndefined, { s with memoryTrialLog := copyEntries (defaultEntries entries) })
  | .getSeriesList => (.array s.memorySeries.values, s)
  | .getSeriesById id => (if id.truthy then mirrorSeries s id else .value jsNull, s)
  | .saveSeries series =>
    if series.optId.truthy then
      (.value series, { s with memorySeries := s.memorySeries.set series.optId series })
    else (.value jsNull, s)
  | .deleteSeries id =>
    (.value jsUndefined,
      if id.truthy then { s with memorySeries := s.memorySeries.delete id } else s)

/-- Whether a call opens the database: `openDb` runs its open attempt exactly
when `dbPromise` is still `null`, and stores the attempt. -/
def opensBackend (s : State) (e : Env) (c : Call) : Bool :=
  s.dbPromise.isNone && (step s e c).2.dbPromise.isSome

/-- Number of calls of a sequence that open the database. -/
def countOpens (s : State) : List (Env × Call) → Nat
  | [] => 0
  | (e, c) :: rest => (if opensBackend s e c then 1 else 0) + countOpens (step s e c).2 rest

/-- The last entry of a list whose `id` is the given one, if any. This follows
the words "the last one winning for a repeated id" and is what the rebuilt
mirror is compared with. -/
def lastWithId (entries : List JsVal) (id : Prim) : Option JsVal :=
  entries.reverse.find? (fun r => decide (r.optId = id))

/-- Whether a call gets as far as `withDb` when the store is not degraded: the
series functions return before it for a falsy `id`. -/
def Call.usesBackend : Call → Bool
  | .getSeriesById id => id.truthy
  | .saveSeries series => series.optId.truthy
  | .deleteSeries id => id.truthy
  | _ => true

/-- Whether the request of a call carries a key the object store accepts. -/
def Call.validRequest : Call → Bool
  | .getSetting key => validKey key
  | .setSetting key _ => validKey key
  | .getSeriesById id => validKey id
  | .saveSeries series => validKey series.optId
  | .deleteSeries id => validKey id
  | _ => true

/-- Whether an open, a request or a transaction fails during a call: the store
is not degraded, the call gets to `withDb`, and the open attempt rejects, or
the handle is there and the transaction does not complete or the request
raises. -/
def failsIn (s : State) (e : Env) (c : Call) : Bool :=
  !s.useMemoryFallback && c.usesBackend &&
    match (openDb s e).1 with
    | .rejected _ => true
    | .resolved false => false
    | .resolved true => decide (e.tx ≠ .complete) || !c.validRequest

/-- Whether an open, a request or a transaction fails during a sequence of
calls. -/
def anyFailure (s : State) : List (Env × Call) → Bool
  | [] => false
  | (e, c) :: rest => failsIn s e c || anyFailure (step s e c).2 rest

/-! ## Invariants used in the statements -/

/-- Every entry of the series mirror is stored under its own `id`. -/
def MirrorKeyed (s : State) : Prop :=
  ∀ kv ∈ s.memorySeries, kv.2.optId = kv.1

/-- No series with this `id` can be read: the mirror holds none, and the store
is in memory-only mode, or holds no handle, or holds a handle to a database
without a record of that `id`. -/
def SeriesAbsent (s : State) (id : Prim) : Prop :=
  (∀ kv ∈ s.memorySeries, kv.1 ≠ id ∧ kv.2.optId ≠ id) ∧
  (s.useMemoryFallback = true ∨
   (s.useMemoryFallback = false ∧ s.dbPromise = some (.resolved false)) ∨
   (s.useMemoryFallback = false ∧ s.dbPromise = some (.resolved true) ∧
    ∀ r ∈ s.durable.series, r.optId ≠ id))

/-- The series can be read back: the mirror maps its `id` to it, and the store is
in memory-only mode, or holds no handle, or holds a handle to a database in
which the series is the one record with that `id`. -/
def SeriesPresent (s : State) (x : JsVal) : Prop :=
  s.memorySeries.get x.optId = x ∧
  (s.useMemoryFallback = true ∨
   (s.useMemoryFallback = false ∧ s.dbPromise = some (.resolved false)) ∨
   (s.useMemoryFallback = false ∧ s.dbPromise = some (.resolved true) ∧
    x ∈ s.durable.series ∧ ∀ r ∈ s.durable.series, r.optId = x.optId → r = x))

/-- Well-formed mirrors: no key twice in the settings mirror or in the series
mirror, and every entry of the series mirror is stored under its own, truthy
`id`. -/
def MirrorsWF (s : State) : Prop :=
  (s.memorySettings.map Prod.fst).Nodup ∧
  (s.memorySeries.map Prod.fst).Nodup ∧
  ∀ kv ∈ s.memorySeries, kv.2.optId = kv.1 ∧ kv.1.truthy = true

/-- Consistency of the mirrors with the database: every setting of the mirror is
a record of the database, every series of the mirror is a record of the
database with the `id` it is mirrored under, and the mirrored log is a suffix
of the log of the database. -/
def MirrorConsistent (s : State) : Prop :=
  (∀ kv ∈ s.memorySettings, kv ∈ s.durable.settings) ∧
  (∀ kv ∈ s.memorySeries, kv.2 ∈ s.durable.series ∧ kv.2.optId = kv.1) ∧
  s.memoryTrialLog <:+ s.durable.trialLog

/-- Two states hold the same mirrors, up to the order of the series mirror. -/
def MirrorsAgree (a b : State) : Prop :=
  a.memorySettings = b.memorySettings ∧ a.memoryTrialLog = b.memoryTrialLog ∧
  ∀ kv, kv ∈ a.memorySeries ↔ kv ∈ b.memorySeries

/-- The store never consults the database: it is degraded, or it has not opened
the database yet (and will fail to). -/
def MemOnly (s : State) : Prop :=
  s.useMemoryFallback = true ∨ s.dbPromise = none

/-- The database holds exactly what the mirrors hold, as long as the store is
neither degraded nor without a handle. -/
def Synced (s : State) : Prop :=
  s.useMemoryFallback = false → s.dbPromise ≠ some (.resolved false) →
    s.durable.settings = s.memorySettings ∧ s.durable.trialLog = s.memoryTrialLog ∧
    s.durable.series.Nodup ∧
    ∀ k v, (k, v) ∈ s.memorySeries ↔ (v ∈ s.durable.series ∧ v.optId = k)

/-! ## Helper lemmas -/

theorem JsMap.get_set_self (m : JsMap) (k : Prim) (v : JsVal) : (m.set k v).get k = v := by
  induction m with
  | nil => simp [JsMap.set, JsMap.get]
  | cons kv m ih =>
    obtain ⟨k', v'⟩ := kv
    by_cases h : k' = k
    · simp [JsMap.set, JsMap.get, h]
    · simp [JsMap.set, JsMap.get, h, ih]

theorem openDb_fst (s : State) (e : Env) : (openDb s e).1 = s.dbPromise.getD e.openOutcome := by
  unfold openDb; cases h : s.dbPromise <;> simp

theorem openDb_snd (s : State) (e : Env) :
    (openDb s e).2 = { s with dbPromise := some (s.dbPromise.getD e.openOutcome) } := by
  unfold openDb; cases h : s.dbPromise <;> simp
  obtain ⟨p, f, ms, ml, mser, d⟩ := s
  simp_all

theorem openDb_eq (s : State) (e : Env) :
    openDb s e = (s.dbPromise.getD e.openOutcome,
      { s with dbPromise := some (s.dbPromise.getD e.openOutcome) }) := by
  exact Prod.ext (openDb_fst s e) (openDb_snd s e)

theorem withDb_eq (s : State) (e : Env) (op : Durable → Except JsError JsAny × Durable) :
    withDb s e op =
      if s.useMemoryFallback then (.ok (.value jsNull), s)
      else
        match s.dbPromise.getD e.openOutcome with
        | .rejected _ =>
          (.ok (.value jsNull),
            { s with dbPromise := some (s.dbPromise.getD e.openOutcome), useMemoryFallback := true })
        | .resolved false =>
          (.ok (.value jsNull), { s with dbPromise := some (s.dbPromise.getD e.openOutcome) })
        | .resolved true =>
          match (op s.durable).1 with
          | .ok r =>
            (.ok r, { s with dbPromise := some (s.dbPromise.getD e.openOutcome),
                             durable := (op s.durable).2 })
          | .error _ =>
            (.ok (.value jsNull),
              { s with dbPromise := some (s.dbPromise.getD e.openOutcome),
                       durable := (op s.durable).2, useMemoryFallback := true }) := by
  unfold withDb withDbTry
  rw [openDb_eq]
  cases s.useMemoryFallback
  · simp only [Bool.false_eq_true, if_false]
    cases s.dbPromise.getD e.openOutcome with
    | rejected err => rfl
    | resolved h =>
      cases h
      · rfl
      · simp only
        rcases op s.durable with ⟨r | r, d⟩ <;> rfl
  · rfl

theorem runTransaction_complete (d : Durable) (body : Durable → Except JsError (JsAny × Durable)) :
    runTransaction .complete d body =
      match body d with
      | .ok (r, d') => (.ok r, d')
      | .error err => (.error err, d) := rfl

theorem runTransaction_failed (tx : TxOutcome) (h : tx ≠ .complete) (d : Durable)
    (body : Durable → Except JsError (JsAny × Durable)) :
    ∃ err, runTransaction tx d body = (.error err, d) := by
  cases tx
  · exact absurd rfl h
  all_goals exact ⟨_, rfl⟩

theorem getSettingOperation_cases (tx : TxOutcome) (key : Prim) (d : Durable) :
    (tx = .complete ∧ validKey key = true ∧ getSettingOperation tx key d =
        (.ok ((JsAny.value (d.settings.get key)).orElse (.value jsNull)), d)) ∨
    ((tx ≠ .complete ∨ validKey key = false) ∧
      ∃ err, getSettingOperation tx key d = (.error err, d)) := by
  by_cases ht : tx = .complete
  · subst ht
    cases hv : validKey key
    · exact Or.inr ⟨Or.inr rfl, _, by simp [getSettingOperation, runTransaction, settingsGet, hv]; rfl⟩
    · exact Or.inl ⟨rfl, rfl, by simp [getSettingOperation, runTransaction, settingsGet, hv]⟩
  · exact Or.inr ⟨Or.inl ht, runTransaction_failed tx ht d _⟩

theorem setSettingOperation_cases (tx : TxOutcome) (key : Prim) (value : JsVal) (d : Durable) :
    (tx = .complete ∧ validKey key = true ∧ setSettingOperation tx key value d =
        (.ok (.value jsUndefined), { d with settings := d.settings.set key value })) ∨
    ((tx ≠ .complete ∨ validKey key = false) ∧
      ∃ err, setSettingOperation tx key value d = (.error err, d)) := by
  by_cases ht : tx = .complete
  · subst ht
    cases hv : validKey key
    · exact Or.inr ⟨Or.inr rfl, _, by simp [setSettingOperation, runTransaction, settingsPut, hv]; rfl⟩
    · exact Or.inl ⟨rfl, rfl, by simp [setSettingOperation, runTransaction, settingsPut, hv]⟩
  · exact Or.inr ⟨Or.inl ht, runTransaction_failed tx ht d _⟩

theorem foldl_trialLogAdd (entries : List JsVal) (d : Durable) :
    entries.foldl trialLogAdd d = { d with trialLog := d.trialLog ++ entries } := by
  induction entries generalizing d with
  | nil => simp
  | cons x xs ih => simp [ih, trialLogAdd]

theorem getTrialLogOperation_cases (tx : TxOutcome) (d : Durable) :
    (tx = .complete ∧ getTrialLogOperation tx d = (.ok (.array d.trialLog), d)) ∨
    (tx ≠ .complete ∧ ∃ err, getTrialLogOperation tx d = (.error err, d)) := by
  by_cases ht : tx = .complete
  · subst ht
    exact Or.inl ⟨rfl, rfl⟩
  · exact Or.inr ⟨ht, runTransaction_failed tx ht d _⟩

theorem appendTrialLogOperation_cases (tx : TxOutcome) (entry : JsVal) (d : Durable) :
    (tx = .complete ∧ appendTrialLogOperation tx entry d =
        (.ok (.value jsUndefined), { d with trialLog := d.trialLog ++ [entry] })) ∨
    (tx ≠ .complete ∧ ∃ err, appendTrialLogOperation tx entry d = (.error err, d)) := by
  by_cases ht : tx = .complete
  · subst ht
    exact Or.inl ⟨rfl, rfl⟩
  · exact Or.inr ⟨ht, runTransaction_failed tx ht d _⟩

theorem replaceTrialLogOperation_cases (tx : TxOutcome) (mirror : List JsVal) (d : Durable) :
    (tx = .complete ∧ replaceTrialLogOperation tx mirror d =
        (.ok (.value jsUndefined), { d with trialLog := mirror })) ∨
    (tx ≠ .complete ∧ ∃ err, replaceTrialLogOperation tx mirror d = (.error err, d)) := by
  by_cases ht : tx = .complete
  · subst ht
    refine Or.inl ⟨rfl, ?_⟩
    simp [replaceTrialLogOperation, runTransaction, foldl_trialLogAdd, trialLogClear]
  · exact Or.inr ⟨ht, runTransaction_failed tx ht d _⟩

theorem getSeriesListOperation_cases (tx : TxOutcome) (d : Durable) :
    (tx = .complete ∧ getSeriesListOperation tx d = (.ok (.array d.series), d)) ∨
    (tx ≠ .complete ∧ ∃ err, getSeriesListOperation tx d = (.error err, d)) := by
  by_cases ht : tx = .complete
  · subst ht
    exact Or.inl ⟨rfl, rfl⟩
  · exact Or.inr ⟨ht, runTransaction_failed tx ht d _⟩

theorem getSeriesByIdOperation_cases (tx : TxOutcome) (id : Prim) (d : Durable) :
    (tx = .complete ∧ validKey id = true ∧ getSeriesByIdOperation tx id d =
        (.ok ((JsAny.value ((d.series.find? (fun r => decide (r.optId = id))).getD
            jsUndefined)).orElse (.value jsNull)), d)) ∨
    ((tx ≠ .complete ∨ validKey id = false) ∧
      ∃ err, getSeriesByIdOperation tx id d = (.error err, d)) := by
  by_cases ht : tx = .complete
  · subst ht
    cases hv : validKey id
    · exact Or.inr ⟨Or.inr rfl, _,
        by simp [getSeriesByIdOperation, runTransaction, seriesGet, hv]; rfl⟩
    · exact Or.inl ⟨rfl, rfl, by simp [getSeriesByIdOperation, runTransaction, seriesGet, hv]⟩
  · exact Or.inr ⟨Or.inl ht, runTransaction_failed tx ht d _⟩

theorem saveSeriesOperation_cases (tx : TxOutcome) (series : JsVal) (d : Durable) :
    (tx = .complete ∧ validKey series.optId = true ∧ saveSeriesOperation tx series d =
        (.ok (.value jsUndefined),
          { d with
            series := List.orderedInsert recordLe series
                (d.series.filter (fun r => decide (r.optId ≠ series.optId))) })) ∨
    ((tx ≠ .complete ∨ validKey series.optId = false) ∧
      ∃ err, saveSeriesOperation tx series d = (.error err, d)) := by
  by_cases ht : tx = .complete
  · subst ht
    cases hv : validKey series.optId
    · exact Or.inr ⟨Or.inr rfl, _,
        by simp [saveSeriesOperation, runTransaction, seriesPut, hv]; rfl⟩
    · exact Or.inl ⟨rfl, rfl, by simp [saveSeriesOperation, runTransaction, seriesPut, hv]⟩
  · exact Or.inr ⟨Or.inl ht, runTransaction_failed tx ht d _⟩

theorem deleteSeriesOperation_cases (tx : TxOutcome) (id : Prim) (d : Durable) :
    (tx = .complete ∧ validKey id = true ∧ deleteSeriesOperation tx id d =
        (.ok (.value jsUndefined),
          { d with series := d.series.filter (fun r => decide (r.optId ≠ id)) })) ∨
    ((tx ≠ .complete ∨ validKey id = false) ∧
      ∃ err, deleteSeriesOperation tx id d = (.error err, d)) := by
  by_cases ht : tx = .complete
  · subst ht
    cases hv : validKey id
    · exact Or.inr ⟨Or.inr rfl, _,
        by simp [deleteSeriesOperation, runTransaction, seriesDelete, hv]; rfl⟩
    · exact Or.inl ⟨rfl, rfl, by simp [deleteSeriesOperation, runTransaction, seriesDelete, hv]⟩
  · exact Or.inr ⟨Or.inl ht, runTransaction_failed tx ht d _⟩

theorem JsMap.get_set_of_ne (m : JsMap) (k k' : Prim) (v : JsVal) (h : k ≠ k') :
    (m.set k v).get k' = m.get k' := by
  induction m with
  | nil => simp [JsMap.set, JsMap.get, h]
  | cons kv m ih =>
    obtain ⟨k0, v0⟩ := kv
    by_cases h0 : k0 = k
    · subst h0
      simp [JsMap.set, JsMap.get, h]
    · by_cases h1 : k0 = k'
      · subst h1
        simp [JsMap.set, JsMap.get, h0]
      · simp [JsMap.set, JsMap.get, h0, h1, ih]

theorem JsMap.get_delete_self (m : JsMap) (k : Prim) : (m.delete k).get k = jsUndefined := by
  induction m with
  | nil => simp [JsMap.delete, JsMap.get]
  | cons kv m ih =>
    obtain ⟨k0, v0⟩ := kv
    by_cases h0 : k0 = k
    · simpa [JsMap.delete, h0] using ih
    · simpa [JsMap.delete, List.filter_cons, h0, JsMap.get] using ih

theorem JsMap.mem_delete (m : JsMap) (k : Prim) (kv : Prim × JsVal) :
    kv ∈ m.delete k ↔ kv ∈ m ∧ kv.1 ≠ k := by
  simp [JsMap.delete]

theorem JsMap.mem_set (m : JsMap) (k : Prim) (v : JsVal) (kv : Prim × JsVal)
    (h : kv ∈ m.set k v) : kv = (k, v) ∨ kv ∈ m := by
  induction m with
  | nil => simpa [JsMap.set] using h
  | cons kv0 m ih =>
    obtain ⟨k0, v0⟩ := kv0
    by_cases h0 : k0 = k
    · simp only [JsMap.set, h0, if_true, List.mem_cons] at h
      rcases h with h | h
      · exact Or.inl h
      · exact Or.inr (List.mem_cons_of_mem _ h)
    · simp only [JsMap.set, h0, if_false, List.mem_cons] at h
      rcases h with h | h
      · exact Or.inr (h ▸ List.mem_cons_self _ _)
      · rcases ih h with h | h
        · exact Or.inl h
        · exact Or.inr (List.mem_cons_of_mem _ h)


/-- Summary of `withDb`: it never raises, leaves the mirrors alone, keeps a set
flag and a memoized open attempt, and ends in one of three ways: the store is
in memory-only mode and the result is `null`; the memoized open resolved
without a handle and the result is `null`; or the memoized open resolved with
a handle and the unit of work succeeded with the result. -/
theorem withDb_post (s : State) (e : Env) (op : Durable → Except JsError JsAny × Durable) :
    ∃ r s', withDb s e op = (.ok r, s') ∧
      s'.memorySettings = s.memorySettings ∧ s'.memoryTrialLog = s.memoryTrialLog ∧
      s'.memorySeries = s.memorySeries ∧
      (s.useMemoryFallback = true → s' = s) ∧
      (∀ o, s.dbPromise = some o → s'.dbPromise = some o) ∧
      ((s'.useMemoryFallback = true ∧ r = .value jsNull) ∨
       (s'.useMemoryFallback = false ∧ s'.dbPromise = some (.resolved false) ∧
          r = .value jsNull ∧ s'.durable = s.durable) ∨
       (s'.useMemoryFallback = false ∧ s'.dbPromise = some (.resolved true) ∧
          op s.durable = (.ok r, s'.durable))) := by
  rw [withDb_eq]
  cases hf : s.useMemoryFallback
  · simp only [Bool.false_eq_true, if_false]
    generalize ho : s.dbPromise.getD e.openOutcome = o
    have hm : ∀ o', s.dbPromise = some o' → some o = some o' := by
      intro o' h; rw [← ho, h]; rfl
    cases o with
    | rejected err => exact ⟨_, _, rfl, rfl, rfl, rfl, by simp, hm, Or.inl ⟨rfl, rfl⟩⟩
    | resolved h =>
      cases h
      · exact ⟨_, _, rfl, rfl, rfl, rfl, by simp, hm, Or.inr (Or.inl ⟨rfl, rfl, rfl, rfl⟩)⟩
      · rcases hop : op s.durable with ⟨r | r, d⟩
        · exact ⟨_, _, rfl, rfl, rfl, rfl, by simp, hm, Or.inl ⟨rfl, rfl⟩⟩
        · exact ⟨_, _, rfl, rfl, rfl, rfl, by simp, hm, Or.inr (Or.inr ⟨rfl, rfl, rfl⟩)⟩
  · exact ⟨_, _, rfl, rfl, rfl, rfl, fun _ => rfl, fun o ho => ho, Or.inl ⟨hf, rfl⟩⟩

theorem step_frame (s : State) (e : Env) (c : Call) :
    (s.useMemoryFallback = true → (step s e c).2.useMemoryFallback = true) ∧
    (∀ o, s.dbPromise = some o → (step s e c).2.dbPromise = some o) := by
  cases c
  case getSetting key =>
    simp only [step, getSetting]
    split
    · simp_all
    · obtain ⟨r, s', hw, -, -, -, h1, h2, -⟩ := withDb_post s e (getSettingOperation e.tx key)
      rw [hw]
      simp only
      split <;> simp_all
  case setSetting key value =>
    simp only [step, setSetting]
    split
    · simp_all
    · obtain ⟨r, s', hw, -, -, -, h1, h2, -⟩ := withDb_post _ e (setSettingOperation e.tx key value)
      rw [hw]
      simp_all
  case getTrialLog =>
    simp only [step, getTrialLog]
    split
    · simp_all
    · obtain ⟨r, s', hw, -, -, -, h1, h2, -⟩ := withDb_post s e (getTrialLogOperation e.tx)
      rw [hw]
      cases r <;> simp_all
  case appendTrialLog entry =>
    simp only [step, appendTrialLog]
    split
    · simp_all
    · obtain ⟨r, s', hw, -, -, -, h1, h2, -⟩ := withDb_post _ e (appendTrialLogOperation e.tx entry)
      rw [hw]
      simp_all
  case replaceTrialLog entries =>
    simp only [step, replaceTrialLog]
    split
    · simp_all
    · obtain ⟨r, s', hw, -, -, -, h1, h2, -⟩ := withDb_post _ e (replaceTrialLogOperation e.tx _)
      rw [hw]
      simp_all
  case getSeriesList =>
    simp only [step, getSeriesList]
    split
    · simp_all
    · obtain ⟨r, s', hw, -, -, -, h1, h2, -⟩ := withDb_post s e (getSeriesListOperation e.tx)
      rw [hw]
      cases r <;> simp_all
  case getSeriesById id =>
    simp only [step, getSeriesById]
    split
    · simp_all
    · split
      · simp_all
      · obtain ⟨r, s', hw, -, -, -, h1, h2, -⟩ := withDb_post s e (getSeriesByIdOperation e.tx id)
        rw [hw]
        cases r
        · simp only
          split
          · split
            · simp_all
            · split <;> simp_all
          · simp_all
        · simp_all
  case saveSeries series =>
    simp only [step, saveSeries]
    split
    · simp_all
    · split
      · simp_all
      · split
        · simp_all
        · obtain ⟨r, s', hw, -, -, -, h1, h2, -⟩ := withDb_post _ e (saveSeriesOperation e.tx series)
          rw [hw]
          simp_all
  case deleteSeries id =>
    simp only [step, deleteSeries]
    split
    · simp_all
    · split
      · simp_all
      · obtain ⟨r, s', hw, -, -, -, h1, h2, -⟩ := withDb_post _ e (deleteSeriesOperation e.tx id)
        rw [hw]
        simp_all

/-! ## Settings: write then read -/

/-- C1 (counterexample): with a healthy backend, `setSetting("volume", undefined)`
followed by `getSetting("volume")` does not degrade the store, and `getSetting`
returns `null`, which is not the value that was set. -/
theorem setting_undefined_counterexample :
    (getSetting (setSetting (initial emptyDurable) healthy (.str "volume")
        jsUndefined).2 healthy (.str "volume")).2.useMemoryFallback =
      (initial emptyDurable).useMemoryFallback ∧
    (getSetting (setSetting (initial emptyDurable) healthy (.str "volume")
        jsUndefined).2 healthy (.str "volume")).1 = .ok (.value jsNull) ∧
    (getSetting (setSetting (initial emptyDurable) healthy (.str "volume")
        jsUndefined).2 healthy (.str "volume")).1 ≠ .ok (.value jsUndefined) := by
  have h : (getSetting (setSetting (initial emptyDurable) healthy (.str "volume")
      jsUndefined).2 healthy (.str "volume")).1 = .ok (.value jsNull) := rfl
  refine ⟨rfl, h, ?_⟩
  rw [h]
  simp [jsNull, jsUndefined]

/-- C1 (amended): for every state, key and value, if `setSetting(key, value)`
is followed by `getSetting(key)` and the degrade flag is the same after the two
calls as before them, then `getSetting` returns `value`, except that it returns
`null` when `value` is `undefined`. -/
theorem setSetting_then_getSetting (s : State) (e1 e2 : Env) (key : Prim) (value : JsVal)
    (h : (getSetting (setSetting s e1 key value).2 e2 key).2.useMemoryFallback =
      s.useMemoryFallback) :
    (getSetting (setSetting s e1 key value).2 e2 key).1 =
      .ok (if value = jsUndefined then .value jsNull else .value value) := by
  have hv : (JsAny.value value).orElse (.value jsNull) =
      if value = jsUndefined then .value jsNull else .value value := by
    rcases value with (_ | _ | _ | _ | _) | _ <;> simp [JsAny.orElse, JsAny.nullish, JsVal.nullish, jsNull, jsUndefined]
  rw [← hv]
  obtain ⟨p, f, ms, ml, mser, d⟩ := s
  obtain ⟨o1, t1⟩ := e1
  obtain ⟨o2, t2⟩ := e2
  have hg := JsMap.get_set_self ms key value
  have hd := JsMap.get_set_self d.settings key value
  cases f
  · simp only [setSetting, getSetting, withDb_eq] at h ⊢
    simp only [Bool.false_eq_true, if_false] at h ⊢
    generalize p.getD o1 = o at h ⊢
    rcases o with err | _ | _
    · simp at h
    · simp [mirrorSetting, hg, JsAny.nullish, jsNull, JsVal.nullish]
    · rcases setSettingOperation_cases t1 key value d with ⟨_, _, hop⟩ | ⟨_, err, hop⟩
      · rcases getSettingOperation_cases t2 key { d with settings := d.settings.set key value }
          with ⟨_, _, hop2⟩ | ⟨_, err, hop2⟩
        · simp only [hop, hop2] at h ⊢
          simp only [Option.getD_some, hd]
          by_cases hn : value.nullish = true
          · simp [JsAny.orElse, JsAny.nullish, hn, mirrorSetting, hg, jsNull, JsVal.nullish]
          · simp [JsAny.orElse, JsAny.nullish, hn, mirrorSetting, hg, jsNull, JsVal.nullish]
        · simp [hop, hop2, JsAny.nullish, jsNull, JsVal.nullish] at h
      · simp [hop, JsAny.nullish, jsNull, JsVal.nullish, getSettingOperation] at h
  · simp [setSetting, getSetting, mirrorSetting, hg]

/-- C1 (witness): with a healthy backend, `setSetting("volume", 7)` then
`getSetting("volume")` does not degrade and returns `7`. -/
theorem setSetting_then_getSetting_witness :
    (getSetting (setSetting (initial emptyDurable) healthy (.str "volume")
        (.prim (.num 7))).2 healthy (.str "volume")).2.useMemoryFallback =
      (initial emptyDurable).useMemoryFallback ∧
    (getSetting (setSetting (initial emptyDurable) healthy (.str "volume")
        (.prim (.num 7))).2 healthy (.str "volume")).1 = .ok (.value (.prim (.num 7))) :=
  ⟨rfl, setSetting_then_getSetting (initial emptyDurable) healthy healthy (.str "volume")
    (.prim (.num 7)) rfl⟩

/-- C2 (counterexample): without `indexedDB` the open attempt fails; then
`setSetting("volume", undefined)` followed by `getSetting("volume")` returns
the absent marker `null`, which is not the value that was set. -/
theorem unavailable_backend_undefined_counterexample :
    (openDb (initial emptyDurable) unavailable).1 = .rejected .unavailable ∧
    (getSetting (setSetting (initial emptyDurable) unavailable (.str "volume")
        jsUndefined).2 unavailable (.str "volume")).1 = .ok (.value jsNull) ∧
    (getSetting (setSetting (initial emptyDurable) unavailable (.str "volume")
        jsUndefined).2 unavailable (.str "volume")).1 ≠ .ok (.value jsUndefined) := by
  have h : (getSetting (setSetting (initial emptyDurable) unavailable (.str "volume")
      jsUndefined).2 unavailable (.str "volume")).1 = .ok (.value jsNull) := rfl
  refine ⟨rfl, h, ?_⟩
  rw [h]
  simp [jsNull, jsUndefined]

/-- C2 (amended): when the open attempt fails, for every key and value,
`setSetting(key, value)` leaves the store in memory-only mode and a following
`getSetting(key)` is served from the memory mirror without changing the state:
it returns `value`, except that it returns `null` when `value` is `undefined`. -/
theorem unavailable_backend_serves_mirror (s : State) (e1 e2 : Env) (key : Prim)
    (value : JsVal) (err : JsError) (h : (openDb s e1).1 = .rejected err) :
    (setSetting s e1 key value).2.useMemoryFallback = true ∧
    getSetting (setSetting s e1 key value).2 e2 key =
      (.ok (mirrorSetting (setSetting s e1 key value).2 key), (setSetting s e1 key value).2) ∧
    (getSetting (setSetting s e1 key value).2 e2 key).1 =
      .ok (if value = jsUndefined then .value jsNull else .value value) := by
  have hv : (JsAny.value value).orElse (.value jsNull) =
      if value = jsUndefined then .value jsNull else .value value := by
    rcases value with (_ | _ | _ | _ | _) | _ <;> simp [JsAny.orElse, JsAny.nullish, JsVal.nullish, jsNull, jsUndefined]
  rw [← hv]
  rw [openDb_fst] at h
  obtain ⟨p, f, ms, ml, mser, d⟩ := s
  have hg := JsMap.get_set_self ms key value
  cases f
  · simp only [setSetting, getSetting, withDb_eq]
    simp only [Bool.false_eq_true, if_false]
    simp only at h
    rw [h]
    simp [mirrorSetting, hg]
  · simp [setSetting, getSetting, mirrorSetting, hg]

/-- C2 (witness): without `indexedDB`, `setSetting("volume", 7)` degrades the
store and `getSetting("volume")` returns `7` from the mirror. -/
theorem unavailable_backend_serves_mirror_witness :
    (openDb (initial emptyDurable) unavailable).1 = .rejected .unavailable ∧
    (setSetting (initial emptyDurable) unavailable (.str "volume")
      (.prim (.num 7))).2.useMemoryFallback = true ∧
    (getSetting (setSetting (initial emptyDurable) unavailable (.str "volume")
      (.prim (.num 7))).2 unavailable (.str "volume")).1 = .ok (.value (.prim (.num 7))) :=
  ⟨rfl,
    (unavailable_backend_serves_mirror (initial emptyDurable) unavailable unavailable
      (.str "volume") (.prim (.num 7)) .unavailable rfl).1,
    (unavailable_backend_serves_mirror (initial emptyDurable) unavailable unavailable
      (.str "volume") (.prim (.num 7)) .unavailable rfl).2.2⟩

/-! ## Series: save then read -/

theorem find?_orderedInsert (p : JsVal → Bool) (x : JsVal) (l : List JsVal) (hx : p x = true)
    (hl : ∀ y ∈ l, p y = false) : (l.orderedInsert recordLe x).find? p = some x := by
  induction l with
  | nil => simp [hx]
  | cons y l ih =>
    have hy : p y = false := hl y (List.mem_cons_self _ _)
    have hl' : ∀ z ∈ l, p z = false := fun z hz => hl z (List.mem_cons_of_mem _ hz)
    by_cases hr : recordLe x y
    · simp [List.orderedInsert, hr, hx]
    · simp [List.orderedInsert, hr, hy, ih hl']

theorem truthy_optId (series : JsVal) (h : series.optId.truthy = true) :
    series.truthy = true ∧ series.nullish = false ∧ series.getId = .ok series.optId := by
  cases series with
  | prim p => simp [JsVal.optId, Prim.truthy] at h
  | obj fields => simp [JsVal.truthy, JsVal.nullish, JsVal.getId]

/-- What `saveSeries` leaves behind for a series with a truthy `id`: it returns the
series, the mirror maps the `id` to it, and the store is in memory-only mode,
or holds no handle, or holds a handle to a database that stores the series
under its `id`. -/
theorem saveSeries_post (s : State) (e : Env) (series : JsVal)
    (h : series.optId.truthy = true) :
    (saveSeries s e series).1 = .ok (.value series) ∧
    (saveSeries s e series).2.memorySeries = s.memorySeries.set series.optId series ∧
    ((saveSeries s e series).2.useMemoryFallback = true ∨
     (saveSeries s e series).2.dbPromise = some (.resolved false) ∨
     ((saveSeries s e series).2.dbPromise = some (.resolved true) ∧
      validKey series.optId = true ∧
      (saveSeries s e series).2.durable.series.find?
        (fun r => decide (r.optId = series.optId)) = some series)) := by
  obtain ⟨-, -, hid⟩ := truthy_optId series h
  simp only [saveSeries, h, hid, Bool.not_true, Bool.false_eq_true, if_false]
  split
  · next hf => exact ⟨rfl, rfl, Or.inl hf⟩
  · obtain ⟨r, s', hw, -, -, hm, -, -, hc⟩ := withDb_post
      { s with memorySeries := s.memorySeries.set series.optId series } e
      (saveSeriesOperation e.tx series)
    rw [hw]
    refine ⟨rfl, hm, ?_⟩
    rcases hc with ⟨hf, -⟩ | ⟨-, hp, -⟩ | ⟨-, hp, hop⟩
    · exact Or.inl hf
    · exact Or.inr (Or.inl hp)
    · refine Or.inr (Or.inr ⟨hp, ?_⟩)
      rcases saveSeriesOperation_cases e.tx series s.durable with ⟨-, hv, hop'⟩ | ⟨-, err, hop'⟩
      · simp only at hop
        rw [hop'] at hop
        have hd : s'.durable = _ := (Prod.mk.inj hop).2.symm
        refine ⟨hv, ?_⟩
        rw [hd]
        exact find?_orderedInsert _ _ _ (by simp) (by simp)
      · simp only at hop
        rw [hop'] at hop
        simp at hop

/-- C3: for every series with a (truthy) `id`, in every state and whatever the
backend does during either call, `saveSeries(s)` returns `s` and a following
`getSeriesById(s.id)` returns `s`. -/
theorem saveSeries_then_getSeriesById (s : State) (e1 e2 : Env) (series : JsVal)
    (h : series.optId.truthy = true) :
    (saveSeries s e1 series).1 = .ok (.value series) ∧
    (getSeriesById (saveSeries s e1 series).2 e2 series.optId).1 = .ok (.value series) := by
  obtain ⟨hr, hm, hc⟩ := saveSeries_post s e1 series h
  obtain ⟨ht, hn, hid⟩ := truthy_optId series h
  refine ⟨hr, ?_⟩
  generalize (saveSeries s e1 series).2 = s1 at hm hc
  have hmir : ∀ s2 : State, s2.memorySeries = s1.memorySeries →
      mirrorSeries s2 series.optId = .value series := by
    intro s2 h2
    simp [mirrorSeries, h2, hm, JsMap.get_set_self, JsAny.orElse, JsAny.nullish, hn]
  simp only [getSeriesById, h, Bool.not_true, Bool.false_eq_true, if_false]
  split
  · rw [hmir s1 rfl]
  · next hf =>
    obtain ⟨r, s2, hw, -, -, hm2, -, hmemo, hc2⟩ := withDb_post s1 e2
      (getSeriesByIdOperation e2.tx series.optId)
    rw [hw]
    rcases hc2 with ⟨-, hnull⟩ | ⟨-, -, hnull, -⟩ | ⟨-, hp2, hop⟩
    · subst hnull
      simp [jsNull, JsVal.truthy, Prim.truthy, hmir s2 hm2]
    · subst hnull
      simp [jsNull, JsVal.truthy, Prim.truthy, hmir s2 hm2]
    · rcases hc with hf1 | hp1 | ⟨hp1, hv, hfind⟩
      · exact absurd hf1 hf
      · rw [hmemo _ hp1] at hp2
        simp at hp2
      · rcases getSeriesByIdOperation_cases e2.tx series.optId s1.durable
          with ⟨-, -, hop'⟩ | ⟨-, err, hop'⟩
        · rw [hop', hfind] at hop
          have hres : r = .value series := by
            have := (Prod.mk.inj hop).1
            simp [JsAny.orElse, JsAny.nullish, hn] at this
            exact this.symm
          subst hres
          simp [ht, hid, h]
        · rw [hop'] at hop
          simp at hop

/-- C3 (witness): saving `{ id: "s1" }` with a healthy backend and reading it
back by its `id`. -/
theorem saveSeries_then_getSeriesById_witness :
    (JsVal.obj [("id", .str "s1")]).optId.truthy = true ∧
    (saveSeries (initial emptyDurable) healthy (.obj [("id", .str "s1")])).1 =
      .ok (.value (.obj [("id", .str "s1")])) ∧
    (getSeriesById (saveSeries (initial emptyDurable) healthy (.obj [("id", .str "s1")])).2
      healthy (JsVal.obj [("id", .str "s1")]).optId).1 =
      .ok (.value (.obj [("id", .str "s1")])) :=
  ⟨rfl, saveSeries_then_getSeriesById (initial emptyDurable) healthy healthy
    (.obj [("id", .str "s1")]) rfl⟩

/-- C4: for every series argument without a truthy `id` (an absent argument, an
object without `id`, a falsy `id`), `saveSeries` returns `null` and leaves the
whole state as it was (mirrors, database, degrade flag, memoized open), so
`getSeriesList()` answers the same before and after the call. -/
theorem saveSeries_without_id (s : State) (e : Env) (series : JsVal)
    (h : series.optId.truthy = false) :
    saveSeries s e series = (.ok (.value jsNull), s) ∧
    ∀ e' : Env, getSeriesList (saveSeries s e series).2 e' = getSeriesList s e' := by
  have h1 : saveSeries s e series = (.ok (.value jsNull), s) := by
    simp [saveSeries, h]
  exact ⟨h1, fun e' => by rw [h1]⟩

/-- C4 (witness): `saveSeries(undefined)` on a store that already holds a series. -/
theorem saveSeries_without_id_witness :
    jsUndefined.optId.truthy = false ∧
    saveSeries (saveSeries (initial emptyDurable) healthy (.obj [("id", .str "s1")])).2
        healthy jsUndefined =
      (.ok (.value jsNull),
        (saveSeries (initial emptyDurable) healthy (.obj [("id", .str "s1")])).2) :=
  ⟨rfl, (saveSeries_without_id _ healthy jsUndefined rfl).1⟩

/-! ## Trial log -/

/-- What `appendTrialLog` leaves behind: the entry is the last one of the mirror,
and the store is in memory-only mode, or holds no handle, or holds a handle
to a database whose log got the entry appended. -/
theorem appendTrialLog_post (s : State) (e : Env) (entry : JsVal) :
    (appendTrialLog s e entry).1 = .ok (.value jsUndefined) ∧
    (appendTrialLog s e entry).2.memoryTrialLog = s.memoryTrialLog ++ [entry] ∧
    ((appendTrialLog s e entry).2.useMemoryFallback = true ∨
     ((appendTrialLog s e entry).2.useMemoryFallback = false ∧
      (appendTrialLog s e entry).2.dbPromise = some (.resolved false)) ∨
     ((appendTrialLog s e entry).2.useMemoryFallback = false ∧
      (appendTrialLog s e entry).2.dbPromise = some (.resolved true) ∧
      (appendTrialLog s e entry).2.durable.trialLog = s.durable.trialLog ++ [entry])) := by
  simp only [appendTrialLog]
  split
  · next hf => exact ⟨rfl, rfl, Or.inl hf⟩
  · obtain ⟨r, s', hw, -, hm, -, -, -, hc⟩ := withDb_post
      { s with memoryTrialLog := s.memoryTrialLog ++ [entry] } e
      (appendTrialLogOperation e.tx entry)
    rw [hw]
    refine ⟨rfl, hm, ?_⟩
    rcases hc with ⟨hf, -⟩ | ⟨hf, hp, -⟩ | ⟨hf, hp, hop⟩
    · exact Or.inl hf
    · exact Or.inr (Or.inl ⟨hf, hp⟩)
    · refine Or.inr (Or.inr ⟨hf, hp, ?_⟩)
      rcases appendTrialLogOperation_cases e.tx entry s.durable with ⟨-, hop'⟩ | ⟨-, err, hop'⟩
      · simp only at hop
        rw [hop'] at hop
        rw [← (Prod.mk.inj hop).2]
      · simp only at hop
        rw [hop'] at hop
        simp at hop

/-- What `getTrialLog` returns: a copy of the mirror, or, when the store is not
degraded and the open attempt resolves with a handle, the log of the database. -/
theorem getTrialLog_read (s : State) (e : Env) :
    (getTrialLog s e).1 = .ok (.array s.memoryTrialLog) ∨
    (s.useMemoryFallback = false ∧ (∀ o, s.dbPromise = some o → o = .resolved true) ∧
      (getTrialLog s e).1 = .ok (.array s.durable.trialLog)) := by
  simp only [getTrialLog]
  split
  · exact Or.inl rfl
  · next hf =>
    obtain ⟨r, s', hw, -, hm, -, -, hmemo, hc⟩ := withDb_post s e (getTrialLogOperation e.tx)
    rw [hw]
    rcases hc with ⟨-, hnull⟩ | ⟨-, -, hnull, -⟩ | ⟨-, hp, hop⟩
    · subst hnull
      exact Or.inl (by simp [hm])
    · subst hnull
      exact Or.inl (by simp [hm])
    · refine Or.inr ⟨by simpa using hf, ?_, ?_⟩
      · intro o ho
        have := hmemo o ho
        rw [hp] at this
        exact (Option.some.inj this).symm
      · rcases getTrialLogOperation_cases e.tx s.durable with ⟨-, hop'⟩ | ⟨-, err, hop'⟩
        · rw [hop'] at hop
          rw [← (Prod.mk.inj hop).1]
        · rw [hop'] at hop
          simp at hop

/-- C5: for every two entries and every state, after `appendTrialLog(e1)` and
`appendTrialLog(e2)` the sequence returned by `getTrialLog()` ends with `e1`,
`e2` in that order, whatever the backend does during the three calls. -/
theorem appendTrialLog_twice_then_getTrialLog (s : State) (e1 e2 e3 : Env) (x y : JsVal) :
    ∃ pre : List JsVal,
      (getTrialLog (appendTrialLog (appendTrialLog s e1 x).2 e2 y).2 e3).1 =
        .ok (.array (pre ++ [x, y])) := by
  obtain ⟨-, hm1, hc1⟩ := appendTrialLog_post s e1 x
  obtain ⟨hf1, hmemo1⟩ := step_frame (appendTrialLog s e1 x).2 e2 (.appendTrialLog y)
  simp only [step] at hf1 hmemo1
  generalize (appendTrialLog s e1 x).2 = s1 at hm1 hc1 hf1 hmemo1
  obtain ⟨-, hm2, hc2⟩ := appendTrialLog_post s1 e2 y
  generalize (appendTrialLog s1 e2 y).2 = s2 at hm2 hc2 hf1 hmemo1
  rcases getTrialLog_read s2 e3 with hr | ⟨hf, hp, hr⟩
  · exact ⟨s.memoryTrialLog, by rw [hr, hm2, hm1]; simp⟩
  · rcases hc2 with hf2 | ⟨-, hp2⟩ | ⟨-, hp2, hd2⟩
    · rw [hf] at hf2; exact absurd hf2 (by simp)
    · exact absurd (hp _ hp2) (by simp)
    · rcases hc1 with hf1' | ⟨-, hp1⟩ | ⟨-, -, hd1⟩
      · rw [hf1 hf1'] at hf; exact absurd hf (by simp)
      · exact absurd (hp _ (hmemo1 _ hp1)) (by simp)
      · exact ⟨s.durable.trialLog, by rw [hr, hd2, hd1]; simp⟩

/-- What `replaceTrialLog` leaves behind: the mirror is the copy of the argument,
and the store is in memory-only mode, or holds no handle, or holds a handle
to a database whose log is exactly that copy. -/
theorem replaceTrialLog_post (s : State) (e : Env) (entries : JsAny) :
    (replaceTrialLog s e entries).1 = .ok (.value jsUndefined) ∧
    (replaceTrialLog s e entries).2.memoryTrialLog = copyEntries (defaultEntries entries) ∧
    ((replaceTrialLog s e entries).2.useMemoryFallback = true ∨
     ((replaceTrialLog s e entries).2.useMemoryFallback = false ∧
      (replaceTrialLog s e entries).2.dbPromise = some (.resolved false)) ∨
     ((replaceTrialLog s e entries).2.useMemoryFallback = false ∧
      (replaceTrialLog s e entries).2.dbPromise = some (.resolved true) ∧
      (replaceTrialLog s e entries).2.durable.trialLog =
        copyEntries (defaultEntries entries))) := by
  simp only [replaceTrialLog]
  split
  · next hf => exact ⟨rfl, rfl, Or.inl hf⟩
  · obtain ⟨r, s', hw, -, hm, -, -, -, hc⟩ := withDb_post
      { s with memoryTrialLog := copyEntries (defaultEntries entries) } e
      (replaceTrialLogOperation e.tx (copyEntries (defaultEntries entries)))
    rw [hw]
    refine ⟨rfl, hm, ?_⟩
    rcases hc with ⟨hf, -⟩ | ⟨hf, hp, -⟩ | ⟨hf, hp, hop⟩
    · exact Or.inl hf
    · exact Or.inr (Or.inl ⟨hf, hp⟩)
    · refine Or.inr (Or.inr ⟨hf, hp, ?_⟩)
      rcases replaceTrialLogOperation_cases e.tx (copyEntries (defaultEntries entries))
        s.durable with ⟨-, hop'⟩ | ⟨-, err, hop'⟩
      · simp only at hop
        rw [hop'] at hop
        rw [← (Prod.mk.inj hop).2]
      · simp only at hop
        rw [hop'] at hop
        simp at hop

theorem getTrialLog_after_replace (s : State) (e1 e2 : Env) (entries : JsAny) :
    (getTrialLog (replaceTrialLog s e1 entries).2 e2).1 =
      .ok (.array (copyEntries (defaultEntries entries))) := by
  obtain ⟨-, hm, hc⟩ := replaceTrialLog_post s e1 entries
  generalize (replaceTrialLog s e1 entries).2 = s1 at hm hc
  rcases getTrialLog_read s1 e2 with hr | ⟨hf, hp, hr⟩
  · rw [hr, hm]
  · rcases hc with hf1 | ⟨-, hp1⟩ | ⟨-, -, hd1⟩
    · rw [hf] at hf1; exact absurd hf1 (by simp)
    · exact absurd (hp _ hp1) (by simp)
    · rw [hr, hd1]

/-- C6: for every sequence `xs` and every prior state, `replaceTrialLog(xs)`
followed by `getTrialLog()` returns exactly `xs`, with none of the prior
entries: the mirror is `xs`, and so is the log of the database unless the store
is in memory-only mode or holds no handle; and `replaceTrialLog` called with
`undefined`, `null` or any other non-array completes normally and makes the
following `getTrialLog()` return the empty sequence. -/
theorem replaceTrialLog_then_getTrialLog (s : State) (e1 e2 : Env) :
    (∀ xs : List JsVal,
      (getTrialLog (replaceTrialLog s e1 (.array xs)).2 e2).1 = .ok (.array xs) ∧
      (replaceTrialLog s e1 (.array xs)).2.memoryTrialLog = xs ∧
      ((replaceTrialLog s e1 (.array xs)).2.useMemoryFallback = true ∨
       (replaceTrialLog s e1 (.array xs)).2.dbPromise = some (.resolved false) ∨
       (replaceTrialLog s e1 (.array xs)).2.durable.trialLog = xs)) ∧
    (∀ v : JsVal,
      (replaceTrialLog s e1 (.value v)).1 = .ok (.value jsUndefined) ∧
      (getTrialLog (replaceTrialLog s e1 (.value v)).2 e2).1 = .ok (.array [])) := by
  have hd : ∀ xs : List JsVal, copyEntries (defaultEntries (.array xs)) = xs := by
    intro xs
    simp [defaultEntries, copyEntries]
  have hv : ∀ v : JsVal, copyEntries (defaultEntries (.value v)) = [] := by
    intro v
    unfold defaultEntries
    split <;> rfl
  constructor
  · intro xs
    obtain ⟨-, h1, h3⟩ := replaceTrialLog_post s e1 (.array xs)
    have h2 := getTrialLog_after_replace s e1 e2 (.array xs)
    rw [hd] at h1 h2 h3
    refine ⟨h2, h1, ?_⟩
    rcases h3 with h | ⟨-, h⟩ | ⟨-, -, h⟩
    · exact Or.inl h
    · exact Or.inr (Or.inl h)
    · exact Or.inr (Or.inr h)
  · intro v
    have h2 := getTrialLog_after_replace s e1 e2 (.value v)
    rw [hv] at h2
    exact ⟨(replaceTrialLog_post s e1 (.value v)).1, h2⟩

/-! ## Series: delete then read -/

theorem JsMap.get_of_not_mem (m : JsMap) (k : Prim) (h : ∀ kv ∈ m, kv.1 ≠ k) :
    m.get k = jsUndefined := by
  induction m with
  | nil => rfl
  | cons kv m ih =>
    obtain ⟨k0, v0⟩ := kv
    have h0 : k0 ≠ k := h (k0, v0) (List.mem_cons_self _ _)
    simp only [JsMap.get, h0, if_false]
    exact ih (fun kv hkv => h kv (List.mem_cons_of_mem _ hkv))

theorem rebuildSeries_keyed (entries : List JsVal) : ∀ kv ∈ rebuildSeries entries,
    kv.2.optId = kv.1 := by
  have key : ∀ (l : List JsVal) (m : JsMap), (∀ kv ∈ m, kv.2.optId = kv.1) →
      ∀ kv ∈ l.foldl (fun m entry => if entry.optId.truthy then m.set entry.optId entry else m) m,
        kv.2.optId = kv.1 := by
    intro l
    induction l with
    | nil => intro m hm; simpa using hm
    | cons x l ih =>
      intro m hm
      simp only [List.foldl_cons]
      apply ih
      split
      · intro kv hkv
        rcases JsMap.mem_set m _ _ kv hkv with h | h
        · rw [h]
        · exact hm kv h
      · exact hm
  exact key entries [] (by simp)

theorem step_mirrorKeyed (s : State) (e : Env) (c : Call) (h : MirrorKeyed s) :
    MirrorKeyed (step s e c).2 := by
  unfold MirrorKeyed at h ⊢
  cases c
  case getSetting key =>
    simp only [step, getSetting]
    split
    · exact h
    · obtain ⟨r, s', hw, -, -, hm, -, -, -⟩ := withDb_post s e (getSettingOperation e.tx key)
      rw [hw]
      simp only
      split <;> (simp only [hm]; exact h)
  case setSetting key value =>
    simp only [step, setSetting]
    split
    · exact h
    · obtain ⟨r, s', hw, -, -, hm, -, -, -⟩ := withDb_post _ e (setSettingOperation e.tx key value)
      rw [hw]
      simp only [hm]
      exact h
  case getTrialLog =>
    simp only [step, getTrialLog]
    split
    · exact h
    · obtain ⟨r, s', hw, -, -, hm, -, -, -⟩ := withDb_post s e (getTrialLogOperation e.tx)
      rw [hw]
      cases r <;> (simp only [hm]; exact h)
  case appendTrialLog entry =>
    simp only [step, appendTrialLog]
    split
    · exact h
    · obtain ⟨r, s', hw, -, -, hm, -, -, -⟩ := withDb_post _ e (appendTrialLogOperation e.tx entry)
      rw [hw]
      simp only [hm]
      exact h
  case replaceTrialLog entries =>
    simp only [step, replaceTrialLog]
    split
    · exact h
    · obtain ⟨r, s', hw, -, -, hm, -, -, -⟩ := withDb_post _ e (replaceTrialLogOperation e.tx _)
      rw [hw]
      simp only [hm]
      exact h
  case getSeriesList =>
    simp only [step, getSeriesList]
    split
    · exact h
    · obtain ⟨r, s', hw, -, -, hm, -, -, -⟩ := withDb_post s e (getSeriesListOperation e.tx)
      rw [hw]
      cases r
      · simp only [hm]; exact h
      · exact rebuildSeries_keyed _
  case getSeriesById id =>
    simp only [step, getSeriesById]
    split
    · exact h
    · split
      · exact h
      · obtain ⟨r, s', hw, -, -, hm, -, -, -⟩ := withDb_post s e (getSeriesByIdOperation e.tx id)
        rw [hw]
        cases r with
        | array items => simp only [hm]; exact h
        | value v =>
          simp only
          split
          · split
            · simp only [hm]; exact h
            · next rid hrid =>
              split
              · intro kv hkv
                rcases JsMap.mem_set _ _ _ kv hkv with h1 | h1
                · rw [h1]
                  simp only [JsVal.getId] at hrid
                  split at hrid
                  · simp at hrid
                  · simpa using hrid
                · rw [hm] at h1
                  exact h kv h1
              · simp only [hm]; exact h
          · simp only [hm]; exact h
  case saveSeries series =>
    simp only [step, saveSeries]
    split
    · exact h
    · split
      · exact h
      · next id hid =>
        have hid' : series.optId = id := by
          simp only [JsVal.getId] at hid
          split at hid
          · simp at hid
          · simpa using hid
        have hk : ∀ kv ∈ s.memorySeries.set id series, kv.2.optId = kv.1 := by
          intro kv hkv
          rcases JsMap.mem_set _ _ _ kv hkv with h1 | h1
          · rw [h1]; exact hid'
          · exact h kv h1
        split
        · exact hk
        · obtain ⟨r, s', hw, -, -, hm, -, -, -⟩ := withDb_post
            { s with memorySeries := s.memorySeries.set id series } e
            (saveSeriesOperation e.tx series)
          rw [hw]
          simp only [hm]
          exact hk
  case deleteSeries id =>
    simp only [step, deleteSeries]
    have hk : ∀ kv ∈ s.memorySeries.delete id, kv.2.optId = kv.1 :=
      fun kv hkv => h kv ((JsMap.mem_delete _ _ _).1 hkv).1
    split
    · exact h
    · split
      · exact hk
      · obtain ⟨r, s', hw, -, -, hm, -, -, -⟩ := withDb_post
          { s with memorySeries := s.memorySeries.delete id } e (deleteSeriesOperation e.tx id)
        rw [hw]
        simp only [hm]
        exact hk

theorem reachable_mirrorKeyed (s : State) (h : Reachable s) : MirrorKeyed s := by
  induction h with
  | init d => intro kv hkv; simp [initial] at hkv
  | call e c _ ih => exact step_mirrorKeyed _ e c ih

/-- After `deleteSeries(id)` with a truthy `id`, from a state whose mirror is
keyed by `id`, no series with that `id` can be read. -/
theorem deleteSeries_absent (s : State) (e : Env) (id : Prim) (hs : MirrorKeyed s)
    (hid : id.truthy = true) : SeriesAbsent (deleteSeries s e id).2 id := by
  have hk : ∀ kv ∈ s.memorySeries.delete id, kv.1 ≠ id ∧ kv.2.optId ≠ id := by
    intro kv hkv
    obtain ⟨h1, h2⟩ := (JsMap.mem_delete _ _ _).1 hkv
    exact ⟨h2, by rw [hs kv h1]; exact h2⟩
  simp only [deleteSeries, hid, Bool.not_true, Bool.false_eq_true, if_false]
  split
  · next hf => exact ⟨hk, Or.inl hf⟩
  · obtain ⟨r, s', hw, -, -, hm, -, -, hc⟩ := withDb_post
      { s with memorySeries := s.memorySeries.delete id } e (deleteSeriesOperation e.tx id)
    rw [hw]
    refine ⟨by simp only [hm]; exact hk, ?_⟩
    rcases hc with ⟨hf, -⟩ | ⟨hf, hp, -⟩ | ⟨hf, hp, hop⟩
    · exact Or.inl hf
    · exact Or.inr (Or.inl ⟨hf, hp⟩)
    · refine Or.inr (Or.inr ⟨hf, hp, ?_⟩)
      rcases deleteSeriesOperation_cases e.tx id s.durable with ⟨-, -, hop'⟩ | ⟨-, err, hop'⟩
      · simp only at hop
        rw [hop'] at hop
        rw [← (Prod.mk.inj hop).2]
        intro r hr
        simpa using (List.mem_filter.1 hr).2
      · simp only at hop
        rw [hop'] at hop
        simp at hop

/-- When no series with this `id` can be read, `getSeriesById(id)` returns `null`
and no series with this `id` can be read afterwards either. -/
theorem getSeriesById_absent (s : State) (e : Env) (id : Prim) (h : SeriesAbsent s id) :
    (getSeriesById s e id).1 = .ok (.value jsNull) ∧ SeriesAbsent (getSeriesById s e id).2 id := by
  obtain ⟨hmir, hc⟩ := h
  have hnull : ∀ s2 : State, s2.memorySeries = s.memorySeries →
      mirrorSeries s2 id = .value jsNull := by
    intro s2 h2
    simp [mirrorSeries, h2, JsMap.get_of_not_mem _ _ (fun kv hkv => (hmir kv hkv).1),
      JsAny.orElse, JsAny.nullish, JsVal.nullish, jsUndefined]
  simp only [getSeriesById]
  split
  · exact ⟨rfl, hmir, hc⟩
  · split
    · exact ⟨by rw [hnull s rfl], hmir, hc⟩
    · next hf =>
      obtain ⟨r, s', hw, -, -, hm, -, hmemo, hc'⟩ := withDb_post s e
        (getSeriesByIdOperation e.tx id)
      rw [hw]
      have hmir' : ∀ kv ∈ s'.memorySeries, kv.1 ≠ id ∧ kv.2.optId ≠ id := by
        rw [hm]; exact hmir
      rcases hc' with ⟨hf', hr⟩ | ⟨hf', hp', hr, -⟩ | ⟨hf', hp', hop⟩
      · subst hr
        simp only [jsNull, JsVal.truthy, Prim.truthy, Bool.false_eq_true, if_false]
        exact ⟨by rw [hnull s' hm]; rfl, hmir', Or.inl hf'⟩
      · subst hr
        simp only [jsNull, JsVal.truthy, Prim.truthy, Bool.false_eq_true, if_false]
        exact ⟨by rw [hnull s' hm]; rfl, hmir', Or.inr (Or.inl ⟨hf', hp'⟩)⟩
      · rcases hc with hf1 | ⟨-, hp1⟩ | ⟨-, -, hd1⟩
        · exact absurd hf1 hf
        · rw [hmemo _ hp1] at hp'
          simp at hp'
        · have hfind : s.durable.series.find? (fun r => decide (r.optId = id)) = none := by
            rw [List.find?_eq_none]
            intro r hr
            simpa using hd1 r hr
          rcases getSeriesByIdOperation_cases e.tx id s.durable
            with ⟨-, -, hop'⟩ | ⟨-, err, hop'⟩
          · rw [hop', hfind] at hop
            obtain ⟨hr, hd⟩ := Prod.mk.inj hop
            have hr' : r = .value jsNull := by
              rw [← Except.ok.inj hr]
              simp [JsAny.orElse, JsAny.nullish, JsVal.nullish, jsUndefined]
            subst hr'
            simp only [jsNull, JsVal.truthy, Prim.truthy, Bool.false_eq_true, if_false]
            exact ⟨by rw [hnull s' hm]; rfl, hmir',
              Or.inr (Or.inr ⟨hf', hp', by rw [← hd]; exact hd1⟩)⟩
          · rw [hop'] at hop
            simp at hop

/-- What `getSeriesList` returns: the values of the mirror, or, when the store is
not degraded and the open attempt resolves with a handle, the records of the
database. -/
theorem getSeriesList_read (s : State) (e : Env) :
    (getSeriesList s e).1 = .ok (.array s.memorySeries.values) ∨
    (s.useMemoryFallback = false ∧ (∀ o, s.dbPromise = some o → o = .resolved true) ∧
      (getSeriesList s e).1 = .ok (.array s.durable.series)) := by
  simp only [getSeriesList]
  split
  · exact Or.inl rfl
  · next hf =>
    obtain ⟨r, s', hw, -, -, hm, -, hmemo, hc⟩ := withDb_post s e (getSeriesListOperation e.tx)
    rw [hw]
    rcases hc with ⟨-, hnull⟩ | ⟨-, -, hnull, -⟩ | ⟨-, hp, hop⟩
    · subst hnull
      exact Or.inl (by simp [hm])
    · subst hnull
      exact Or.inl (by simp [hm])
    · refine Or.inr ⟨by simpa using hf, ?_, ?_⟩
      · intro o ho
        have := hmemo o ho
        rw [hp] at this
        exact (Option.some.inj this).symm
      · rcases getSeriesListOperation_cases e.tx s.durable with ⟨-, hop'⟩ | ⟨-, err, hop'⟩
        · rw [hop'] at hop
          rw [← (Prod.mk.inj hop).1]
        · rw [hop'] at hop
          simp at hop

/-- When no series with this `id` can be read, no element of the list returned by
`getSeriesList()` has this `id`. -/
theorem getSeriesList_absent (s : State) (e : Env) (id : Prim) (h : SeriesAbsent s id) :
    ∃ items, (getSeriesList s e).1 = .ok (.array items) ∧ ∀ x ∈ items, x.optId ≠ id := by
  obtain ⟨hmir, hc⟩ := h
  rcases getSeriesList_read s e with hr | ⟨hf, hp, hr⟩
  · refine ⟨_, hr, ?_⟩
    intro x hx
    obtain ⟨kv, hkv, rfl⟩ := List.mem_map.1 hx
    exact (hmir kv hkv).2
  · rcases hc with hf1 | ⟨-, hp1⟩ | ⟨-, -, hd1⟩
    · rw [hf] at hf1; exact absurd hf1 (by simp)
    · exact absurd (hp _ hp1) (by simp)
    · exact ⟨_, hr, hd1⟩

/-- C7: for every truthy `id` and every reachable state, after `deleteSeries(id)`
a following `getSeriesById(id)` returns `null`, and no element of a following
`getSeriesList()` (right after the delete, or after that read) has this `id`,
whatever the backend does during the calls. -/
theorem deleteSeries_then_read (s : State) (hs : Reachable s) (e1 e2 e3 : Env) (id : Prim)
    (hid : id.truthy = true) :
    (getSeriesById (deleteSeries s e1 id).2 e2 id).1 = .ok (.value jsNull) ∧
    (∃ items, (getSeriesList (deleteSeries s e1 id).2 e3).1 = .ok (.array items) ∧
      ∀ x ∈ items, x.optId ≠ id) ∧
    (∃ items, (getSeriesList (getSeriesById (deleteSeries s e1 id).2 e2 id).2 e3).1 =
        .ok (.array items) ∧
      ∀ x ∈ items, x.optId ≠ id) := by
  have h1 := deleteSeries_absent s e1 id (reachable_mirrorKeyed s hs) hid
  have h2 := getSeriesById_absent _ e2 id h1
  exact ⟨h2.1, getSeriesList_absent _ e3 id h1, getSeriesList_absent _ e3 id h2.2⟩

/-- C7 (witness): deleting `"s1"` from a store that holds `{ id: "s1" }` and
`{ id: "s2" }`, with a healthy backend. -/
theorem deleteSeries_then_read_witness :
    Reachable (saveSeries (saveSeries (initial emptyDurable) healthy
      (.obj [("id", .str "s1")])).2 healthy (.obj [("id", .str "s2")])).2 ∧
    (Prim.str "s1").truthy = true ∧
    (getSeriesById (deleteSeries (saveSeries (saveSeries (initial emptyDurable) healthy
      (.obj [("id", .str "s1")])).2 healthy (.obj [("id", .str "s2")])).2 healthy
      (.str "s1")).2 healthy (.str "s1")).1 = .ok (.value jsNull) :=
  ⟨Reachable.call healthy (.saveSeries (.obj [("id", .str "s2")]))
      (Reachable.call healthy (.saveSeries (.obj [("id", .str "s1")]))
        (Reachable.init emptyDurable)),
    rfl,
    (deleteSeries_then_read _
      (Reachable.call healthy (.saveSeries (.obj [("id", .str "s2")]))
        (Reachable.call healthy (.saveSeries (.obj [("id", .str "s1")]))
          (Reachable.init emptyDurable)))
      healthy healthy healthy (.str "s1") rfl).1⟩

/-! ## Degrade and error handling -/

/-- C8: the degrade flag starts unset, and for every call made in memory-only
mode the store is still in memory-only mode afterwards, the database and the
memoized open attempt are unchanged, and the call does not depend on the
backend at all: with any other database contents and any other behaviour of
the browser it returns the same value and leaves the same state. -/
theorem degrade_one_way (s : State) (e : Env) (c : Call) (h : s.useMemoryFallback = true) :
    (∀ d : Durable, (initial d).useMemoryFallback = false) ∧
    (step s e c).2.useMemoryFallback = true ∧
    (step s e c).2.durable = s.durable ∧
    (step s e c).2.dbPromise = s.dbPromise ∧
    ∀ (e' : Env) (d' : Durable),
      step { s with durable := d' } e' c =
        ((step s e c).1, { (step s e c).2 with durable := d' }) := by
  refine ⟨fun _ => rfl, ?_⟩
  cases c
  case getSetting key => simp [step, getSetting, h, mirrorSetting]
  case setSetting key value => simp [step, setSetting, h]
  case getTrialLog => simp [step, getTrialLog, h]
  case appendTrialLog entry => simp [step, appendTrialLog, h]
  case replaceTrialLog entries => simp [step, replaceTrialLog, h]
  case getSeriesList => simp [step, getSeriesList, h]
  case getSeriesById id =>
    cases hid : id.truthy <;> simp [step, getSeriesById, h, hid, mirrorSeries]
  case saveSeries series =>
    cases hid : series.optId.truthy
    · simp [step, saveSeries, h, hid]
    · simp [step, saveSeries, h, hid, (truthy_optId series hid).2.2]
  case deleteSeries id =>
    cases hid : id.truthy <;> simp [step, deleteSeries, h, hid]

/-- C8 (witness): after the open was rejected, `getTrialLog` stays in
memory-only mode. -/
theorem degrade_one_way_witness :
    (appendTrialLog (initial emptyDurable) unavailable jsNull).2.useMemoryFallback = true ∧
    (step (appendTrialLog (initial emptyDurable) unavailable jsNull).2 healthy
      .getTrialLog).2.useMemoryFallback = true :=
  ⟨rfl, (degrade_one_way _ healthy .getTrialLog rfl).2.1⟩

theorem orElse_null_ne_undefined (v : JsVal) :
    (JsAny.value v).orElse (.value jsNull) ≠ .value jsUndefined := by
  rcases v with (_ | _ | _ | _ | _) | _ <;>
    simp [JsAny.orElse, JsAny.nullish, JsVal.nullish, jsNull, jsUndefined]

theorem ne_undefined_of_not_nullish (r : JsAny) (h : r.nullish = false) :
    r ≠ .value jsUndefined := by
  intro hr
  subst hr
  simp [JsAny.nullish, JsVal.nullish, jsUndefined] at h

theorem ne_undefined_of_truthy (v : JsVal) (h : v.truthy = true) :
    JsAny.value v ≠ .value jsUndefined := by
  intro hr
  rw [JsAny.value.inj hr] at h
  simp [jsUndefined, JsVal.truthy, Prim.truthy] at h

/-- C9: every call, with every argument, in every state and whatever the
browser does (no `indexedDB`, a rejected open, a request error, a transaction
error or abort, a throwing request), completes normally; and the result of a
function that returns a value is never `undefined`. -/
theorem no_error_reaches_caller (s : State) (e : Env) (c : Call) :
    ∃ r : JsAny, (step s e c).1 = .ok r ∧
      (c.returnsNothing = true ∨ r ≠ .value jsUndefined) := by
  cases c
  case getSetting key =>
    simp only [step, getSetting]
    split
    · exact ⟨_, rfl, Or.inr (orElse_null_ne_undefined _)⟩
    · obtain ⟨r, s', hw, -⟩ := withDb_post s e (getSettingOperation e.tx key)
      rw [hw]
      simp only
      split
      · exact ⟨_, rfl, Or.inr (orElse_null_ne_undefined _)⟩
      · next hn => exact ⟨_, rfl, Or.inr (ne_undefined_of_not_nullish r (by simpa using hn))⟩
  case setSetting key value =>
    simp only [step, setSetting]
    split
    · exact ⟨_, rfl, Or.inl rfl⟩
    · obtain ⟨r, s', hw, -⟩ := withDb_post _ e (setSettingOperation e.tx key value)
      rw [hw]
      exact ⟨_, rfl, Or.inl rfl⟩
  case getTrialLog =>
    simp only [step, getTrialLog]
    split
    · exact ⟨_, rfl, Or.inr (by simp)⟩
    · obtain ⟨r, s', hw, -⟩ := withDb_post s e (getTrialLogOperation e.tx)
      rw [hw]
      cases r <;> exact ⟨_, rfl, Or.inr (by simp)⟩
  case appendTrialLog entry =>
    simp only [step, appendTrialLog]
    split
    · exact ⟨_, rfl, Or.inl rfl⟩
    · obtain ⟨r, s', hw, -⟩ := withDb_post _ e (appendTrialLogOperation e.tx entry)
      rw [hw]
      exact ⟨_, rfl, Or.inl rfl⟩
  case replaceTrialLog entries =>
    simp only [step, replaceTrialLog]
    split
    · exact ⟨_, rfl, Or.inl rfl⟩
    · obtain ⟨r, s', hw, -⟩ := withDb_post _ e (replaceTrialLogOperation e.tx _)
      rw [hw]
      exact ⟨_, rfl, Or.inl rfl⟩
  case getSeriesList =>
    simp only [step, getSeriesList]
    split
    · exact ⟨_, rfl, Or.inr (by simp)⟩
    · obtain ⟨r, s', hw, -⟩ := withDb_post s e (getSeriesListOperation e.tx)
      rw [hw]
      cases r <;> exact ⟨_, rfl, Or.inr (by simp)⟩
  case getSeriesById id =>
    simp only [step, getSeriesById]
    split
    · exact ⟨_, rfl, Or.inr (by simp [jsNull, jsUndefined])⟩
    · split
      · exact ⟨_, rfl, Or.inr (orElse_null_ne_undefined _)⟩
      · obtain ⟨r, s', hw, -⟩ := withDb_post s e (getSeriesByIdOperation e.tx id)
        rw [hw]
        cases r with
        | array items => exact ⟨_, rfl, Or.inr (orElse_null_ne_undefined _)⟩
        | value v =>
          simp only
          split
          · next ht =>
            have hn : v.nullish = false := by
              rcases v with (_ | _ | _ | _ | _) | _ <;>
                simp_all [JsVal.truthy, Prim.truthy, JsVal.nullish]
            simp only [JsVal.getId, hn, Bool.false_eq_true, if_false]
            split
            · exact ⟨_, rfl, Or.inr (ne_undefined_of_truthy v ht)⟩
            · exact ⟨_, rfl, Or.inr (orElse_null_ne_undefined _)⟩
          · exact ⟨_, rfl, Or.inr (orElse_null_ne_undefined _)⟩
  case saveSeries series =>
    simp only [step, saveSeries]
    split
    · exact ⟨_, rfl, Or.inr (by simp [jsNull, jsUndefined])⟩
    · next hid =>
      have hid' : series.optId.truthy = true := by simpa using hid
      obtain ⟨ht, -, hg⟩ := truthy_optId series hid'
      simp only [hg]
      split
      · exact ⟨_, rfl, Or.inr (ne_undefined_of_truthy series ht)⟩
      · obtain ⟨r, s', hw, -⟩ := withDb_post
          { s with memorySeries := s.memorySeries.set series.optId series } e
          (saveSeriesOperation e.tx series)
        rw [hw]
        exact ⟨_, rfl, Or.inr (ne_undefined_of_truthy series ht)⟩
  case deleteSeries id =>
    simp only [step, deleteSeries]
    split
    · exact ⟨_, rfl, Or.inl rfl⟩
    · split
      · exact ⟨_, rfl, Or.inl rfl⟩
      · obtain ⟨r, s', hw, -⟩ := withDb_post _ e (deleteSeriesOperation e.tx id)
        rw [hw]
        exact ⟨_, rfl, Or.inl rfl⟩

/-- C10: `withDb` runs the unit of work only when the degrade flag is unset (when
it is set, the result is `null` and the state is unchanged, whatever the unit of
work). With the flag unset and an open request that, when it succeeds, carries a
database handle: in every case where the handle cannot be obtained or the unit of
work raises, `withDb` sets the flag and returns `null` instead of raising (when
the open attempt rejects, the unit of work is not run and the database is as it
was); when the handle is obtained and the unit of work succeeds, `withDb` returns
its result and leaves the flag unset. -/
theorem withDb_contract (s : State) (e : Env)
    (operation : Durable → Except JsError JsAny × Durable)
    (hopen : (openDb s e).1 ≠ .resolved false) :
    (s.useMemoryFallback = true → withDb s e operation = (.ok (.value jsNull), s)) ∧
    (s.useMemoryFallback = false →
      ((openDb s e).1 ≠ .resolved true ∨ ∃ err, (operation s.durable).1 = .error err) →
        (withDb s e operation).1 = .ok (.value jsNull) ∧
        (withDb s e operation).2.useMemoryFallback = true) ∧
    (s.useMemoryFallback = false → ∀ err, (openDb s e).1 = .rejected err →
      withDb s e operation =
        (.ok (.value jsNull), { (openDb s e).2 with useMemoryFallback := true })) ∧
    (s.useMemoryFallback = false → (openDb s e).1 = .resolved true →
      ∀ r, (operation s.durable).1 = .ok r →
        (withDb s e operation).1 = .ok r ∧
        (withDb s e operation).2.useMemoryFallback = false ∧
        (withDb s e operation).2.durable = (operation s.durable).2) := by
  revert hopen
  rw [withDb_eq, openDb_eq]
  intro hopen
  simp only at hopen
  refine ⟨?_, ?_, ?_, ?_⟩
  · intro hf
    simp [hf]
  · intro hf hfail
    simp only at hfail
    cases ho : s.dbPromise.getD e.openOutcome with
    | rejected err => simp [hf, ho]
    | resolved h =>
      cases h with
      | false => exact absurd ho hopen
      | true =>
        rcases hfail with hne | ⟨err, hop⟩
        · exact absurd ho hne
        · simp [hf, ho, hop]
  · intro hf err ho
    simp only at ho
    simp [hf, ho]
  · intro hf ho r hop
    simp only at ho
    simp [hf, ho, hop]

/-- C10 (witness): the cases of `withDb` on concrete inputs: flag already set,
open rejected, transaction aborted, and a read that succeeds. -/
theorem withDb_contract_witness :
    (openDb (initial emptyDurable) healthy).1 ≠ .resolved false ∧
    withDb (appendTrialLog (initial emptyDurable) unavailable jsNull).2 healthy
        (getTrialLogOperation .complete) =
      (.ok (.value jsNull), (appendTrialLog (initial emptyDurable) unavailable jsNull).2) ∧
    (withDb (initial emptyDurable) unavailable
        (getTrialLogOperation .complete)).2.useMemoryFallback = true ∧
    (withDb (initial emptyDurable) healthy
        (getTrialLogOperation .abort)).2.useMemoryFallback = true ∧
    (withDb (initial emptyDurable) healthy (getTrialLogOperation .complete)).1 =
      .ok (.array []) :=
  ⟨by decide,
    (withDb_contract _ healthy (getTrialLogOperation .complete) (by decide)).1 rfl,
    ((withDb_contract (initial emptyDurable) unavailable
        (getTrialLogOperation .complete) (by decide)).2.1 rfl (Or.inl (by decide))).2,
    ((withDb_contract (initial emptyDurable) healthy
        (getTrialLogOperation .abort) (by decide)).2.1 rfl
          (Or.inr ⟨.transactionAbort, rfl⟩)).2,
    ((withDb_contract (initial emptyDurable) healthy
        (getTrialLogOperation .complete) (by decide)).2.2.2 rfl rfl (.array []) rfl).1⟩

/-! ## Memoized open -/

theorem run_dbPromise (calls : List (Env × Call)) (s : State) (o : OpenOutcome)
    (h : s.dbPromise = some o) : (run s calls).dbPromise = some o := by
  induction calls generalizing s with
  | nil => exact h
  | cons p rest ih =>
    obtain ⟨e, c⟩ := p
    exact ih _ ((step_frame s e c).2 o h)

theorem countOpens_of_some (calls : List (Env × Call)) (s : State) (o : OpenOutcome)
    (h : s.dbPromise = some o) : countOpens s calls = 0 := by
  induction calls generalizing s with
  | nil => rfl
  | cons p rest ih =>
    obtain ⟨e, c⟩ := p
    simp [countOpens, opensBackend, h, ih _ ((step_frame s e c).2 o h)]

/-- C11: `openDb` is idempotent. The first call (with `dbPromise` still `null`)
performs the open attempt and memoizes its outcome; a second call returns the
same outcome and leaves the state as it is, whatever the browser would do
now; over every sequence of calls the database is opened at most once; and
once an outcome is memoized (a handle or a failure), every later state still
holds that outcome, `openDb` returns it, and no call opens the database again. -/
theorem openDb_idempotent (s : State) (e e' : Env) (calls : List (Env × Call)) :
    (s.dbPromise = none →
      (openDb s e).1 = e.openOutcome ∧ (openDb s e).2.dbPromise = some e.openOutcome) ∧
    openDb (openDb s e).2 e' = ((openDb s e).1, (openDb s e).2) ∧
    countOpens s calls ≤ 1 ∧
    (∀ o, s.dbPromise = some o →
      (run s calls).dbPromise = some o ∧ countOpens s calls = 0 ∧
      (openDb (run s calls) e').1 = o) := by
  refine ⟨?_, ?_, ?_, ?_⟩
  · intro h
    simp [openDb, h]
  · rw [openDb_eq s e]
    simp [openDb]
  · induction calls generalizing s with
    | nil => simp [countOpens]
    | cons p rest ih =>
      obtain ⟨e0, c⟩ := p
      simp only [countOpens]
      split
      · next ho =>
        simp only [opensBackend, Bool.and_eq_true, Option.isSome_iff_exists] at ho
        obtain ⟨o, ho⟩ := ho.2
        rw [countOpens_of_some rest _ o ho]
      · have := ih (step s e0 c).2
        omega
  · intro o h
    have h1 := run_dbPromise calls s _ h
    refine ⟨h1, countOpens_of_some calls s _ h, ?_⟩
    rw [openDb_fst, h1]
    rfl

/-- C11 (witness): the first call opens the database and fails; three more calls
do not open it again. -/
theorem openDb_idempotent_witness :
    (initial emptyDurable).dbPromise = none ∧
    (openDb (initial emptyDurable) unavailable).1 = unavailable.openOutcome ∧
    (run (initial emptyDurable) [(unavailable, .getTrialLog)]).dbPromise =
      some (.rejected .unavailable) ∧
    (run (run (initial emptyDurable) [(unavailable, .getTrialLog)])
      [(healthy, .getTrialLog), (healthy, .getSeriesList)]).dbPromise =
      some (.rejected .unavailable) :=
  ⟨rfl,
    ((openDb_idempotent (initial emptyDurable) unavailable healthy []).1 rfl).1,
    rfl,
    ((openDb_idempotent (run (initial emptyDurable) [(unavailable, .getTrialLog)]) healthy
      healthy [(healthy, .getTrialLog), (healthy, .getSeriesList)]).2.2.2 _ rfl).1⟩

/-! ## Reads and mirror updates -/

theorem withDb_failed (s : State) (e : Env) (op : Durable → Except JsError JsAny × Durable)
    (hf : s.useMemoryFallback = false)
    (hfail : (∃ err, (openDb s e).1 = .rejected err) ∨
      ((openDb s e).1 = .resolved true ∧ ∃ err, op s.durable = (.error err, s.durable))) :
    withDb s e op =
      (.ok (.value jsNull),
        { s with dbPromise := some (openDb s e).1, useMemoryFallback := true }) := by
  rw [withDb_eq]
  rw [openDb_fst] at hfail ⊢
  rcases hfail with ⟨err, ho⟩ | ⟨ho, err, hop⟩
  · simp [hf, ho]
  · simp [hf, ho, hop]

/-- C14: when the store is in durable mode and the durable read of a call
fails (the open attempt rejects, or the handle is there and the transaction
throws, errors or aborts), each of `getSetting(key)`, `getTrialLog()`,
`getSeriesList()` and `getSeriesById(id)` (with a truthy `id`, so that a read is
made) leaves the store in memory-only mode with the three mirrors unchanged,
and returns what the same call returns in memory-only mode on that mirror:
the mirrored setting or `null`, a copy of the mirrored log, the mirrored
series values, the mirrored series or `null`. -/
theorem failed_read_answers_from_mirror (s : State) (e : Env) (key id : Prim)
    (hf : s.useMemoryFallback = false) (hid : id.truthy = true)
    (hfail : (∃ err, (openDb s e).1 = .rejected err) ∨
      ((openDb s e).1 = .resolved true ∧ e.tx ≠ .complete)) :
    (getSetting s e key =
        (.ok (mirrorSetting s key),
          { s with dbPromise := some (openDb s e).1, useMemoryFallback := true }) ∧
      (getSetting { s with useMemoryFallback := true } e key).1 =
        .ok (mirrorSetting s key)) ∧
    (getTrialLog s e =
        (.ok (.array s.memoryTrialLog),
          { s with dbPromise := some (openDb s e).1, useMemoryFallback := true }) ∧
      (getTrialLog { s with useMemoryFallback := true } e).1 =
        .ok (.array s.memoryTrialLog)) ∧
    (getSeriesList s e =
        (.ok (.array s.memorySeries.values),
          { s with dbPromise := some (openDb s e).1, useMemoryFallback := true }) ∧
      (getSeriesList { s with useMemoryFallback := true } e).1 =
        .ok (.array s.memorySeries.values)) ∧
    (getSeriesById s e id =
        (.ok (mirrorSeries s id),
          { s with dbPromise := some (openDb s e).1, useMemoryFallback := true }) ∧
      (getSeriesById { s with useMemoryFallback := true } e id).1 =
        .ok (mirrorSeries s id)) := by
  have hfail' : ∀ body : Durable → Except JsError (JsAny × Durable),
      (∃ err, (openDb s e).1 = .rejected err) ∨
      ((openDb s e).1 = .resolved true ∧
        ∃ err, runTransaction e.tx s.durable body = (.error err, s.durable)) := by
    intro body
    rcases hfail with h | ⟨ho, htx⟩
    · exact Or.inl h
    · exact Or.inr ⟨ho, runTransaction_failed e.tx htx s.durable body⟩
  refine ⟨⟨?_, ?_⟩, ⟨?_, ?_⟩, ⟨?_, ?_⟩, ⟨?_, ?_⟩⟩
  · simp only [getSetting, hf, Bool.false_eq_true, if_false]
    rw [withDb_failed s e _ hf (hfail' _)]
    simp [JsAny.nullish, JsVal.nullish, jsNull, mirrorSetting]
  · simp [getSetting, mirrorSetting]
  · simp only [getTrialLog, hf, Bool.false_eq_true, if_false]
    rw [withDb_failed s e _ hf (hfail' _)]
  · simp [getTrialLog]
  · simp only [getSeriesList, hf, Bool.false_eq_true, if_false]
    rw [withDb_failed s e _ hf (hfail' _)]
  · simp [getSeriesList]
  · simp only [getSeriesById, hid, hf, Bool.not_true, Bool.false_eq_true, if_false]
    rw [withDb_failed s e _ hf (hfail' _)]
    simp [JsVal.truthy, Prim.truthy, jsNull, mirrorSeries]
  · simp [getSeriesById, hid, mirrorSeries]

/-- C14 (witness): the first read of a settings key with a database whose
transaction aborts. -/
theorem failed_read_answers_from_mirror_witness :
    (initial emptyDurable).useMemoryFallback = false ∧
    (Prim.str "s1").truthy = true ∧
    (openDb (initial emptyDurable) { openOutcome := .resolved true, tx := .abort }).1 =
      .resolved true ∧
    getTrialLog (initial emptyDurable) { openOutcome := .resolved true, tx := .abort } =
      (.ok (.array []),
        { initial emptyDurable with
          dbPromise := some (.resolved true), useMemoryFallback := true }) :=
  ⟨rfl, rfl, rfl,
    (failed_read_answers_from_mirror (initial emptyDurable)
      { openOutcome := .resolved true, tx := .abort } (.str "volume") (.str "s1") rfl rfl
      (Or.inr ⟨rfl, by decide⟩)).2.1.1⟩

/-- C15: the mirror update of a mutation is the same in every mode and for every
behaviour of the backend: `setSetting` maps the key to the value,
`appendTrialLog` appends the entry at the end, `replaceTrialLog` replaces the log
by the given sequence (by the empty one for a non-array), `saveSeries` with a
truthy `id` maps the `id` to the series, `deleteSeries` with a truthy `id`
removes the `id`; the other two mirrors are unchanged. -/
theorem mirror_update_independent (s : State) (e : Env) :
    (∀ key value,
      (setSetting s e key value).2.memorySettings = s.memorySettings.set key value ∧
      (setSetting s e key value).2.memoryTrialLog = s.memoryTrialLog ∧
      (setSetting s e key value).2.memorySeries = s.memorySeries) ∧
    (∀ entry,
      (appendTrialLog s e entry).2.memorySettings = s.memorySettings ∧
      (appendTrialLog s e entry).2.memoryTrialLog = s.memoryTrialLog ++ [entry] ∧
      (appendTrialLog s e entry).2.memorySeries = s.memorySeries) ∧
    (∀ xs : List JsVal,
      (replaceTrialLog s e (.array xs)).2.memorySettings = s.memorySettings ∧
      (replaceTrialLog s e (.array xs)).2.memoryTrialLog = xs ∧
      (replaceTrialLog s e (.array xs)).2.memorySeries = s.memorySeries) ∧
    (∀ v : JsVal,
      (replaceTrialLog s e (.value v)).2.memorySettings = s.memorySettings ∧
      (replaceTrialLog s e (.value v)).2.memoryTrialLog = [] ∧
      (replaceTrialLog s e (.value v)).2.memorySeries = s.memorySeries) ∧
    (∀ series : JsVal, series.optId.truthy = true →
      (saveSeries s e series).2.memorySettings = s.memorySettings ∧
      (saveSeries s e series).2.memoryTrialLog = s.memoryTrialLog ∧
      (saveSeries s e series).2.memorySeries = s.memorySeries.set series.optId series) ∧
    (∀ id : Prim, id.truthy = true →
      (deleteSeries s e id).2.memorySettings = s.memorySettings ∧
      (deleteSeries s e id).2.memoryTrialLog = s.memoryTrialLog ∧
      (deleteSeries s e id).2.memorySeries = s.memorySeries.delete id) := by
  have hrep : ∀ entries : JsAny,
      (replaceTrialLog s e entries).2.memorySettings = s.memorySettings ∧
      (replaceTrialLog s e entries).2.memoryTrialLog = copyEntries (defaultEntries entries) ∧
      (replaceTrialLog s e entries).2.memorySeries = s.memorySeries := by
    intro entries
    simp only [replaceTrialLog]
    split
    · exact ⟨rfl, rfl, rfl⟩
    · obtain ⟨r, s', hw, h1, h2, h3, -⟩ := withDb_post
        { s with memoryTrialLog := copyEntries (defaultEntries entries) } e
        (replaceTrialLogOperation e.tx (copyEntries (defaultEntries entries)))
      rw [hw]
      exact ⟨h1, h2, h3⟩
  refine ⟨?_, ?_, ?_, ?_, ?_, ?_⟩
  · intro key value
    simp only [setSetting]
    split
    · exact ⟨rfl, rfl, rfl⟩
    · obtain ⟨r, s', hw, h1, h2, h3, -⟩ := withDb_post
        { s with memorySettings := s.memorySettings.set key value } e
        (setSettingOperation e.tx key value)
      rw [hw]
      exact ⟨h1, h2, h3⟩
  · intro entry
    simp only [appendTrialLog]
    split
    · exact ⟨rfl, rfl, rfl⟩
    · obtain ⟨r, s', hw, h1, h2, h3, -⟩ := withDb_post
        { s with memoryTrialLog := s.memoryTrialLog ++ [entry] } e
        (appendTrialLogOperation e.tx entry)
      rw [hw]
      exact ⟨h1, h2, h3⟩
  · intro xs
    have h := hrep (.array xs)
    have hc : copyEntries (defaultEntries (.array xs)) = xs := by
      simp [defaultEntries, copyEntries]
    rw [hc] at h
    exact h
  · intro v
    have h := hrep (.value v)
    have hc : copyEntries (defaultEntries (.value v)) = [] := by
      unfold defaultEntries
      split <;> rfl
    rw [hc] at h
    exact h
  · intro series hid
    obtain ⟨-, -, hg⟩ := truthy_optId series hid
    simp only [saveSeries, hid, hg, Bool.not_true, Bool.false_eq_true, if_false]
    split
    · exact ⟨rfl, rfl, rfl⟩
    · obtain ⟨r, s', hw, h1, h2, h3, -⟩ := withDb_post
        { s with memorySeries := s.memorySeries.set series.optId series } e
        (saveSeriesOperation e.tx series)
      rw [hw]
      exact ⟨h1, h2, h3⟩
  · intro id hid
    simp only [deleteSeries, hid, Bool.not_true, Bool.false_eq_true, if_false]
    split
    · exact ⟨rfl, rfl, rfl⟩
    · obtain ⟨r, s', hw, h1, h2, h3, -⟩ := withDb_post
        { s with memorySeries := s.memorySeries.delete id } e (deleteSeriesOperation e.tx id)
      rw [hw]
      exact ⟨h1, h2, h3⟩

/-- C15 (witness): saving `{ id: "s1" }` while the transaction aborts still maps
`"s1"` to the series in the mirror. -/
theorem mirror_update_independent_witness :
    (JsVal.obj [("id", .str "s1")]).optId.truthy = true ∧
    (saveSeries (initial emptyDurable) { openOutcome := .resolved true, tx := .abort }
        (.obj [("id", .str "s1")])).2.memorySeries =
      (initial emptyDurable).memorySeries.set (JsVal.obj [("id", .str "s1")]).optId
        (.obj [("id", .str "s1")]) :=
  ⟨rfl, ((mirror_update_independent (initial emptyDurable)
    { openOutcome := .resolved true, tx := .abort }).2.2.2.2.1
      (.obj [("id", .str "s1")]) rfl).2.2⟩

/-- C16: in durable mode, when the handle is there and the fetch completes,
`getTrialLog` returns the log of the database and replaces the mirror by it,
whatever the mirror held before (the other mirrors, the flag and the database
are unchanged); in memory-only mode it returns the mirror and leaves the
state unchanged. -/
theorem getTrialLog_self_heals (s : State) (e : Env) :
    (s.useMemoryFallback = false → (openDb s e).1 = .resolved true → e.tx = .complete →
      getTrialLog s e =
        (.ok (.array s.durable.trialLog),
          { s with dbPromise := some (.resolved true),
                   memoryTrialLog := s.durable.trialLog })) ∧
    (s.useMemoryFallback = true → getTrialLog s e = (.ok (.array s.memoryTrialLog), s)) := by
  constructor
  · intro hf ho htx
    rw [openDb_fst] at ho
    simp only [getTrialLog, hf, Bool.false_eq_true, if_false, withDb_eq, ho, htx]
    rfl
  · intro hf
    simp [getTrialLog, hf]

/-- C16 (witness): a mirror holding `null` is replaced by the log of the
database, which holds `7`; in memory-only mode the mirror is returned. -/
theorem getTrialLog_self_heals_witness :
    getTrialLog
        { initial { emptyDurable with trialLog := [.prim (.num 7)] } with
          memoryTrialLog := [jsNull] } healthy =
      (.ok (.array [.prim (.num 7)]),
        { initial { emptyDurable with trialLog := [.prim (.num 7)] } with
          dbPromise := some (.resolved true), memoryTrialLog := [.prim (.num 7)] }) ∧
    getTrialLog (appendTrialLog (initial emptyDurable) unavailable jsNull).2 healthy =
      (.ok (.array [jsNull]), (appendTrialLog (initial emptyDurable) unavailable jsNull).2) :=
  ⟨(getTrialLog_self_heals _ healthy).1 rfl rfl rfl,
    (getTrialLog_self_heals _ healthy).2 rfl⟩

/-- C18: for every state and every falsy `id` (missing, `null`, `0`, the empty
string, `false`), `getSeriesById(id)` returns `null` and `deleteSeries(id)`
returns normally, and both leave the whole state as it was: mirrors,
database, degrade flag and memoized open attempt (the database is not
opened). -/
theorem falsy_id_handled_locally (s : State) (e : Env) (id : Prim) (h : id.truthy = false) :
    getSeriesById s e id = (.ok (.value jsNull), s) ∧
    deleteSeries s e id = (.ok (.value jsUndefined), s) := by
  simp [getSeriesById, deleteSeries, h]

/-- C18 (witness): `getSeriesById(undefined)` and `deleteSeries(undefined)` in the
initial state. -/
theorem falsy_id_handled_locally_witness :
    Prim.undefined.truthy = false ∧
    getSeriesById (initial emptyDurable) healthy .undefined =
      (.ok (.value jsNull), initial emptyDurable) ∧
    deleteSeries (initial emptyDurable) healthy .undefined =
      (.ok (.value jsUndefined), initial emptyDurable) :=
  ⟨rfl, falsy_id_handled_locally (initial emptyDurable) healthy .undefined rfl⟩

/-! ## Keys of a map -/

theorem JsMap.keys_set (m : JsMap) (k : Prim) (v : JsVal) :
    (m.set k v).map Prod.fst =
      if k ∈ m.map Prod.fst then m.map Prod.fst else m.map Prod.fst ++ [k] := by
  induction m with
  | nil => simp [JsMap.set]
  | cons kv m ih =>
    obtain ⟨k0, v0⟩ := kv
    by_cases h0 : k0 = k
    · subst h0
      simp [JsMap.set]
    · have h0' : ¬ k = k0 := fun h => h0 h.symm
      simp only [JsMap.set, h0, if_false, List.map_cons, ih, List.mem_cons, h0', false_or]
      split <;> simp

theorem JsMap.nodup_set (m : JsMap) (k : Prim) (v : JsVal) (h : (m.map Prod.fst).Nodup) :
    ((m.set k v).map Prod.fst).Nodup := by
  rw [JsMap.keys_set]
  split
  · exact h
  · next hk =>
    rw [List.nodup_append]
    exact ⟨h, List.nodup_singleton k, by simpa using hk⟩

theorem JsMap.nodup_delete (m : JsMap) (k : Prim) (h : (m.map Prod.fst).Nodup) :
    ((m.delete k).map Prod.fst).Nodup := by
  unfold JsMap.delete
  exact List.Nodup.sublist (List.Sublist.map _ (List.filter_sublist _)) h

theorem JsMap.mem_set_self (m : JsMap) (k : Prim) (v : JsVal) : (k, v) ∈ m.set k v := by
  induction m with
  | nil => simp [JsMap.set]
  | cons kv m ih =>
    obtain ⟨k0, v0⟩ := kv
    by_cases h0 : k0 = k
    · simp [JsMap.set, h0]
    · simp [JsMap.set, h0, ih]

theorem JsMap.mem_set_of_ne (m : JsMap) (k : Prim) (v : JsVal) (kv : Prim × JsVal)
    (h : kv ∈ m) (hk : kv.1 ≠ k) : kv ∈ m.set k v := by
  induction m with
  | nil => simp at h
  | cons kv0 m ih =>
    obtain ⟨k0, v0⟩ := kv0
    by_cases h0 : k0 = k
    · simp only [JsMap.set, h0, if_true, List.mem_cons]
      rcases List.mem_cons.1 h with h1 | h1
      · subst h1
        exact absurd h0 hk
      · exact Or.inr h1
    · simp only [JsMap.set, h0, if_false, List.mem_cons]
      rcases List.mem_cons.1 h with h1 | h1
      · exact Or.inl h1
      · exact Or.inr (ih h1)

theorem JsMap.mem_set_iff (m : JsMap) (k : Prim) (v : JsVal) (kv : Prim × JsVal)
    (h : (m.map Prod.fst).Nodup) :
    kv ∈ m.set k v ↔ kv = (k, v) ∨ (kv ∈ m ∧ kv.1 ≠ k) := by
  constructor
  · intro hkv
    induction m with
    | nil => exact Or.inl (by simpa [JsMap.set] using hkv)
    | cons kv0 m ih =>
      obtain ⟨k0, v0⟩ := kv0
      simp only [List.map_cons, List.nodup_cons] at h
      by_cases h0 : k0 = k
      · subst h0
        simp only [JsMap.set, if_true, List.mem_cons] at hkv
        rcases hkv with h1 | h1
        · exact Or.inl h1
        · refine Or.inr ⟨List.mem_cons_of_mem _ h1, ?_⟩
          intro hk
          exact h.1 (hk ▸ List.mem_map_of_mem Prod.fst h1)
      · simp only [JsMap.set, h0, if_false, List.mem_cons] at hkv
        rcases hkv with h1 | h1
        · exact Or.inr ⟨h1 ▸ List.mem_cons_self _ _, by rw [h1]; exact h0⟩
        · rcases ih h.2 h1 with h2 | ⟨h2, h3⟩
          · exact Or.inl h2
          · exact Or.inr ⟨List.mem_cons_of_mem _ h2, h3⟩
  · rintro (h1 | ⟨h1, h2⟩)
    · rw [h1]
      exact JsMap.mem_set_self m k v
    · exact JsMap.mem_set_of_ne m k v kv h1 h2

theorem JsMap.get_of_mem (m : JsMap) (k : Prim) (v : JsVal) (h : (m.map Prod.fst).Nodup)
    (hkv : (k, v) ∈ m) : m.get k = v := by
  induction m with
  | nil => simp at hkv
  | cons kv0 m ih =>
    obtain ⟨k0, v0⟩ := kv0
    simp only [List.map_cons, List.nodup_cons] at h
    rcases List.mem_cons.1 hkv with h1 | h1
    · cases h1
      simp [JsMap.get]
    · have h0 : k0 ≠ k := by
        intro hk
        exact h.1 (hk ▸ List.mem_map_of_mem Prod.fst h1)
      simp only [JsMap.get, h0, if_false]
      exact ih h.2 h1

theorem JsMap.mem_of_get (m : JsMap) (k : Prim) (v : JsVal) (h : m.get k = v)
    (hv : v ≠ jsUndefined) : (k, v) ∈ m := by
  induction m with
  | nil => exact absurd h.symm hv
  | cons kv0 m ih =>
    obtain ⟨k0, v0⟩ := kv0
    by_cases h0 : k0 = k
    · simp only [JsMap.get, h0, if_true] at h
      rw [h0, h]
      exact List.mem_cons_self _ _
    · simp only [JsMap.get, h0, if_false] at h
      exact List.mem_cons_of_mem _ (ih h)

/-! ## Rebuilding the series mirror -/

theorem lastWithId_cons (x : JsVal) (l : List JsVal) (k : Prim) :
    lastWithId (x :: l) k =
      (lastWithId l k).or (if x.optId = k then some x else none) := by
  simp only [lastWithId, List.reverse_cons, List.find?_append]
  congr 1
  by_cases h : x.optId = k <;> simp [h]

theorem rebuild_aux (l : List JsVal) : ∀ m : JsMap, (m.map Prod.fst).Nodup →
    ((l.foldl (fun m entry => if entry.optId.truthy then m.set entry.optId entry else m)
        m).map Prod.fst).Nodup ∧
    ∀ k v, (k, v) ∈ l.foldl
        (fun m entry => if entry.optId.truthy then m.set entry.optId entry else m) m ↔
      (k.truthy = true ∧ lastWithId l k = some v) ∨
      ((k.truthy = false ∨ lastWithId l k = none) ∧ (k, v) ∈ m) := by
  induction l with
  | nil =>
    intro m hm
    refine ⟨hm, fun k v => ?_⟩
    simp [lastWithId]
  | cons x l ih =>
    intro m hm
    simp only [List.foldl_cons]
    by_cases hx : x.optId.truthy = true
    · simp only [hx, if_true]
      obtain ⟨h1, h2⟩ := ih (m.set x.optId x) (JsMap.nodup_set m _ _ hm)
      refine ⟨h1, fun k v => ?_⟩
      rw [h2 k v, lastWithId_cons, JsMap.mem_set_iff m _ _ _ hm]
      by_cases hk : x.optId = k
      · subst hk
        cases hl : lastWithId l x.optId with
        | some y =>
          simp only [hx, Option.or_some, Option.some.injEq, true_and]
          constructor
          · rintro (h | ⟨h | h, -⟩)
            · exact Or.inl h
            · exact absurd h (by simp)
            · exact absurd h (by simp)
          · rintro (h | ⟨h | h, -⟩)
            · exact Or.inl h
            · exact absurd h (by simp)
            · exact absurd h (by simp)
        | none =>
          simp only [hx, Option.none_or, if_true, Option.some.injEq, true_and]
          constructor
          · rintro (h | ⟨-, h | h⟩)
            · exact absurd h (by simp)
            · exact Or.inl (Prod.mk.inj h).2.symm
            · exact absurd rfl h.2
          · rintro (h | ⟨h | h, -⟩)
            · exact Or.inr ⟨Or.inr trivial, Or.inl (by rw [h])⟩
            · exact absurd h (by simp)
            · exact absurd h (by simp)
      · have hk' : ¬ k = x.optId := fun h => hk h.symm
        have hor : (lastWithId l k).or (if x.optId = k then some x else none) =
            lastWithId l k := by
          simp [hk]
        rw [hor]
        constructor
        · rintro (h | ⟨h, h' | ⟨h', -⟩⟩)
          · exact Or.inl h
          · exact absurd (Prod.mk.inj h').1 hk'
          · exact Or.inr ⟨h, h'⟩
        · rintro (h | ⟨h, h'⟩)
          · exact Or.inl h
          · exact Or.inr ⟨h, Or.inr ⟨h', hk'⟩⟩
    · have hx' : x.optId.truthy = false := by simpa using hx
      simp only [hx', Bool.false_eq_true, if_false]
      obtain ⟨h1, h2⟩ := ih m hm
      refine ⟨h1, fun k v => ?_⟩
      rw [h2 k v, lastWithId_cons]
      by_cases hk : x.optId = k
      · subst hk
        cases hl : lastWithId l x.optId with
        | some y => simp [hx']
        | none => simp [hx']
      · have hor : (lastWithId l k).or (if x.optId = k then some x else none) =
            lastWithId l k := by
          simp [hk]
        rw [hor]

theorem rebuildSeries_nodup (l : List JsVal) : ((rebuildSeries l).map Prod.fst).Nodup :=
  (rebuild_aux l [] (by simp)).1

theorem mem_rebuildSeries (l : List JsVal) (k : Prim) (v : JsVal) :
    (k, v) ∈ rebuildSeries l ↔ (k.truthy = true ∧ lastWithId l k = some v) := by
  have := (rebuild_aux l [] (by simp)).2 k v
  simpa [rebuildSeries] using this

/-- C17: in durable mode, when the handle is there and the fetch completes with
the list `L` of the database, `getSeriesList` returns `L` and replaces the
series mirror by a map that depends on `L` only: it holds `v` under `k` exactly
when `k` is truthy and `v` is the last entry of `L` whose `id` is `k`, with no key
twice. Entries of `L` without a truthy `id` and all former entries of the mirror
are gone. -/
theorem getSeriesList_rebuilds_mirror (s : State) (e : Env)
    (hf : s.useMemoryFallback = false) (ho : (openDb s e).1 = .resolved true)
    (htx : e.tx = .complete) :
    getSeriesList s e =
      (.ok (.array s.durable.series),
        { s with dbPromise := some (.resolved true),
                 memorySeries := rebuildSeries s.durable.series }) ∧
    (∀ k v, (k, v) ∈ (getSeriesList s e).2.memorySeries ↔
      (k.truthy = true ∧ lastWithId s.durable.series k = some v)) ∧
    ((getSeriesList s e).2.memorySeries.map Prod.fst).Nodup := by
  have h : getSeriesList s e =
      (.ok (.array s.durable.series),
        { s with dbPromise := some (.resolved true),
                 memorySeries := rebuildSeries s.durable.series }) := by
    rw [openDb_fst] at ho
    simp only [getSeriesList, hf, Bool.false_eq_true, if_false, withDb_eq, ho, htx]
    rfl
  rw [h]
  exact ⟨rfl, mem_rebuildSeries _, rebuildSeries_nodup _⟩

/-- C17 (witness): a database holding `{ id: "" }` and `{ id: "s1" }`, and a
mirror holding `{ id: "s9" }`: the list has both records, the rebuilt mirror
holds `"s1"` only. -/
theorem getSeriesList_rebuilds_mirror_witness :
    getSeriesList
        { initial { emptyDurable with
            series := [.obj [("id", .str "")], .obj [("id", .str "s1")]] } with
          memorySeries := [(.str "s9", .obj [("id", .str "s9")])] } healthy =
      (.ok (.array [.obj [("id", .str "")], .obj [("id", .str "s1")]]),
        { initial { emptyDurable with
            series := [.obj [("id", .str "")], .obj [("id", .str "s1")]] } with
          dbPromise := some (.resolved true),
          memorySeries := [(.str "s1", .obj [("id", .str "s1")])] }) :=
  (getSeriesList_rebuilds_mirror
    { initial { emptyDurable with
        series := [.obj [("id", .str "")], .obj [("id", .str "s1")]] } with
      memorySeries := [(.str "s9", .obj [("id", .str "s9")])] } healthy rfl rfl rfl).1

/-! ## When the degrade flag is set -/

theorem withDb_flag (s : State) (e : Env) (op : Durable → Except JsError JsAny × Durable) :
    ∃ r s', withDb s e op = (.ok r, s') ∧
      s'.useMemoryFallback =
        (s.useMemoryFallback ||
          match (openDb s e).1 with
          | .rejected _ => true
          | .resolved false => false
          | .resolved true => !(op s.durable).1.isOk) ∧
      s'.dbPromise = if s.useMemoryFallback then s.dbPromise else some (openDb s e).1 := by
  rw [withDb_eq, openDb_fst]
  cases hf : s.useMemoryFallback
  · simp only [Bool.false_eq_true, if_false, Bool.false_or]
    cases s.dbPromise.getD e.openOutcome with
    | rejected err => exact ⟨_, _, rfl, rfl, rfl⟩
    | resolved h =>
      cases h
      · exact ⟨_, _, rfl, rfl, rfl⟩
      · rcases hop : (op s.durable).1 with err | r
        · exact ⟨_, _, rfl, rfl, rfl⟩
        · exact ⟨_, _, rfl, rfl, rfl⟩
  · exact ⟨_, _, rfl, by simp [hf], by simp⟩

theorem getSettingOperation_isOk (tx : TxOutcome) (key : Prim) (d : Durable) :
    (getSettingOperation tx key d).1.isOk = (decide (tx = .complete) && validKey key) := by
  rcases getSettingOperation_cases tx key d with ⟨h1, h2, h⟩ | ⟨h1, err, h⟩
  · rw [h]; simp [h1, h2, Except.isOk, Except.toBool]
  · rw [h]; rcases h1 with h1 | h1 <;> simp [h1, Except.isOk, Except.toBool]

theorem setSettingOperation_isOk (tx : TxOutcome) (key : Prim) (value : JsVal) (d : Durable) :
    (setSettingOperation tx key value d).1.isOk = (decide (tx = .complete) && validKey key) := by
  rcases setSettingOperation_cases tx key value d with ⟨h1, h2, h⟩ | ⟨h1, err, h⟩
  · rw [h]; simp [h1, h2, Except.isOk, Except.toBool]
  · rw [h]; rcases h1 with h1 | h1 <;> simp [h1, Except.isOk, Except.toBool]

theorem getTrialLogOperation_isOk (tx : TxOutcome) (d : Durable) :
    (getTrialLogOperation tx d).1.isOk = decide (tx = .complete) := by
  rcases getTrialLogOperation_cases tx d with ⟨h1, h⟩ | ⟨h1, err, h⟩
  · rw [h]; simp [h1, Except.isOk, Except.toBool]
  · rw [h]; simp [h1, Except.isOk, Except.toBool]

theorem appendTrialLogOperation_isOk (tx : TxOutcome) (entry : JsVal) (d : Durable) :
    (appendTrialLogOperation tx entry d).1.isOk = decide (tx = .complete) := by
  rcases appendTrialLogOperation_cases tx entry d with ⟨h1, h⟩ | ⟨h1, err, h⟩
  · rw [h]; simp [h1, Except.isOk, Except.toBool]
  · rw [h]; simp [h1, Except.isOk, Except.toBool]

theorem replaceTrialLogOperation_isOk (tx : TxOutcome) (mirror : List JsVal) (d : Durable) :
    (replaceTrialLogOperation tx mirror d).1.isOk = decide (tx = .complete) := by
  rcases replaceTrialLogOperation_cases tx mirror d with ⟨h1, h⟩ | ⟨h1, err, h⟩
  · rw [h]; simp [h1, Except.isOk, Except.toBool]
  · rw [h]; simp [h1, Except.isOk, Except.toBool]

theorem getSeriesListOperation_isOk (tx : TxOutcome) (d : Durable) :
    (getSeriesListOperation tx d).1.isOk = decide (tx = .complete) := by
  rcases getSeriesListOperation_cases tx d with ⟨h1, h⟩ | ⟨h1, err, h⟩
  · rw [h]; simp [h1, Except.isOk, Except.toBool]
  · rw [h]; simp [h1, Except.isOk, Except.toBool]

theorem getSeriesByIdOperation_isOk (tx : TxOutcome) (id : Prim) (d : Durable) :
    (getSeriesByIdOperation tx id d).1.isOk = (decide (tx = .complete) && validKey id) := by
  rcases getSeriesByIdOperation_cases tx id d with ⟨h1, h2, h⟩ | ⟨h1, err, h⟩
  · rw [h]; simp [h1, h2, Except.isOk, Except.toBool]
  · rw [h]; rcases h1 with h1 | h1 <;> simp [h1, Except.isOk, Except.toBool]

theorem saveSeriesOperation_isOk (tx : TxOutcome) (series : JsVal) (d : Durable) :
    (saveSeriesOperation tx series d).1.isOk =
      (decide (tx = .complete) && validKey series.optId) := by
  rcases saveSeriesOperation_cases tx series d with ⟨h1, h2, h⟩ | ⟨h1, err, h⟩
  · rw [h]; simp [h1, h2, Except.isOk, Except.toBool]
  · rw [h]; rcases h1 with h1 | h1 <;> simp [h1, Except.isOk, Except.toBool]

theorem deleteSeriesOperation_isOk (tx : TxOutcome) (id : Prim) (d : Durable) :
    (deleteSeriesOperation tx id d).1.isOk = (decide (tx = .complete) && validKey id) := by
  rcases deleteSeriesOperation_cases tx id d with ⟨h1, h2, h⟩ | ⟨h1, err, h⟩
  · rw [h]; simp [h1, h2, Except.isOk, Except.toBool]
  · rw [h]; rcases h1 with h1 | h1 <;> simp [h1, Except.isOk, Except.toBool]

theorem failsIn_eq (s s1 : State) (e : Env) (c : Call) (ok : Bool)
    (hp : s1.dbPromise = s.dbPromise) (hf : s1.useMemoryFallback = s.useMemoryFallback)
    (hu : c.usesBackend = true)
    (hok : ok = (decide (e.tx = .complete) && c.validRequest)) :
    (s1.useMemoryFallback ||
      match (openDb s1 e).1 with
      | .rejected _ => true
      | .resolved false => false
      | .resolved true => !ok) = (s.useMemoryFallback || failsIn s e c) := by
  have ho : (openDb s1 e).1 = (openDb s e).1 := by
    rw [openDb_fst, openDb_fst, hp]
  rw [ho, hf]
  subst hok
  simp only [failsIn, hu]
  cases s.useMemoryFallback
  · cases (openDb s e).1 with
    | rejected err => simp
    | resolved h => cases h <;> simp
  · simp

theorem dbPromise_eq (s s1 : State) (e : Env) (c : Call)
    (hp : s1.dbPromise = s.dbPromise) (hf : s1.useMemoryFallback = s.useMemoryFallback)
    (hu : c.usesBackend = true) :
    (if s1.useMemoryFallback then s1.dbPromise else some (openDb s1 e).1) =
      if (s.useMemoryFallback || !c.usesBackend) then s.dbPromise
      else some (openDb s e).1 := by
  have ho : (openDb s1 e).1 = (openDb s e).1 := by
    rw [openDb_fst, openDb_fst, hp]
  rw [ho, hf, hp, hu]
  simp

/-- Summary of a call: the degrade flag afterwards is set exactly when it was set
before or an open, a request or a transaction fails during the call; and the
memoized open attempt is the former one, unless the call gets to `withDb` with
the flag unset, where it is the attempt `openDb` returns. -/
theorem step_summary (s : State) (e : Env) (c : Call) :
    (step s e c).2.useMemoryFallback = (s.useMemoryFallback || failsIn s e c) ∧
    (step s e c).2.dbPromise =
      if (s.useMemoryFallback || !c.usesBackend) then s.dbPromise
      else some (openDb s e).1 := by
  cases c
  case getSetting key =>
    simp only [step, getSetting]
    split
    · next hf => simp [hf]
    · obtain ⟨r, s', hw, hflag, hdb⟩ := withDb_flag s e (getSettingOperation e.tx key)
      have key : s'.useMemoryFallback =
          (s.useMemoryFallback || failsIn s e (.getSetting key)) ∧
          s'.dbPromise = if (s.useMemoryFallback || !(Call.getSetting key).usesBackend)
            then s.dbPromise else some (openDb s e).1 := by
        rw [hflag, hdb]
        exact ⟨failsIn_eq s s e (.getSetting key) _ rfl rfl rfl
          (getSettingOperation_isOk _ _ _), dbPromise_eq s s e _ rfl rfl rfl⟩
      rw [hw]
      simp only
      split <;> exact key
  case setSetting key value =>
    simp only [step, setSetting]
    split
    · next hf => simp [hf]
    · obtain ⟨r, s', hw, hflag, hdb⟩ := withDb_flag
        { s with memorySettings := s.memorySettings.set key value } e
        (setSettingOperation e.tx key value)
      rw [hw]
      show s'.useMemoryFallback = _ ∧ s'.dbPromise = _
      rw [hflag, hdb]
      exact ⟨failsIn_eq s { s with memorySettings := s.memorySettings.set key value } e
        (.setSetting key value) _ rfl rfl rfl (setSettingOperation_isOk e.tx key value s.durable),
        dbPromise_eq s _ e _ rfl rfl rfl⟩
  case getTrialLog =>
    simp only [step, getTrialLog]
    split
    · next hf => simp [hf]
    · obtain ⟨r, s', hw, hflag, hdb⟩ := withDb_flag s e (getTrialLogOperation e.tx)
      have key : s'.useMemoryFallback =
          (s.useMemoryFallback || failsIn s e .getTrialLog) ∧
          s'.dbPromise = if (s.useMemoryFallback || !Call.getTrialLog.usesBackend)
            then s.dbPromise else some (openDb s e).1 := by
        rw [hflag, hdb]
        exact ⟨failsIn_eq s s e .getTrialLog _ rfl rfl rfl
          ((getTrialLogOperation_isOk e.tx s.durable).trans (by simp [Call.validRequest])),
          dbPromise_eq s s e _ rfl rfl rfl⟩
      rw [hw]
      cases r <;> exact key
  case appendTrialLog entry =>
    simp only [step, appendTrialLog]
    split
    · next hf => simp [hf]
    · obtain ⟨r, s', hw, hflag, hdb⟩ := withDb_flag
        { s with memoryTrialLog := s.memoryTrialLog ++ [entry] } e
        (appendTrialLogOperation e.tx entry)
      rw [hw]
      show s'.useMemoryFallback = _ ∧ s'.dbPromise = _
      rw [hflag, hdb]
      exact ⟨failsIn_eq s { s with memoryTrialLog := s.memoryTrialLog ++ [entry] } e
        (.appendTrialLog entry) _ rfl rfl rfl
        ((appendTrialLogOperation_isOk e.tx entry s.durable).trans
          (by simp [Call.validRequest])), dbPromise_eq s _ e _ rfl rfl rfl⟩
  case replaceTrialLog entries =>
    simp only [step, replaceTrialLog]
    split
    · next hf => simp [hf]
    · obtain ⟨r, s', hw, hflag, hdb⟩ := withDb_flag
        { s with memoryTrialLog := copyEntries (defaultEntries entries) } e
        (replaceTrialLogOperation e.tx (copyEntries (defaultEntries entries)))
      rw [hw]
      show s'.useMemoryFallback = _ ∧ s'.dbPromise = _
      rw [hflag, hdb]
      exact ⟨failsIn_eq s { s with memoryTrialLog := copyEntries (defaultEntries entries) } e
        (.replaceTrialLog entries) _ rfl rfl rfl
        ((replaceTrialLogOperation_isOk e.tx (copyEntries (defaultEntries entries))
          s.durable).trans (by simp [Call.validRequest])), dbPromise_eq s _ e _ rfl rfl rfl⟩
  case getSeriesList =>
    simp only [step, getSeriesList]
    split
    · next hf => simp [hf]
    · obtain ⟨r, s', hw, hflag, hdb⟩ := withDb_flag s e (getSeriesListOperation e.tx)
      have key : s'.useMemoryFallback =
          (s.useMemoryFallback || failsIn s e .getSeriesList) ∧
          s'.dbPromise = if (s.useMemoryFallback || !Call.getSeriesList.usesBackend)
            then s.dbPromise else some (openDb s e).1 := by
        rw [hflag, hdb]
        exact ⟨failsIn_eq s s e .getSeriesList _ rfl rfl rfl
          ((getSeriesListOperation_isOk e.tx s.durable).trans (by simp [Call.validRequest])),
          dbPromise_eq s s e _ rfl rfl rfl⟩
      rw [hw]
      cases r <;> exact key
  case getSeriesById id =>
    simp only [step, getSeriesById]
    split
    · next hid => simp at hid; simp [failsIn, Call.usesBackend, hid]
    · next hid =>
      have hid' : id.truthy = true := by simpa using hid
      split
      · next hf => simp [hf]
      · obtain ⟨r, s', hw, hflag, hdb⟩ := withDb_flag s e (getSeriesByIdOperation e.tx id)
        have key : s'.useMemoryFallback =
            (s.useMemoryFallback || failsIn s e (.getSeriesById id)) ∧
            s'.dbPromise = if (s.useMemoryFallback || !(Call.getSeriesById id).usesBackend)
              then s.dbPromise else some (openDb s e).1 := by
          rw [hflag, hdb]
          exact ⟨failsIn_eq s s e (.getSeriesById id) _ rfl rfl hid'
            (getSeriesByIdOperation_isOk _ _ _), dbPromise_eq s s e _ rfl rfl hid'⟩
        rw [hw]
        cases r with
        | array items => exact key
        | value v =>
          simp only
          split
          · split
            · exact key
            · split <;> exact key
          · exact key
  case saveSeries series =>
    simp only [step, saveSeries]
    split
    · next hid => simp at hid; simp [failsIn, Call.usesBackend, hid]
    · next hid =>
      have hid' : series.optId.truthy = true := by simpa using hid
      obtain ⟨-, -, hg⟩ := truthy_optId series hid'
      simp only [hg]
      split
      · next hf => simp [hf]
      · obtain ⟨r, s', hw, hflag, hdb⟩ := withDb_flag
          { s with memorySeries := s.memorySeries.set series.optId series } e
          (saveSeriesOperation e.tx series)
        rw [hw]
        show s'.useMemoryFallback = _ ∧ s'.dbPromise = _
        rw [hflag, hdb]
        exact ⟨failsIn_eq s { s with memorySeries := s.memorySeries.set series.optId series } e
          (.saveSeries series) _ rfl rfl hid' (saveSeriesOperation_isOk e.tx series s.durable),
          dbPromise_eq s _ e _ rfl rfl hid'⟩
  case deleteSeries id =>
    simp only [step, deleteSeries]
    split
    · next hid => simp at hid; simp [failsIn, Call.usesBackend, hid]
    · next hid =>
      have hid' : id.truthy = true := by simpa using hid
      split
      · next hf => simp [hf]
      · obtain ⟨r, s', hw, hflag, hdb⟩ := withDb_flag
          { s with memorySeries := s.memorySeries.delete id } e (deleteSeriesOperation e.tx id)
        rw [hw]
        show s'.useMemoryFallback = _ ∧ s'.dbPromise = _
        rw [hflag, hdb]
        exact ⟨failsIn_eq s { s with memorySeries := s.memorySeries.delete id } e
          (.deleteSeries id) _ rfl rfl hid' (deleteSeriesOperation_isOk e.tx id s.durable),
          dbPromise_eq s _ e _ rfl rfl hid'⟩

theorem run_flag (calls : List (Env × Call)) (s : State) :
    (run s calls).useMemoryFallback = (s.useMemoryFallback || anyFailure s calls) := by
  induction calls generalizing s with
  | nil => simp [run, anyFailure]
  | cons p rest ih =>
    obtain ⟨e, c⟩ := p
    simp only [run, anyFailure]
    rw [ih, (step_summary s e c).1, Bool.or_assoc]

theorem failsIn_of_ok (s : State) (e : Env) (c : Call) (hf : s.useMemoryFallback = false)
    (hp : ∀ err, s.dbPromise ≠ some (.rejected err))
    (he : ∀ err, e.openOutcome ≠ .rejected err) (htx : e.tx = .complete)
    (hv : c.validRequest = true) :
    failsIn s e c = false ∧ ∀ err, (step s e c).2.dbPromise ≠ some (.rejected err) := by
  have ho : ∀ err, (openDb s e).1 ≠ .rejected err := by
    intro err
    rw [openDb_fst]
    cases hs : s.dbPromise with
    | none => simpa using he err
    | some o =>
      intro h
      simp only [Option.getD_some] at h
      exact hp err (by rw [hs, h])
  constructor
  · simp only [failsIn, hf, htx, hv]
    cases hcase : (openDb s e).1 with
    | rejected err => exact absurd hcase (ho err)
    | resolved h => cases h <;> simp
  · intro err
    rw [(step_summary s e c).2]
    split
    · exact hp err
    · intro h
      exact ho err (Option.some.inj h)

theorem anyFailure_of_ok (calls : List (Env × Call)) (s : State)
    (hf : s.useMemoryFallback = false) (hp : ∀ err, s.dbPromise ≠ some (.rejected err))
    (hok : ∀ p ∈ calls, (∀ err, p.1.openOutcome ≠ .rejected err) ∧ p.1.tx = .complete ∧
      p.2.validRequest = true) :
    anyFailure s calls = false := by
  induction calls generalizing s with
  | nil => rfl
  | cons p rest ih =>
    obtain ⟨e, c⟩ := p
    obtain ⟨he, htx, hv⟩ := hok (e, c) (List.mem_cons_self _ _)
    obtain ⟨h1, h2⟩ := failsIn_of_ok s e c hf hp he htx hv
    simp only [anyFailure, h1, Bool.false_or]
    apply ih
    · rw [(step_summary s e c).1, hf, h1]
      rfl
    · exact h2
    · exact fun p hp' => hok p (List.mem_cons_of_mem _ hp')

/-- C20: the degrade flag after a call is set exactly when it was set before or
an open, a request or a transaction fails during the call; so after every
sequence of calls from the initial state the store is in memory-only mode
exactly when such a failure happened during the sequence, and it is still in
durable mode when every open attempt resolves, every transaction completes
and every request carries a valid key. -/
theorem no_spurious_degrade (s : State) (e : Env) (c : Call) (d : Durable)
    (calls : List (Env × Call)) :
    (step s e c).2.useMemoryFallback = (s.useMemoryFallback || failsIn s e c) ∧
    (run (initial d) calls).useMemoryFallback = anyFailure (initial d) calls ∧
    ((∀ p ∈ calls, (∀ err, p.1.openOutcome ≠ .rejected err) ∧ p.1.tx = .complete ∧
        p.2.validRequest = true) →
      (run (initial d) calls).useMemoryFallback = false) := by
  have h2 : (run (initial d) calls).useMemoryFallback = anyFailure (initial d) calls := by
    rw [run_flag]
    rfl
  refine ⟨(step_summary s e c).1, h2, ?_⟩
  intro hok
  rw [h2]
  exact anyFailure_of_ok calls (initial d) rfl (by simp [initial]) hok

/-- C20 (witness): two healthy calls leave the store in durable mode. -/
theorem no_spurious_degrade_witness :
    (∀ p ∈ [(healthy, Call.setSetting (.str "volume") (.prim (.num 7))),
        (healthy, Call.getSetting (.str "volume"))],
      (∀ err, p.1.openOutcome ≠ .rejected err) ∧ p.1.tx = .complete ∧
        p.2.validRequest = true) ∧
    (run (initial emptyDurable)
      [(healthy, Call.setSetting (.str "volume") (.prim (.num 7))),
        (healthy, Call.getSetting (.str "volume"))]).useMemoryFallback = false :=
  ⟨by simp [healthy, Call.validRequest, validKey],
    (no_spurious_degrade (initial emptyDurable) healthy .getTrialLog emptyDurable
      [(healthy, Call.setSetting (.str "volume") (.prim (.num 7))),
        (healthy, Call.getSetting (.str "volume"))]).2.2
      (by simp [healthy, Call.validRequest, validKey])⟩

/-! ## Series: saving several -/

theorem saveSeries_present (s : State) (e : Env) (x : JsVal) (h : x.optId.truthy = true) :
    SeriesPresent (saveSeries s e x).2 x := by
  obtain ⟨-, -, hid⟩ := truthy_optId x h
  simp only [saveSeries, h, hid, Bool.not_true, Bool.false_eq_true, if_false]
  split
  · next hf => exact ⟨JsMap.get_set_self _ _ _, Or.inl hf⟩
  · obtain ⟨r, s', hw, -, -, hm, -, -, hc⟩ := withDb_post
      { s with memorySeries := s.memorySeries.set x.optId x } e (saveSeriesOperation e.tx x)
    rw [hw]
    refine ⟨by simp only [hm]; exact JsMap.get_set_self _ _ _, ?_⟩
    rcases hc with ⟨hf, -⟩ | ⟨hf, hp, -⟩ | ⟨hf, hp, hop⟩
    · exact Or.inl hf
    · exact Or.inr (Or.inl ⟨hf, hp⟩)
    · refine Or.inr (Or.inr ⟨hf, hp, ?_⟩)
      rcases saveSeriesOperation_cases e.tx x s.durable with ⟨-, -, hop'⟩ | ⟨-, err, hop'⟩
      · simp only at hop
        rw [hop'] at hop
        rw [← (Prod.mk.inj hop).2]
        simp only [List.mem_orderedInsert, List.mem_filter]
        refine ⟨Or.inl trivial, ?_⟩
        rintro r (hr | ⟨-, hr⟩) hrid
        · exact hr
        · simp [hrid] at hr
      · simp only at hop
        rw [hop'] at hop
        simp at hop

theorem saveSeries_preserves_present (s : State) (e : Env) (x y : JsVal)
    (h : SeriesPresent s x) (hne : y.optId ≠ x.optId) :
    SeriesPresent (saveSeries s e y).2 x := by
  obtain ⟨hget, hc0⟩ := h
  simp only [saveSeries]
  split
  · exact ⟨hget, hc0⟩
  · next hy =>
    have hy' : y.optId.truthy = true := by simpa using hy
    obtain ⟨-, -, hid⟩ := truthy_optId y hy'
    simp only [hid]
    have hget' : (s.memorySeries.set y.optId y).get x.optId = x := by
      rw [JsMap.get_set_of_ne _ _ _ _ hne]
      exact hget
    split
    · next hf => exact ⟨hget', Or.inl hf⟩
    · next hf =>
      obtain ⟨r, s', hw, -, -, hm, -, hmemo, hc⟩ := withDb_post
        { s with memorySeries := s.memorySeries.set y.optId y } e (saveSeriesOperation e.tx y)
      rw [hw]
      refine ⟨by simp only [hm]; exact hget', ?_⟩
      rcases hc with ⟨hf', -⟩ | ⟨hf', hp, -⟩ | ⟨hf', hp, hop⟩
      · exact Or.inl hf'
      · exact Or.inr (Or.inl ⟨hf', hp⟩)
      · refine Or.inr (Or.inr ⟨hf', hp, ?_⟩)
        rcases hc0 with hf0 | ⟨-, hp0⟩ | ⟨-, -, hx, hu⟩
        · exact absurd hf0 hf
        · rw [hmemo _ hp0] at hp
          simp at hp
        · rcases saveSeriesOperation_cases e.tx y s.durable with ⟨-, -, hop'⟩ | ⟨-, err, hop'⟩
          · simp only at hop
            rw [hop'] at hop
            rw [← (Prod.mk.inj hop).2]
            simp only [List.mem_orderedInsert, List.mem_filter]
            refine ⟨Or.inr ⟨hx, by simpa using fun h => hne h.symm⟩, ?_⟩
            rintro r (hr | ⟨hr, -⟩) hrid
            · rw [hr] at hrid
              exact absurd hrid hne
            · exact hu r hr hrid
          · simp only at hop
            rw [hop'] at hop
            simp at hop

theorem saveAll_preserves_present (saves : List (Env × JsVal)) (s : State) (x : JsVal)
    (h : SeriesPresent s x) (hne : ∀ p ∈ saves, p.2.optId ≠ x.optId) :
    SeriesPresent (saveAll s saves) x := by
  induction saves generalizing s with
  | nil => exact h
  | cons p rest ih =>
    obtain ⟨e, y⟩ := p
    exact ih _ (saveSeries_preserves_present s e x y h (hne (e, y) (List.mem_cons_self _ _)))
      (fun p hp => hne p (List.mem_cons_of_mem _ hp))

theorem saveAll_present (saves : List (Env × JsVal)) (s : State)
    (hid : ∀ p ∈ saves, p.2.optId.truthy = true)
    (hnd : (saves.map (fun p => p.2.optId)).Nodup) :
    ∀ p ∈ saves, SeriesPresent (saveAll s saves) p.2 := by
  induction saves generalizing s with
  | nil => intro p hp; simp at hp
  | cons q rest ih =>
    obtain ⟨e, x⟩ := q
    simp only [List.map_cons, List.nodup_cons] at hnd
    intro p hp
    rcases List.mem_cons.1 hp with h | h
    · subst h
      refine saveAll_preserves_present rest _ x
        (saveSeries_present s e x (hid (e, x) (List.mem_cons_self _ _))) ?_
      intro p hp' hpe
      exact hnd.1 (List.mem_map.2 ⟨p, hp', hpe⟩)
    · exact ih (saveSeries s e x).2 (fun p hp' => hid p (List.mem_cons_of_mem _ hp')) hnd.2 p h

theorem getSeriesList_present (s : State) (e : Env) (x : JsVal) (h : SeriesPresent s x)
    (hid : x.optId.truthy = true) :
    ∃ items, (getSeriesList s e).1 = .ok (.array items) ∧ x ∈ items := by
  obtain ⟨hget, hc⟩ := h
  rcases getSeriesList_read s e with hr | ⟨hf, hp, hr⟩
  · refine ⟨_, hr, ?_⟩
    have hx : x ≠ jsUndefined := by
      intro hx
      rw [hx] at hid
      simp [jsUndefined, JsVal.optId, Prim.truthy] at hid
    exact List.mem_map.2 ⟨(x.optId, x), JsMap.mem_of_get _ _ _ hget hx, rfl⟩
  · rcases hc with hf1 | ⟨-, hp1⟩ | ⟨-, -, hx, -⟩
    · rw [hf] at hf1; exact absurd hf1 (by simp)
    · exact absurd (hp _ hp1) (by simp)
    · exact ⟨_, hr, hx⟩

theorem find?_of_unique (l : List JsVal) (x : JsVal) (hx : x ∈ l)
    (hu : ∀ r ∈ l, r.optId = x.optId → r = x) :
    l.find? (fun r => decide (r.optId = x.optId)) = some x := by
  cases hfind : l.find? (fun r => decide (r.optId = x.optId)) with
  | none =>
    rw [List.find?_eq_none] at hfind
    exact absurd (hfind x hx) (by simp)
  | some r =>
    have h1 := List.find?_some hfind
    have h2 := List.mem_of_find?_eq_some hfind
    rw [hu r h2 (by simpa using h1)]

theorem getSeriesById_present (s : State) (e : Env) (x : JsVal) (h : SeriesPresent s x)
    (hid : x.optId.truthy = true) :
    (getSeriesById s e x.optId).1 = .ok (.value x) ∧ SeriesPresent (getSeriesById s e x.optId).2 x := by
  obtain ⟨hget, hc⟩ := h
  obtain ⟨ht, hn, hgid⟩ := truthy_optId x hid
  have hmir : ∀ s2 : State, s2.memorySeries = s.memorySeries →
      mirrorSeries s2 x.optId = .value x := by
    intro s2 h2
    simp [mirrorSeries, h2, hget, JsAny.orElse, JsAny.nullish, hn]
  simp only [getSeriesById, hid, Bool.not_true, Bool.false_eq_true, if_false]
  split
  · exact ⟨by rw [hmir s rfl], hget, hc⟩
  · next hf =>
    obtain ⟨r, s2, hw, -, -, hm2, -, hmemo, hc2⟩ := withDb_post s e
      (getSeriesByIdOperation e.tx x.optId)
    rw [hw]
    rcases hc2 with ⟨hf2, hnull⟩ | ⟨hf2, hp2, hnull, -⟩ | ⟨hf2, hp2, hop⟩
    · subst hnull
      simp only [jsNull, JsVal.truthy, Prim.truthy, Bool.false_eq_true, if_false]
      exact ⟨by rw [hmir s2 hm2], by rw [hm2]; exact hget, Or.inl hf2⟩
    · subst hnull
      simp only [jsNull, JsVal.truthy, Prim.truthy, Bool.false_eq_true, if_false]
      exact ⟨by rw [hmir s2 hm2], by rw [hm2]; exact hget, Or.inr (Or.inl ⟨hf2, hp2⟩)⟩
    · rcases hc with hf1 | ⟨-, hp1⟩ | ⟨-, -, hx, hu⟩
      · exact absurd hf1 hf
      · rw [hmemo _ hp1] at hp2
        simp at hp2
      · rcases getSeriesByIdOperation_cases e.tx x.optId s.durable
          with ⟨-, -, hop'⟩ | ⟨-, err, hop'⟩
        · rw [hop', find?_of_unique _ x hx hu] at hop
          obtain ⟨hr, hd⟩ := Prod.mk.inj hop
          have hres : r = .value x := by
            rw [← Except.ok.inj hr]
            simp [JsAny.orElse, JsAny.nullish, hn]
          subst hres
          simp only [ht, hgid, hid, if_true]
          refine ⟨trivial, JsMap.get_set_self _ _ _, Or.inr (Or.inr ⟨hf2, hp2, ?_⟩)⟩
          rw [← hd]
          exact ⟨hx, hu⟩
        · rw [hop'] at hop
          simp at hop

theorem lastWithId_of_unique (l : List JsVal) (x : JsVal) (hx : x ∈ l)
    (hu : ∀ r ∈ l, r.optId = x.optId → r = x) : lastWithId l x.optId = some x := by
  unfold lastWithId
  exact find?_of_unique l.reverse x (List.mem_reverse.2 hx)
    (fun r hr => hu r (List.mem_reverse.1 hr))

theorem getSeriesList_preserves_present (s : State) (e : Env) (x : JsVal)
    (h : SeriesPresent s x) (hid : x.optId.truthy = true) :
    SeriesPresent (getSeriesList s e).2 x := by
  obtain ⟨hget, hc⟩ := h
  simp only [getSeriesList]
  split
  · exact ⟨hget, hc⟩
  · next hf =>
    obtain ⟨r, s2, hw, -, -, hm2, -, hmemo, hc2⟩ := withDb_post s e
      (getSeriesListOperation e.tx)
    rw [hw]
    rcases hc2 with ⟨hf2, hnull⟩ | ⟨hf2, hp2, hnull, -⟩ | ⟨hf2, hp2, hop⟩
    · subst hnull
      exact ⟨by simp only [hm2]; exact hget, Or.inl hf2⟩
    · subst hnull
      exact ⟨by simp only [hm2]; exact hget, Or.inr (Or.inl ⟨hf2, hp2⟩)⟩
    · rcases hc with hf1 | ⟨-, hp1⟩ | ⟨-, -, hx, hu⟩
      · exact absurd hf1 hf
      · rw [hmemo _ hp1] at hp2
        simp at hp2
      · rcases getSeriesListOperation_cases e.tx s.durable with ⟨-, hop'⟩ | ⟨-, err, hop'⟩
        · rw [hop'] at hop
          obtain ⟨hr, hd⟩ := Prod.mk.inj hop
          rw [← Except.ok.inj hr]
          refine ⟨?_, Or.inr (Or.inr ⟨hf2, hp2, by rw [← hd]; exact ⟨hx, hu⟩⟩)⟩
          exact JsMap.get_of_mem _ _ _ (rebuildSeries_nodup _)
            ((mem_rebuildSeries _ _ _).2 ⟨hid, lastWithId_of_unique _ x hx hu⟩)
        · rw [hop'] at hop
          simp at hop

/-- C12: for every state and every list of series with truthy, pairwise distinct
`id`s, after `saveSeries` has been called on each of them (with a healthy
backend, or with any other behaviour of the browser), the list returned by
`getSeriesList()` contains every one of them, and `getSeriesById(id)` returns
the saved series for each of their `id`s, right after the saves as well as
after that `getSeriesList()`. -/
theorem saved_series_are_listed (s : State) (saves : List (Env × JsVal)) (e1 e2 e3 : Env)
    (hid : ∀ p ∈ saves, p.2.optId.truthy = true)
    (hnd : (saves.map (fun p => p.2.optId)).Nodup) :
    (∃ items, (getSeriesList (saveAll s saves) e1).1 = .ok (.array items) ∧
      ∀ p ∈ saves, p.2 ∈ items) ∧
    (∀ p ∈ saves, (getSeriesById (saveAll s saves) e2 p.2.optId).1 = .ok (.value p.2)) ∧
    (∀ p ∈ saves,
      (getSeriesById (getSeriesList (saveAll s saves) e1).2 e3 p.2.optId).1 =
        .ok (.value p.2)) := by
  have hall := saveAll_present saves s hid hnd
  refine ⟨?_, ?_, ?_⟩
  · rcases getSeriesList_read (saveAll s saves) e1 with hr | ⟨-, -, hr⟩
    · refine ⟨_, hr, fun p hp => ?_⟩
      obtain ⟨items, hi, hx⟩ := getSeriesList_present _ e1 p.2 (hall p hp) (hid p hp)
      rw [hr] at hi
      rw [JsAny.array.inj (Except.ok.inj hi)]
      exact hx
    · refine ⟨_, hr, fun p hp => ?_⟩
      obtain ⟨items, hi, hx⟩ := getSeriesList_present _ e1 p.2 (hall p hp) (hid p hp)
      rw [hr] at hi
      rw [JsAny.array.inj (Except.ok.inj hi)]
      exact hx
  · exact fun p hp => (getSeriesById_present _ e2 p.2 (hall p hp) (hid p hp)).1
  · exact fun p hp => (getSeriesById_present _ e3 p.2
      (getSeriesList_preserves_present _ e1 p.2 (hall p hp) (hid p hp)) (hid p hp)).1

/-- C12 (witness): `{ id: "s1" }` and `{ id: "s2" }` saved with a healthy backend
are both listed and can both be read by `id`. -/
theorem saved_series_are_listed_witness :
    (∀ p ∈ [(healthy, JsVal.obj [("id", .str "s1")]), (healthy, JsVal.obj [("id", .str "s2")])],
      p.2.optId.truthy = true) ∧
    (([(healthy, JsVal.obj [("id", .str "s1")]),
      (healthy, JsVal.obj [("id", .str "s2")])]).map (fun p => p.2.optId)).Nodup ∧
    (getSeriesList (saveAll (initial emptyDurable)
      [(healthy, .obj [("id", .str "s1")]), (healthy, .obj [("id", .str "s2")])]) healthy).1 =
      .ok (.array [.obj [("id", .str "s1")], .obj [("id", .str "s2")]]) ∧
    (∀ p ∈ [(healthy, JsVal.obj [("id", .str "s1")]), (healthy, JsVal.obj [("id", .str "s2")])],
      (getSeriesById (saveAll (initial emptyDurable)
        [(healthy, .obj [("id", .str "s1")]), (healthy, .obj [("id", .str "s2")])]) healthy
        p.2.optId).1 = .ok (.value p.2)) :=
  ⟨by decide, by decide, rfl,
    (saved_series_are_listed (initial emptyDurable)
      [(healthy, .obj [("id", .str "s1")]), (healthy, .obj [("id", .str "s2")])]
      healthy healthy healthy (by decide) (by decide)).2.1⟩

/-! ## Well-formed mirrors -/

theorem MirrorsWF.of_eq {a b : State} (h : MirrorsWF b)
    (h1 : a.memorySettings = b.memorySettings) (h2 : a.memorySeries = b.memorySeries) :
    MirrorsWF a := by
  unfold MirrorsWF at h ⊢
  rw [h1, h2]
  exact h

theorem MirrorsWF.setSetting {a b : State} (h : MirrorsWF b) (k : Prim) (v : JsVal)
    (h1 : a.memorySettings = b.memorySettings.set k v) (h2 : a.memorySeries = b.memorySeries) :
    MirrorsWF a := by
  unfold MirrorsWF at h ⊢
  rw [h1, h2]
  exact ⟨JsMap.nodup_set _ _ _ h.1, h.2⟩

theorem MirrorsWF.setSeries {a b : State} (h : MirrorsWF b) (v : JsVal)
    (hv : v.optId.truthy = true)
    (h1 : a.memorySettings = b.memorySettings)
    (h2 : a.memorySeries = b.memorySeries.set v.optId v) : MirrorsWF a := by
  unfold MirrorsWF at h ⊢
  rw [h1, h2]
  refine ⟨h.1, JsMap.nodup_set _ _ _ h.2.1, ?_⟩
  intro kv hkv
  rcases JsMap.mem_set _ _ _ kv hkv with h3 | h3
  · rw [h3]
    exact ⟨rfl, hv⟩
  · exact h.2.2 kv h3

theorem MirrorsWF.deleteSeries {a b : State} (h : MirrorsWF b) (k : Prim)
    (h1 : a.memorySettings = b.memorySettings)
    (h2 : a.memorySeries = b.memorySeries.delete k) : MirrorsWF a := by
  unfold MirrorsWF at h ⊢
  rw [h1, h2]
  exact ⟨h.1, JsMap.nodup_delete _ _ h.2.1,
    fun kv hkv => h.2.2 kv ((JsMap.mem_delete _ _ _).1 hkv).1⟩

theorem lastWithId_some (l : List JsVal) (k : Prim) (v : JsVal)
    (h : lastWithId l k = some v) : v ∈ l ∧ v.optId = k := by
  unfold lastWithId at h
  exact ⟨List.mem_reverse.1 (List.mem_of_find?_eq_some h), by simpa using List.find?_some h⟩

theorem MirrorsWF.rebuild {a b : State} (h : MirrorsWF b) (l : List JsVal)
    (h1 : a.memorySettings = b.memorySettings)
    (h2 : a.memorySeries = rebuildSeries l) : MirrorsWF a := by
  unfold MirrorsWF at h ⊢
  rw [h1, h2]
  refine ⟨h.1, rebuildSeries_nodup l, ?_⟩
  rintro ⟨k, v⟩ hkv
  obtain ⟨hk, hl⟩ := (mem_rebuildSeries l k v).1 hkv
  exact ⟨(lastWithId_some l k v hl).2, hk⟩

theorem getId_ok (v : JsVal) (rid : Prim) (h : v.getId = .ok rid) : v.optId = rid := by
  simp only [JsVal.getId] at h
  split at h
  · simp at h
  · simpa using h

theorem step_mirrorsWF (s : State) (e : Env) (c : Call) (h : MirrorsWF s) :
    MirrorsWF (step s e c).2 := by
  cases c
  case getSetting key =>
    simp only [step, getSetting]
    split
    · exact h
    · obtain ⟨r, s', hw, hms, -, hm, -, -, -⟩ := withDb_post s e (getSettingOperation e.tx key)
      rw [hw]
      simp only
      split <;> exact h.of_eq hms hm
  case setSetting key value =>
    simp only [step, setSetting]
    split
    · exact h.setSetting key value rfl rfl
    · obtain ⟨r, s', hw, hms, -, hm, -, -, -⟩ := withDb_post _ e
        (setSettingOperation e.tx key value)
      rw [hw]
      exact h.setSetting key value hms hm
  case getTrialLog =>
    simp only [step, getTrialLog]
    split
    · exact h
    · obtain ⟨r, s', hw, hms, -, hm, -, -, -⟩ := withDb_post s e (getTrialLogOperation e.tx)
      rw [hw]
      cases r <;> exact h.of_eq hms hm
  case appendTrialLog entry =>
    simp only [step, appendTrialLog]
    split
    · exact h.of_eq rfl rfl
    · obtain ⟨r, s', hw, hms, -, hm, -, -, -⟩ := withDb_post _ e
        (appendTrialLogOperation e.tx entry)
      rw [hw]
      exact h.of_eq hms hm
  case replaceTrialLog entries =>
    simp only [step, replaceTrialLog]
    split
    · exact h.of_eq rfl rfl
    · obtain ⟨r, s', hw, hms, -, hm, -, -, -⟩ := withDb_post _ e
        (replaceTrialLogOperation e.tx _)
      rw [hw]
      exact h.of_eq hms hm
  case getSeriesList =>
    simp only [step, getSeriesList]
    split
    · exact h
    · obtain ⟨r, s', hw, hms, -, hm, -, -, -⟩ := withDb_post s e (getSeriesListOperation e.tx)
      rw [hw]
      cases r
      · exact h.of_eq hms hm
      · exact h.rebuild _ hms rfl
  case getSeriesById id =>
    simp only [step, getSeriesById]
    split
    · exact h
    · split
      · exact h
      · obtain ⟨r, s', hw, hms, -, hm, -, -, -⟩ := withDb_post s e
          (getSeriesByIdOperation e.tx id)
        rw [hw]
        cases r with
        | array items => exact h.of_eq hms hm
        | value v =>
          simp only
          split
          · split
            · exact h.of_eq hms hm
            · next rid hrid =>
              have hv := getId_ok v rid hrid
              subst hv
              split
              · next ht => exact h.setSeries v ht hms (by simp only [hm])
              · exact h.of_eq hms hm
          · exact h.of_eq hms hm
  case saveSeries series =>
    simp only [step, saveSeries]
    split
    · exact h
    · next hid =>
      have hid' : series.optId.truthy = true := by simpa using hid
      obtain ⟨-, -, hg⟩ := truthy_optId series hid'
      simp only [hg]
      split
      · exact h.setSeries series hid' rfl rfl
      · obtain ⟨r, s', hw, hms, -, hm, -, -, -⟩ := withDb_post
          { s with memorySeries := s.memorySeries.set series.optId series } e
          (saveSeriesOperation e.tx series)
        rw [hw]
        exact h.setSeries series hid' hms hm
  case deleteSeries id =>
    simp only [step, deleteSeries]
    split
    · exact h
    · split
      · exact h.deleteSeries id rfl rfl
      · obtain ⟨r, s', hw, hms, -, hm, -, -, -⟩ := withDb_post
          { s with memorySeries := s.memorySeries.delete id } e (deleteSeriesOperation e.tx id)
        rw [hw]
        exact h.deleteSeries id hms hm

theorem initial_mirrorsWF (d : Durable) : MirrorsWF (initial d) := by
  simp [MirrorsWF, initial]

theorem reachable_mirrorsWF (s : State) (h : Reachable s) : MirrorsWF s := by
  induction h with
  | init d => exact initial_mirrorsWF d
  | call e c _ ih => exact step_mirrorsWF _ e c ih

/-! ## Successful units of work -/

theorem getSettingOperation_ok {tx : TxOutcome} {key : Prim} {d d' : Durable} {r : JsAny}
    (h : getSettingOperation tx key d = (.ok r, d')) :
    r = (JsAny.value (d.settings.get key)).orElse (.value jsNull) ∧ d' = d ∧
      tx = .complete ∧ validKey key = true := by
  rcases getSettingOperation_cases tx key d with ⟨h1, h2, h3⟩ | ⟨-, err, h3⟩
  · rw [h3] at h
    exact ⟨(Except.ok.inj (Prod.mk.inj h).1).symm, (Prod.mk.inj h).2.symm, h1, h2⟩
  · rw [h3] at h
    simp at h

theorem setSettingOperation_ok {tx : TxOutcome} {key : Prim} {value : JsVal} {d d' : Durable}
    {r : JsAny} (h : setSettingOperation tx key value d = (.ok r, d')) :
    d' = { d with settings := d.settings.set key value } := by
  rcases setSettingOperation_cases tx key value d with ⟨-, -, h3⟩ | ⟨-, err, h3⟩
  · rw [h3] at h
    exact (Prod.mk.inj h).2.symm
  · rw [h3] at h
    simp at h

theorem getTrialLogOperation_ok {tx : TxOutcome} {d d' : Durable} {r : JsAny}
    (h : getTrialLogOperation tx d = (.ok r, d')) : r = .array d.trialLog ∧ d' = d := by
  rcases getTrialLogOperation_cases tx d with ⟨-, h3⟩ | ⟨-, err, h3⟩
  · rw [h3] at h
    exact ⟨(Except.ok.inj (Prod.mk.inj h).1).symm, (Prod.mk.inj h).2.symm⟩
  · rw [h3] at h
    simp at h

theorem appendTrialLogOperation_ok {tx : TxOutcome} {entry : JsVal} {d d' : Durable}
    {r : JsAny} (h : appendTrialLogOperation tx entry d = (.ok r, d')) :
    d' = { d with trialLog := d.trialLog ++ [entry] } := by
  rcases appendTrialLogOperation_cases tx entry d with ⟨-, h3⟩ | ⟨-, err, h3⟩
  · rw [h3] at h
    exact (Prod.mk.inj h).2.symm
  · rw [h3] at h
    simp at h

theorem replaceTrialLogOperation_ok {tx : TxOutcome} {mirror : List JsVal} {d d' : Durable}
    {r : JsAny} (h : replaceTrialLogOperation tx mirror d = (.ok r, d')) :
    d' = { d with trialLog := mirror } := by
  rcases replaceTrialLogOperation_cases tx mirror d with ⟨-, h3⟩ | ⟨-, err, h3⟩
  · rw [h3] at h
    exact (Prod.mk.inj h).2.symm
  · rw [h3] at h
    simp at h

theorem getSeriesListOperation_ok {tx : TxOutcome} {d d' : Durable} {r : JsAny}
    (h : getSeriesListOperation tx d = (.ok r, d')) : r = .array d.series ∧ d' = d := by
  rcases getSeriesListOperation_cases tx d with ⟨-, h3⟩ | ⟨-, err, h3⟩
  · rw [h3] at h
    exact ⟨(Except.ok.inj (Prod.mk.inj h).1).symm, (Prod.mk.inj h).2.symm⟩
  · rw [h3] at h
    simp at h

theorem getSeriesByIdOperation_ok {tx : TxOutcome} {id : Prim} {d d' : Durable} {r : JsAny}
    (h : getSeriesByIdOperation tx id d = (.ok r, d')) :
    r = (JsAny.value ((d.series.find? (fun x => decide (x.optId = id))).getD
      jsUndefined)).orElse (.value jsNull) ∧ d' = d := by
  rcases getSeriesByIdOperation_cases tx id d with ⟨-, -, h3⟩ | ⟨-, err, h3⟩
  · rw [h3] at h
    exact ⟨(Except.ok.inj (Prod.mk.inj h).1).symm, (Prod.mk.inj h).2.symm⟩
  · rw [h3] at h
    simp at h

theorem saveSeriesOperation_ok {tx : TxOutcome} {series : JsVal} {d d' : Durable} {r : JsAny}
    (h : saveSeriesOperation tx series d = (.ok r, d')) :
    d' = { d with
      series := List.orderedInsert recordLe series
          (d.series.filter (fun x => decide (x.optId ≠ series.optId))) } := by
  rcases saveSeriesOperation_cases tx series d with ⟨-, -, h3⟩ | ⟨-, err, h3⟩
  · rw [h3] at h
    exact (Prod.mk.inj h).2.symm
  · rw [h3] at h
    simp at h

theorem deleteSeriesOperation_ok {tx : TxOutcome} {id : Prim} {d d' : Durable} {r : JsAny}
    (h : deleteSeriesOperation tx id d = (.ok r, d')) :
    d' = { d with series := d.series.filter (fun x => decide (x.optId ≠ id)) } := by
  rcases deleteSeriesOperation_cases tx id d with ⟨-, -, h3⟩ | ⟨-, err, h3⟩
  · rw [h3] at h
    exact (Prod.mk.inj h).2.symm
  · rw [h3] at h
    simp at h

/-- Summary of `withDb` for a state that afterwards is neither degraded nor
without a handle: it was so before, and the unit of work succeeded. -/
theorem withDb_live (s : State) (e : Env) (op : Durable → Except JsError JsAny × Durable) :
    ∃ r s', withDb s e op = (.ok r, s') ∧
      s'.memorySettings = s.memorySettings ∧ s'.memoryTrialLog = s.memoryTrialLog ∧
      s'.memorySeries = s.memorySeries ∧
      (s'.useMemoryFallback = false → s'.dbPromise ≠ some (.resolved false) →
        s.useMemoryFallback = false ∧ s.dbPromise ≠ some (.resolved false) ∧
        s'.dbPromise = some (.resolved true) ∧ op s.durable = (.ok r, s'.durable)) := by
  obtain ⟨r, s', hw, h1, h2, h3, hfix, hmemo, hc⟩ := withDb_post s e op
  refine ⟨r, s', hw, h1, h2, h3, ?_⟩
  intro hf hp
  rcases hc with ⟨hf', -⟩ | ⟨-, hp', -⟩ | ⟨-, hp', hop⟩
  · rw [hf] at hf'
    exact absurd hf' (by simp)
  · exact absurd hp' hp
  · refine ⟨?_, ?_, hp', hop⟩
    · cases hs : s.useMemoryFallback with
      | false => rfl
      | true =>
        rw [hfix hs] at hf
        rw [hf] at hs
        exact absurd hs (by simp)
    · intro hs
      rw [hmemo _ hs] at hp'
      simp at hp'

/-! ## Consistency of the mirrors with the database -/

theorem find?_of_truthy_result (l : List JsVal) (p : JsVal → Bool) (v : JsVal)
    (h : JsAny.value v = (JsAny.value ((l.find? p).getD jsUndefined)).orElse (.value jsNull))
    (hv : v.truthy = true) : l.find? p = some v := by
  cases hfind : l.find? p with
  | none =>
    rw [hfind] at h
    simp only [Option.getD_none, JsAny.orElse, JsAny.nullish, JsVal.nullish, jsUndefined,
      if_true] at h
    rw [JsAny.value.inj h] at hv
    simp [jsNull, JsVal.truthy, Prim.truthy] at hv
  | some w =>
    rw [hfind] at h
    simp only [Option.getD_some, JsAny.orElse] at h
    split at h
    · rw [JsAny.value.inj h] at hv
      simp [jsNull, JsVal.truthy, Prim.truthy] at hv
    · rw [JsAny.value.inj h]

/-- A call keeps the mirrors consistent with the database, as long as the store
is neither degraded nor without a handle afterwards. -/
theorem step_consistent (s : State) (e : Env) (c : Call) (hwf : MirrorsWF s)
    (h : s.useMemoryFallback = false → s.dbPromise ≠ some (.resolved false) →
      MirrorConsistent s) :
    (step s e c).2.useMemoryFallback = false →
      (step s e c).2.dbPromise ≠ some (.resolved false) → MirrorConsistent (step s e c).2 := by
  cases c
  case getSetting key =>
    simp only [step, getSetting]
    split
    · exact h
    · obtain ⟨r, s', hw, hms, hml, hm, hlive⟩ := withDb_live s e (getSettingOperation e.tx key)
      have key : s'.useMemoryFallback = false → s'.dbPromise ≠ some (.resolved false) →
          MirrorConsistent s' := by
        intro hf hp
        obtain ⟨hf0, hp0, -, hop⟩ := hlive hf hp
        have hc := h hf0 hp0
        have hd := (getSettingOperation_ok hop).2.1
        unfold MirrorConsistent at hc ⊢
        rw [hms, hml, hm, hd]
        exact hc
      rw [hw]
      simp only
      split <;> exact key
  case setSetting key value =>
    simp only [step, setSetting]
    split
    · next hf => intro hf'; rw [hf'] at hf; exact absurd hf (by simp)
    · obtain ⟨r, s', hw, hms, hml, hm, hlive⟩ := withDb_live
        { s with memorySettings := s.memorySettings.set key value } e
        (setSettingOperation e.tx key value)
      rw [hw]
      intro hf hp
      obtain ⟨hf0, hp0, -, hop⟩ := hlive hf hp
      have hc := h hf0 hp0
      have hd := setSettingOperation_ok hop
      unfold MirrorConsistent at hc ⊢
      rw [hms, hml, hm, hd]
      refine ⟨?_, hc.2.1, hc.2.2⟩
      intro kv hkv
      rcases (JsMap.mem_set_iff _ _ _ _ hwf.1).1 hkv with h1 | ⟨h1, h2⟩
      · rw [h1]
        exact JsMap.mem_set_self _ _ _
      · exact JsMap.mem_set_of_ne _ _ _ _ (hc.1 kv h1) h2
  case getTrialLog =>
    simp only [step, getTrialLog]
    split
    · exact h
    · obtain ⟨r, s', hw, hms, hml, hm, hlive⟩ := withDb_live s e (getTrialLogOperation e.tx)
      rw [hw]
      cases r with
      | value v =>
        intro hf hp
        obtain ⟨hf0, hp0, -, hop⟩ := hlive hf hp
        exact absurd (getTrialLogOperation_ok hop).1 (by simp)
      | array items =>
        intro hf hp
        obtain ⟨hf0, hp0, -, hop⟩ := hlive hf hp
        have hc := h hf0 hp0
        obtain ⟨hr, hd⟩ := getTrialLogOperation_ok hop
        unfold MirrorConsistent at hc ⊢
        simp only
        rw [hms, hm, hd, JsAny.array.inj hr]
        exact ⟨hc.1, hc.2.1, List.suffix_refl _⟩
  case appendTrialLog entry =>
    simp only [step, appendTrialLog]
    split
    · next hf => intro hf'; rw [hf'] at hf; exact absurd hf (by simp)
    · obtain ⟨r, s', hw, hms, hml, hm, hlive⟩ := withDb_live
        { s with memoryTrialLog := s.memoryTrialLog ++ [entry] } e
        (appendTrialLogOperation e.tx entry)
      rw [hw]
      intro hf hp
      obtain ⟨hf0, hp0, -, hop⟩ := hlive hf hp
      have hc := h hf0 hp0
      have hd := appendTrialLogOperation_ok hop
      unfold MirrorConsistent at hc ⊢
      rw [hms, hml, hm, hd]
      refine ⟨hc.1, hc.2.1, ?_⟩
      obtain ⟨t, ht⟩ := hc.2.2
      exact ⟨t, by simp only [← ht, List.append_assoc]⟩
  case replaceTrialLog entries =>
    simp only [step, replaceTrialLog]
    split
    · next hf => intro hf'; rw [hf'] at hf; exact absurd hf (by simp)
    · obtain ⟨r, s', hw, hms, hml, hm, hlive⟩ := withDb_live
        { s with memoryTrialLog := copyEntries (defaultEntries entries) } e
        (replaceTrialLogOperation e.tx (copyEntries (defaultEntries entries)))
      rw [hw]
      intro hf hp
      obtain ⟨hf0, hp0, -, hop⟩ := hlive hf hp
      have hc := h hf0 hp0
      have hd := replaceTrialLogOperation_ok hop
      unfold MirrorConsistent at hc ⊢
      rw [hms, hml, hm, hd]
      exact ⟨hc.1, hc.2.1, List.suffix_refl _⟩
  case getSeriesList =>
    simp only [step, getSeriesList]
    split
    · exact h
    · obtain ⟨r, s', hw, hms, hml, hm, hlive⟩ := withDb_live s e (getSeriesListOperation e.tx)
      rw [hw]
      cases r with
      | value v =>
        intro hf hp
        obtain ⟨hf0, hp0, -, hop⟩ := hlive hf hp
        exact absurd (getSeriesListOperation_ok hop).1 (by simp)
      | array items =>
        intro hf hp
        obtain ⟨hf0, hp0, -, hop⟩ := hlive hf hp
        have hc := h hf0 hp0
        obtain ⟨hr, hd⟩ := getSeriesListOperation_ok hop
        unfold MirrorConsistent at hc ⊢
        simp only
        rw [hms, hml, hd, JsAny.array.inj hr]
        refine ⟨hc.1, ?_, hc.2.2⟩
        rintro ⟨k, v⟩ hkv
        exact lastWithId_some _ k v ((mem_rebuildSeries _ k v).1 hkv).2
  case getSeriesById id =>
    simp only [step, getSeriesById]
    split
    · exact h
    · split
      · exact h
      · obtain ⟨r, s', hw, hms, hml, hm, hlive⟩ := withDb_live s e
          (getSeriesByIdOperation e.tx id)
        have key : s'.useMemoryFallback = false → s'.dbPromise ≠ some (.resolved false) →
            MirrorConsistent s' := by
          intro hf hp
          obtain ⟨hf0, hp0, -, hop⟩ := hlive hf hp
          have hc := h hf0 hp0
          have hd := (getSeriesByIdOperation_ok hop).2
          unfold MirrorConsistent at hc ⊢
          rw [hms, hml, hm, hd]
          exact hc
        rw [hw]
        cases r with
        | array items => exact key
        | value v =>
          simp only
          split
          · next ht =>
            split
            · exact key
            · next rid hrid =>
              have hv := getId_ok v rid hrid
              subst hv
              split
              · intro hf hp
                obtain ⟨hf0, hp0, -, hop⟩ := hlive hf hp
                have hc := h hf0 hp0
                obtain ⟨hr, hd⟩ := getSeriesByIdOperation_ok hop
                have hfind := find?_of_truthy_result _ _ v hr ht
                unfold MirrorConsistent at hc ⊢
                simp only
                rw [hms, hml, hm, hd]
                refine ⟨hc.1, ?_, hc.2.2⟩
                intro kv hkv
                rcases JsMap.mem_set _ _ _ kv hkv with h1 | h1
                · rw [h1]
                  exact ⟨List.mem_of_find?_eq_some hfind, rfl⟩
                · exact hc.2.1 kv h1
              · exact key
          · exact key
  case saveSeries series =>
    simp only [step, saveSeries]
    split
    · exact h
    · next hid =>
      have hid' : series.optId.truthy = true := by simpa using hid
      obtain ⟨-, -, hg⟩ := truthy_optId series hid'
      simp only [hg]
      split
      · next hf => intro hf'; rw [hf'] at hf; exact absurd hf (by simp)
      · obtain ⟨r, s', hw, hms, hml, hm, hlive⟩ := withDb_live
          { s with memorySeries := s.memorySeries.set series.optId series } e
          (saveSeriesOperation e.tx series)
        rw [hw]
        intro hf hp
        obtain ⟨hf0, hp0, -, hop⟩ := hlive hf hp
        have hc := h hf0 hp0
        have hd := saveSeriesOperation_ok hop
        unfold MirrorConsistent at hc ⊢
        rw [hms, hml, hm, hd]
        refine ⟨hc.1, ?_, hc.2.2⟩
        intro kv hkv
        simp only [List.mem_orderedInsert, List.mem_filter]
        rcases (JsMap.mem_set_iff _ _ _ _ hwf.2.1).1 hkv with h1 | ⟨h1, h2⟩
        · rw [h1]
          exact ⟨Or.inl rfl, rfl⟩
        · obtain ⟨h3, h4⟩ := hc.2.1 kv h1
          exact ⟨Or.inr ⟨h3, by simpa [h4] using h2⟩, h4⟩
  case deleteSeries id =>
    simp only [step, deleteSeries]
    split
    · exact h
    · split
      · next hf => intro hf'; rw [hf'] at hf; exact absurd hf (by simp)
      · obtain ⟨r, s', hw, hms, hml, hm, hlive⟩ := withDb_live
          { s with memorySeries := s.memorySeries.delete id } e (deleteSeriesOperation e.tx id)
        rw [hw]
        intro hf hp
        obtain ⟨hf0, hp0, -, hop⟩ := hlive hf hp
        have hc := h hf0 hp0
        have hd := deleteSeriesOperation_ok hop
        unfold MirrorConsistent at hc ⊢
        rw [hms, hml, hm, hd]
        refine ⟨hc.1, ?_, hc.2.2⟩
        intro kv hkv
        simp only [List.mem_filter]
        obtain ⟨h1, h2⟩ := (JsMap.mem_delete _ _ _).1 hkv
        obtain ⟨h3, h4⟩ := hc.2.1 kv h1
        exact ⟨⟨h3, by simpa [h4] using h2⟩, h4⟩

/-- The consistency of mirrors and database in a reachable state that has not
degraded and whose memoized open attempt is not a falsy result. -/
theorem consistent_of_reachable (s : State) (hs : Reachable s)
    (hf : s.useMemoryFallback = false) (hp : s.dbPromise ≠ some (.resolved false)) :
    MirrorConsistent s := by
  induction hs with
  | init d => simp [MirrorConsistent, initial]
  | call e c hr ih => exact step_consistent _ e c (reachable_mirrorsWF _ hr) ih hf hp

/-- The state after a sequence of calls made in a reachable state is reachable. -/
theorem reachable_run (calls : List (Env × Call)) :
    ∀ s : State, Reachable s → Reachable (run s calls) := by
  induction calls with
  | nil => intro s h; exact h
  | cons p rest ih =>
    intro s h
    obtain ⟨e, c⟩ := p
    exact ih _ (Reachable.call e c h)

/-- Every reachable state is the state after a sequence of calls from an initial
state. -/
theorem run_of_reachable (s : State) (h : Reachable s) :
    ∃ d calls, s = run (initial d) calls := by
  induction h with
  | init d => exact ⟨d, [], rfl⟩
  | call e c _ ih =>
    obtain ⟨d, calls, hs⟩ := ih
    refine ⟨d, calls ++ [(e, c)], ?_⟩
    have hrun : ∀ (l : List (Env × Call)) (t : State),
        run t (l ++ [(e, c)]) = (step (run t l) e c).2 := by
      intro l
      induction l with
      | nil => intro t; rfl
      | cons q rest ihl =>
        intro t
        obtain ⟨e1, c1⟩ := q
        exact ihl _
    rw [hrun, ← hs]

/-- When no open request succeeds with a falsy result, the memoized open attempt
is never one. -/
theorem run_dbPromise_handle (calls : List (Env × Call)) :
    ∀ s : State, s.dbPromise ≠ some (.resolved false) →
      (∀ p ∈ calls, p.1.openOutcome ≠ .resolved false) →
      (run s calls).dbPromise ≠ some (.resolved false) := by
  induction calls with
  | nil => intro s h _; exact h
  | cons p rest ih =>
    intro s h hall
    obtain ⟨e, c⟩ := p
    refine ih _ ?_ (fun q hq => hall q (List.mem_cons_of_mem _ hq))
    have he : e.openOutcome ≠ .resolved false := hall (e, c) (List.mem_cons_self _ _)
    rw [(step_summary s e c).2]
    split
    · exact h
    · rw [openDb_fst]
      cases hp : s.dbPromise with
      | none => simpa using he
      | some o =>
        rw [hp] at h
        simpa using h

/-- C19: in every state reached from the initial state (empty mirrors, any
contents of the database) by a sequence of calls during which no open request
succeeds with a falsy result (a successful `indexedDB.open` carries a database
handle), if the store has not degraded, then every setting of the settings
mirror is a record of the database with the same key and value, every series of
the series mirror is a record of the database with the `id` it is mirrored
under, and the mirrored trial log is a suffix of the log of the database. -/
theorem mirror_durable_consistent (d : Durable) (calls : List (Env × Call))
    (hopen : ∀ p ∈ calls, p.1.openOutcome ≠ .resolved false)
    (hf : (run (initial d) calls).useMemoryFallback = false) :
    MirrorConsistent (run (initial d) calls) :=
  consistent_of_reachable _ (reachable_run calls _ (Reachable.init d)) hf
    (run_dbPromise_handle calls _ (by simp [initial]) hopen)

/-- C19 (witness): after `setSetting("volume", 7)` and
`saveSeries` of the series with `id` `"s1"`, with a healthy backend, the store has not
degraded and the database holds the mirrored setting and series. -/
theorem mirror_durable_consistent_witness :
    (∀ p ∈ [(healthy, Call.setSetting (.str "volume") (.prim (.num 7))),
        (healthy, Call.saveSeries (.obj [("id", .str "s1")]))],
      p.1.openOutcome ≠ .resolved false) ∧
    (run (initial emptyDurable)
      [(healthy, .setSetting (.str "volume") (.prim (.num 7))),
        (healthy, .saveSeries (.obj [("id", .str "s1")]))]).useMemoryFallback = false ∧
    MirrorConsistent (run (initial emptyDurable)
      [(healthy, .setSetting (.str "volume") (.prim (.num 7))),
        (healthy, .saveSeries (.obj [("id", .str "s1")]))]) :=
  ⟨by simp [healthy], rfl,
    mirror_durable_consistent emptyDurable
      [(healthy, .setSetting (.str "volume") (.prim (.num 7))),
        (healthy, .saveSeries (.obj [("id", .str "s1")]))]
      (by simp [healthy]) rfl⟩

/-! ## Memory-only mode as a function of the mirrors -/

theorem step_of_fallback (s : State) (e : Env) (c : Call) (h : s.useMemoryFallback = true) :
    step s e c = (.ok (memoryStep s c).1, (memoryStep s c).2) := by
  cases c
  case getSetting key => simp [step, getSetting, memoryStep, h]
  case setSetting key value => simp [step, setSetting, memoryStep, h]
  case getTrialLog => simp [step, getTrialLog, memoryStep, h]
  case appendTrialLog entry => simp [step, appendTrialLog, memoryStep, h]
  case replaceTrialLog entries => simp [step, replaceTrialLog, memoryStep, h]
  case getSeriesList => simp [step, getSeriesList, memoryStep, h]
  case getSeriesById id =>
    cases hid : id.truthy <;> simp [step, getSeriesById, memoryStep, h, hid]
  case saveSeries series =>
    cases hid : series.optId.truthy
    · simp [step, saveSeries, memoryStep, h, hid]
    · simp [step, saveSeries, memoryStep, h, hid, (truthy_optId series hid).2.2]
  case deleteSeries id =>
    cases hid : id.truthy <;> simp [step, deleteSeries, memoryStep, h, hid]

theorem withDb_unavailable (s : State) (op : Durable → Except JsError JsAny × Durable)
    (hf : s.useMemoryFallback = false) (hp : s.dbPromise = none) :
    withDb s unavailable op =
      (.ok (.value jsNull),
        { s with dbPromise := some (.rejected .unavailable), useMemoryFallback := true }) := by
  rw [withDb_eq]
  simp [hf, hp, unavailable]

/-- With a backend that is unavailable, a call in a state that never consults
the database answers and updates the mirrors as `memoryStep` does. -/
theorem step_memOnly (m : State) (c : Call) (h : MemOnly m) :
    (step m unavailable c).1 = .ok (memoryStep m c).1 ∧
    (step m unavailable c).2.memorySettings = (memoryStep m c).2.memorySettings ∧
    (step m unavailable c).2.memoryTrialLog = (memoryStep m c).2.memoryTrialLog ∧
    (step m unavailable c).2.memorySeries = (memoryStep m c).2.memorySeries ∧
    MemOnly (step m unavailable c).2 := by
  cases hf : m.useMemoryFallback with
  | true =>
    rw [step_of_fallback m unavailable c hf]
    refine ⟨rfl, rfl, rfl, rfl, Or.inl ?_⟩
    have := (step_frame m unavailable c).1 hf
    rw [step_of_fallback m unavailable c hf] at this
    exact this
  | false =>
    have hp : m.dbPromise = none := by
      rcases h with h | h
      · rw [hf] at h; exact absurd h (by simp)
      · exact h
    cases c
    case getSetting key =>
      simp only [step, getSetting, hf, Bool.false_eq_true, if_false]
      rw [withDb_unavailable m _ hf hp]
      simp [memoryStep, MemOnly, JsAny.nullish, JsVal.nullish, jsNull, mirrorSetting]
    case setSetting key value =>
      simp only [step, setSetting, hf, Bool.false_eq_true, if_false]
      rw [withDb_unavailable
        { m with memorySettings := m.memorySettings.set key value, useMemoryFallback := false } _ rfl hp]
      simp [memoryStep, MemOnly]
    case getTrialLog =>
      simp only [step, getTrialLog, hf, Bool.false_eq_true, if_false]
      rw [withDb_unavailable m _ hf hp]
      simp [memoryStep, MemOnly]
    case appendTrialLog entry =>
      simp only [step, appendTrialLog, hf, Bool.false_eq_true, if_false]
      rw [withDb_unavailable
        { m with memoryTrialLog := m.memoryTrialLog ++ [entry], useMemoryFallback := false } _ rfl hp]
      simp [memoryStep, MemOnly]
    case replaceTrialLog entries =>
      simp only [step, replaceTrialLog, hf, Bool.false_eq_true, if_false]
      rw [withDb_unavailable
        { m with
          memoryTrialLog := copyEntries (defaultEntries entries)
          useMemoryFallback := false } _ rfl hp]
      simp [memoryStep, MemOnly]
    case getSeriesList =>
      simp only [step, getSeriesList, hf, Bool.false_eq_true, if_false]
      rw [withDb_unavailable m _ hf hp]
      simp [memoryStep, MemOnly]
    case getSeriesById id =>
      cases hid : id.truthy
      · simp [step, getSeriesById, memoryStep, hid, MemOnly, hp]
      · simp only [step, getSeriesById, hid, hf, Bool.not_true, Bool.false_eq_true, if_false]
        rw [withDb_unavailable m _ hf hp]
        have hn : jsNull.truthy = false := rfl
        simp [memoryStep, MemOnly, hid, hn, mirrorSeries]
    case saveSeries series =>
      cases hid : series.optId.truthy
      · simp [step, saveSeries, memoryStep, hid, MemOnly, hp]
      · simp only [step, saveSeries, hid, (truthy_optId series hid).2.2, hf, Bool.not_true,
          Bool.false_eq_true, if_false]
        rw [withDb_unavailable
        { m with
          memorySeries := m.memorySeries.set series.optId series
          useMemoryFallback := false } _ rfl hp]
        simp [memoryStep, MemOnly, hid]
    case deleteSeries id =>
      cases hid : id.truthy
      · simp [step, deleteSeries, memoryStep, hid, MemOnly, hp]
      · simp only [step, deleteSeries, hid, hf, Bool.not_true, Bool.false_eq_true, if_false]
        rw [withDb_unavailable
        { m with memorySeries := m.memorySeries.delete id, useMemoryFallback := false } _ rfl hp]
        simp [memoryStep, MemOnly, hid]

theorem JsMap.get_congr (a b : JsMap) (k : Prim) (ha : (a.map Prod.fst).Nodup)
    (hb : (b.map Prod.fst).Nodup) (h : ∀ kv, kv ∈ a ↔ kv ∈ b) : a.get k = b.get k := by
  by_cases hk : ∃ v, (k, v) ∈ a
  · obtain ⟨v, hv⟩ := hk
    rw [JsMap.get_of_mem a k v ha hv, JsMap.get_of_mem b k v hb ((h _).1 hv)]
  · have h1 : ∀ kv ∈ a, kv.1 ≠ k := by
      rintro ⟨k', v'⟩ hkv hkk
      simp only at hkk
      subst hkk
      exact hk ⟨v', hkv⟩
    have h2 : ∀ kv ∈ b, kv.1 ≠ k := fun kv hkv => h1 kv ((h kv).2 hkv)
    rw [JsMap.get_of_not_mem a k h1, JsMap.get_of_not_mem b k h2]

theorem JsMap.values_perm (a b : JsMap) (ha : (a.map Prod.fst).Nodup)
    (hb : (b.map Prod.fst).Nodup) (h : ∀ kv, kv ∈ a ↔ kv ∈ b) :
    a.values.Perm b.values := by
  unfold JsMap.values
  exact List.Perm.map _ ((List.perm_ext_iff_of_nodup (List.Nodup.of_map _ ha)
    (List.Nodup.of_map _ hb)).2 h)

theorem sameAnswer_of_ok (c : Call) (r : JsAny) (hc : c ≠ .getSeriesList) :
    SameAnswer c (.ok r) (.ok r) := by
  cases c <;> first | rfl | exact absurd rfl hc

/-- Memory-only mode gives the same answers and the same mirrors, up to the order
of the series, on mirrors that are the same up to that order. -/
theorem memoryStep_agree (a b : State) (c : Call) (h : MirrorsAgree a b)
    (ha : MirrorsWF a) (hb : MirrorsWF b) :
    SameAnswer c (.ok (memoryStep a c).1) (.ok (memoryStep b c).1) ∧
    MirrorsAgree (memoryStep a c).2 (memoryStep b c).2 := by
  obtain ⟨h1, h2, h3⟩ := h
  cases c
  case getSetting key =>
    exact ⟨by simp [SameAnswer, memoryStep, mirrorSetting, h1], h1, h2, h3⟩
  case setSetting key value =>
    exact ⟨rfl, by simp [memoryStep, h1], h2, h3⟩
  case getTrialLog =>
    exact ⟨by simp [SameAnswer, memoryStep, h2], h1, h2, h3⟩
  case appendTrialLog entry =>
    exact ⟨rfl, h1, by simp [memoryStep, h2], h3⟩
  case replaceTrialLog entries =>
    exact ⟨rfl, h1, rfl, h3⟩
  case getSeriesList =>
    exact ⟨⟨_, _, rfl, rfl, JsMap.values_perm _ _ ha.2.1 hb.2.1 h3⟩, h1, h2, h3⟩
  case getSeriesById id =>
    refine ⟨?_, h1, h2, h3⟩
    simp only [SameAnswer, memoryStep, mirrorSeries]
    rw [JsMap.get_congr _ _ id ha.2.1 hb.2.1 h3]
  case saveSeries series =>
    simp only [memoryStep]
    split
    · refine ⟨rfl, h1, h2, ?_⟩
      intro kv
      simp only
      rw [JsMap.mem_set_iff _ _ _ _ ha.2.1, JsMap.mem_set_iff _ _ _ _ hb.2.1, h3 kv]
    · exact ⟨rfl, h1, h2, h3⟩
  case deleteSeries id =>
    simp only [memoryStep]
    refine ⟨rfl, ?_⟩
    split
    · refine ⟨h1, h2, ?_⟩
      intro kv
      simp only
      rw [JsMap.mem_delete, JsMap.mem_delete, h3 kv]
    · exact ⟨h1, h2, h3⟩

/-! ## A synced store answers like its mirrors -/

theorem withDb_split (s : State) (e : Env) (op : Durable → Except JsError JsAny × Durable) :
    ∃ r s', withDb s e op = (.ok r, s') ∧
      s'.memorySettings = s.memorySettings ∧ s'.memoryTrialLog = s.memoryTrialLog ∧
      s'.memorySeries = s.memorySeries ∧
      ((r = .value jsNull ∧
          (s'.useMemoryFallback = true ∨ s'.dbPromise = some (.resolved false))) ∨
       (s.useMemoryFallback = false ∧ s.dbPromise ≠ some (.resolved false) ∧
          op s.durable = (.ok r, s'.durable))) := by
  obtain ⟨r, s', hw, h1, h2, h3, hfix, hmemo, hc⟩ := withDb_post s e op
  refine ⟨r, s', hw, h1, h2, h3, ?_⟩
  rcases hc with ⟨hf', hr⟩ | ⟨-, hp', hr, -⟩ | ⟨hf', hp', hop⟩
  · exact Or.inl ⟨hr, Or.inl hf'⟩
  · exact Or.inl ⟨hr, Or.inr hp'⟩
  · refine Or.inr ⟨?_, ?_, hop⟩
    · cases hs : s.useMemoryFallback with
      | false => rfl
      | true =>
        rw [hfix hs] at hf'
        rw [hf'] at hs
        exact absurd hs (by simp)
    · intro hs
      rw [hmemo _ hs] at hp'
      simp at hp'

theorem Synced.of_dead {s : State}
    (h : s.useMemoryFallback = true ∨ s.dbPromise = some (.resolved false)) : Synced s := by
  intro hf hp
  rcases h with h | h
  · rw [hf] at h
    exact absurd h (by simp)
  · exact absurd h hp

theorem SameAnswer.memory_refl (s : State) (c : Call) :
    SameAnswer c (.ok (memoryStep s c).1) (.ok (memoryStep s c).1) := by
  cases c
  case getSeriesList => exact ⟨_, _, rfl, rfl, List.Perm.refl _⟩
  all_goals rfl

theorem mirrorsAgree_of_mirrors_eq {a b : State} (h1 : a.memorySettings = b.memorySettings)
    (h2 : a.memoryTrialLog = b.memoryTrialLog) (h3 : a.memorySeries = b.memorySeries) :
    MirrorsAgree a b :=
  ⟨h1, h2, fun kv => by rw [h3]⟩

theorem mirrorSetting_congr {a b : State} (h : a.memorySettings = b.memorySettings)
    (key : Prim) : mirrorSetting a key = mirrorSetting b key := by
  simp [mirrorSetting, h]

theorem mirrorSeries_congr {a b : State} (h : a.memorySeries = b.memorySeries)
    (id : Prim) : mirrorSeries a id = mirrorSeries b id := by
  simp [mirrorSeries, h]

theorem mem_map_record (l : List JsVal) (k : Prim) (v : JsVal) :
    (k, v) ∈ l.map (fun r => (r.optId, r)) ↔ (v ∈ l ∧ v.optId = k) := by
  simp only [List.mem_map, Prod.mk.injEq]
  constructor
  · rintro ⟨r, hr, h1, h2⟩
    subst h2
    exact ⟨hr, h1⟩
  · rintro ⟨h1, h2⟩
    exact ⟨v, h1, h2, rfl⟩

theorem values_perm_of_synced (m : JsMap) (l : List JsVal) (hm : (m.map Prod.fst).Nodup)
    (hl : l.Nodup) (h : ∀ k v, (k, v) ∈ m ↔ (v ∈ l ∧ v.optId = k)) : l.Perm m.values := by
  have hinj : Function.Injective (fun r : JsVal => (r.optId, r)) := by
    intro a b hab
    exact (Prod.mk.inj hab).2
  have hp : m.Perm (l.map (fun r => (r.optId, r))) := by
    refine (List.perm_ext_iff_of_nodup (List.Nodup.of_map _ hm) (hl.map hinj)).2 ?_
    rintro ⟨k, v⟩
    rw [h k v, mem_map_record]
  have := List.Perm.map Prod.snd hp
  simp only [List.map_map] at this
  have hid : (Prod.snd ∘ fun r : JsVal => (r.optId, r)) = id := rfl
  rw [hid, List.map_id] at this
  exact this.symm

theorem unique_of_synced (m : JsMap) (l : List JsVal) (hm : (m.map Prod.fst).Nodup)
    (h : ∀ k v, (k, v) ∈ m ↔ (v ∈ l ∧ v.optId = k)) (v : JsVal) (hv : v ∈ l) :
    ∀ r ∈ l, r.optId = v.optId → r = v := by
  intro r hr hid
  have h1 : (v.optId, r) ∈ m := (h _ _).2 ⟨hr, hid⟩
  have h2 : (v.optId, v) ∈ m := (h _ _).2 ⟨hv, rfl⟩
  exact (JsMap.get_of_mem m _ _ hm h1).symm.trans (JsMap.get_of_mem m _ _ hm h2)

theorem set_mem_of_present (m : JsMap) (k : Prim) (v : JsVal) (hm : (m.map Prod.fst).Nodup)
    (hkv : (k, v) ∈ m) : ∀ kv, kv ∈ m.set k v ↔ kv ∈ m := by
  intro kv
  rw [JsMap.mem_set_iff m k v kv hm]
  constructor
  · rintro (h | ⟨h, -⟩)
    · rw [h]; exact hkv
    · exact h
  · intro h
    by_cases hk : kv.1 = k
    · left
      obtain ⟨k', v'⟩ := kv
      simp only at hk
      subst hk
      have h1 := JsMap.get_of_mem m _ _ hm h
      have h2 := JsMap.get_of_mem m _ _ hm hkv
      rw [h1.symm.trans h2]
    · exact Or.inr ⟨h, hk⟩

/-- A call on a synced store answers as its mirrors alone would, up to the order
of the series list, leaves the same mirrors up to that order, and leaves the
store synced. -/
theorem synced_step (s : State) (e : Env) (c : Call) (hwf : MirrorsWF s) (hs : Synced s) :
    SameAnswer c (step s e c).1 (.ok (memoryStep s c).1) ∧
    MirrorsAgree (step s e c).2 (memoryStep s c).2 ∧
    Synced (step s e c).2 := by
  cases hf : s.useMemoryFallback with
  | true =>
    rw [step_of_fallback s e c hf]
    refine ⟨SameAnswer.memory_refl s c, mirrorsAgree_of_mirrors_eq rfl rfl rfl, Synced.of_dead (Or.inl ?_)⟩
    have := (step_frame s e c).1 hf
    rw [step_of_fallback s e c hf] at this
    exact this
  | false =>
    have hnf : ¬ s.useMemoryFallback = true := by simp [hf]
    cases c
    case getSetting key =>
      simp only [step, getSetting, memoryStep]
      rw [if_neg hnf]
      obtain ⟨r, s', hw, hms, hml, hm, hc⟩ := withDb_split s e (getSettingOperation e.tx key)
      rw [hw]
      have hmir := mirrorSetting_congr hms key
      rcases hc with ⟨hr, hdead⟩ | ⟨hf0, hp0, hop⟩
      · subst hr
        have hn : (JsAny.value jsNull).nullish = true := rfl
        simp only [hn, if_true]
        exact ⟨by simp only [SameAnswer, hmir], mirrorsAgree_of_mirrors_eq hms hml hm,
          Synced.of_dead hdead⟩
      · obtain ⟨hr, hd, -, -⟩ := getSettingOperation_ok hop
        have hsync := hs hf0 hp0
        have hr' : r = mirrorSetting s key := by
          rw [hr, hsync.1]
          rfl
        have hsy : Synced s' := by
          intro _ _
          rw [hd, hms, hml, hm]
          exact hsync
        cases hnl : r.nullish with
        | true =>
          simp only [hnl, if_true]
          exact ⟨by simp only [SameAnswer, hmir], mirrorsAgree_of_mirrors_eq hms hml hm, hsy⟩
        | false =>
          simp only [hnl, Bool.false_eq_true, if_false]
          exact ⟨by simp only [SameAnswer, hr'], mirrorsAgree_of_mirrors_eq hms hml hm, hsy⟩
    case setSetting key value =>
      simp only [step, setSetting, memoryStep]
      rw [if_neg hnf]
      obtain ⟨r, s', hw, hms, hml, hm, hc⟩ := withDb_split
        { s with memorySettings := s.memorySettings.set key value } e
        (setSettingOperation e.tx key value)
      rw [hw]
      refine ⟨rfl, mirrorsAgree_of_mirrors_eq hms hml hm, ?_⟩
      rcases hc with ⟨-, hdead⟩ | ⟨hf0, hp0, hop⟩
      · exact Synced.of_dead hdead
      · have hd := setSettingOperation_ok hop
        have hsync := hs hf0 hp0
        intro _ _
        simp only
        rw [hd, hms, hml, hm]
        exact ⟨by simp only [hsync.1], hsync.2.1, hsync.2.2⟩
    case getTrialLog =>
      simp only [step, getTrialLog, memoryStep]
      rw [if_neg hnf]
      obtain ⟨r, s', hw, hms, hml, hm, hc⟩ := withDb_split s e (getTrialLogOperation e.tx)
      rw [hw]
      rcases hc with ⟨hr, hdead⟩ | ⟨hf0, hp0, hop⟩
      · subst hr
        exact ⟨by simp only [SameAnswer, hml], mirrorsAgree_of_mirrors_eq hms hml hm,
          Synced.of_dead hdead⟩
      · obtain ⟨hr, hd⟩ := getTrialLogOperation_ok hop
        have hsync := hs hf0 hp0
        subst hr
        refine ⟨by simp only [SameAnswer, hsync.2.1],
          mirrorsAgree_of_mirrors_eq hms hsync.2.1 hm, ?_⟩
        intro _ _
        simp only
        rw [hd, hms, hm]
        exact ⟨hsync.1, rfl, hsync.2.2⟩
    case appendTrialLog entry =>
      simp only [step, appendTrialLog, memoryStep]
      rw [if_neg hnf]
      obtain ⟨r, s', hw, hms, hml, hm, hc⟩ := withDb_split
        { s with memoryTrialLog := s.memoryTrialLog ++ [entry] } e
        (appendTrialLogOperation e.tx entry)
      rw [hw]
      refine ⟨rfl, mirrorsAgree_of_mirrors_eq hms hml hm, ?_⟩
      rcases hc with ⟨-, hdead⟩ | ⟨hf0, hp0, hop⟩
      · exact Synced.of_dead hdead
      · have hd := appendTrialLogOperation_ok hop
        have hsync := hs hf0 hp0
        intro _ _
        simp only
        rw [hd, hms, hml, hm]
        exact ⟨hsync.1, by simp only [hsync.2.1], hsync.2.2⟩
    case replaceTrialLog entries =>
      simp only [step, replaceTrialLog, memoryStep]
      rw [if_neg hnf]
      obtain ⟨r, s', hw, hms, hml, hm, hc⟩ := withDb_split
        { s with memoryTrialLog := copyEntries (defaultEntries entries) } e
        (replaceTrialLogOperation e.tx (copyEntries (defaultEntries entries)))
      rw [hw]
      refine ⟨rfl, mirrorsAgree_of_mirrors_eq hms hml hm, ?_⟩
      rcases hc with ⟨-, hdead⟩ | ⟨hf0, hp0, hop⟩
      · exact Synced.of_dead hdead
      · have hd := replaceTrialLogOperation_ok hop
        have hsync := hs hf0 hp0
        intro _ _
        simp only
        rw [hd, hms, hml, hm]
        exact ⟨hsync.1, rfl, hsync.2.2⟩
    case getSeriesList =>
      simp only [step, getSeriesList, memoryStep]
      rw [if_neg hnf]
      obtain ⟨r, s', hw, hms, hml, hm, hc⟩ := withDb_split s e (getSeriesListOperation e.tx)
      rw [hw]
      rcases hc with ⟨hr, hdead⟩ | ⟨hf0, hp0, hop⟩
      · subst hr
        exact ⟨⟨_, _, rfl, rfl, by simp only [hm]; exact List.Perm.refl _⟩,
          mirrorsAgree_of_mirrors_eq hms hml hm, Synced.of_dead hdead⟩
      · obtain ⟨hr, hd⟩ := getSeriesListOperation_ok hop
        obtain ⟨h1, h2, h3, h4⟩ := hs hf0 hp0
        subst hr
        have hreb : ∀ k v, (k, v) ∈ rebuildSeries s.durable.series ↔ (k, v) ∈ s.memorySeries := by
          intro k v
          rw [mem_rebuildSeries, h4 k v]
          constructor
          · rintro ⟨-, hl⟩
            exact lastWithId_some _ k v hl
          · rintro ⟨hv, hk⟩
            subst hk
            exact ⟨(hwf.2.2 _ ((h4 _ v).2 ⟨hv, rfl⟩)).2,
              lastWithId_of_unique _ v hv (unique_of_synced _ _ hwf.2.1 h4 v hv)⟩
        refine ⟨⟨_, _, rfl, rfl, values_perm_of_synced _ _ hwf.2.1 h3 h4⟩,
          ⟨hms, hml, fun kv => hreb kv.1 kv.2⟩, ?_⟩
        intro _ _
        simp only
        rw [hd, hms, hml]
        exact ⟨h1, h2, h3, fun k v => (hreb k v).trans (h4 k v)⟩
    case getSeriesById id =>
      simp only [step, getSeriesById, memoryStep]
      cases hid : id.truthy with
      | false =>
        simp only [Bool.not_false, if_true, Bool.false_eq_true, if_false]
        exact ⟨rfl, mirrorsAgree_of_mirrors_eq rfl rfl rfl, hs⟩
      | true =>
        simp only [Bool.not_true, Bool.false_eq_true, if_false, if_true]
        rw [if_neg hnf]
        obtain ⟨r, s', hw, hms, hml, hm, hc⟩ := withDb_split s e
          (getSeriesByIdOperation e.tx id)
        rw [hw]
        have hmir := mirrorSeries_congr hm id
        have hnull : jsNull.truthy = false := rfl
        rcases hc with ⟨hr, hdead⟩ | ⟨hf0, hp0, hop⟩
        · subst hr
          simp only [hnull, Bool.false_eq_true, if_false]
          exact ⟨by simp only [SameAnswer, hmir], mirrorsAgree_of_mirrors_eq hms hml hm,
            Synced.of_dead hdead⟩
        · obtain ⟨hr, hd⟩ := getSeriesByIdOperation_ok hop
          obtain ⟨h1, h2, h3, h4⟩ := hs hf0 hp0
          have hsy : Synced s' := by
            intro _ _
            rw [hd, hms, hml, hm]
            exact ⟨h1, h2, h3, h4⟩
          cases hfind : s.durable.series.find? (fun x => decide (x.optId = id)) with
          | none =>
            rw [hfind] at hr
            have hr' : r = .value jsNull := by
              rw [hr]
              rfl
            subst hr'
            simp only [hnull, Bool.false_eq_true, if_false]
            exact ⟨by simp only [SameAnswer, hmir], mirrorsAgree_of_mirrors_eq hms hml hm, hsy⟩
          | some x =>
            have hx : x ∈ s.durable.series := List.mem_of_find?_eq_some hfind
            have hxid : x.optId = id := by simpa using List.find?_some hfind
            have hxt : x.optId.truthy = true := by rw [hxid]; exact hid
            obtain ⟨ht, hn, hg⟩ := truthy_optId x hxt
            rw [hfind] at hr
            have hr' : r = .value x := by
              rw [hr]
              simp [JsAny.orElse, JsAny.nullish, hn]
            subst hr'
            have hmem : (id, x) ∈ s.memorySeries := (h4 id x).2 ⟨hx, hxid⟩
            have hset := set_mem_of_present _ _ _ hwf.2.1 hmem
            simp only [ht, hg, hxt, if_true]
            refine ⟨?_, ⟨hms, hml, ?_⟩, ?_⟩
            · simp only [SameAnswer, mirrorSeries, JsMap.get_of_mem _ _ _ hwf.2.1 hmem,
                JsAny.orElse, JsAny.nullish, hn, Bool.false_eq_true, if_false]
            · intro kv
              simp only
              rw [hm, hxid]
              exact hset kv
            · intro _ _
              simp only
              rw [hd, hms, hml, hm, hxid]
              exact ⟨h1, h2, h3, fun k v => (hset (k, v)).trans (h4 k v)⟩
    case saveSeries series =>
      simp only [step, saveSeries, memoryStep]
      cases hid : series.optId.truthy with
      | false =>
        simp only [Bool.not_false, if_true, Bool.false_eq_true, if_false]
        exact ⟨rfl, mirrorsAgree_of_mirrors_eq rfl rfl rfl, hs⟩
      | true =>
        obtain ⟨-, -, hg⟩ := truthy_optId series hid
        simp only [Bool.not_true, Bool.false_eq_true, if_false, if_true, hg]
        rw [if_neg hnf]
        obtain ⟨r, s', hw, hms, hml, hm, hc⟩ := withDb_split
          { s with memorySeries := s.memorySeries.set series.optId series } e
          (saveSeriesOperation e.tx series)
        rw [hw]
        refine ⟨rfl, mirrorsAgree_of_mirrors_eq hms hml hm, ?_⟩
        rcases hc with ⟨-, hdead⟩ | ⟨hf0, hp0, hop⟩
        · exact Synced.of_dead hdead
        · have hd := saveSeriesOperation_ok hop
          obtain ⟨h1, h2, h3, h4⟩ := hs hf0 hp0
          intro _ _
          simp only
          rw [hd, hms, hml, hm]
          refine ⟨h1, h2, ?_, ?_⟩
          · have hnd : (series :: s.durable.series.filter
                (fun x => decide (x.optId ≠ series.optId))).Nodup := by
              rw [List.nodup_cons]
              exact ⟨by simp [List.mem_filter], h3.filter _⟩
            exact (List.perm_orderedInsert _ _ _).nodup_iff.2 hnd
          · intro k v
            simp only
            rw [JsMap.mem_set_iff _ _ _ _ hwf.2.1, List.mem_orderedInsert, List.mem_filter]
            constructor
            · rintro (h | ⟨h, hk⟩)
              · obtain ⟨hk, hv⟩ := Prod.mk.inj h
                subst hv
                exact ⟨Or.inl rfl, hk.symm⟩
              · obtain ⟨hv, hvk⟩ := (h4 k v).1 h
                exact ⟨Or.inr ⟨hv, by simpa [hvk] using hk⟩, hvk⟩
            · rintro ⟨h | ⟨hv, hne⟩, hvk⟩
              · subst h
                exact Or.inl (by rw [hvk])
              · refine Or.inr ⟨(h4 k v).2 ⟨hv, hvk⟩, ?_⟩
                simp only [ne_eq, decide_eq_true_eq, decide_not, Bool.not_eq_true',
                  decide_eq_false_iff_not] at hne
                rw [← hvk]
                exact hne
    case deleteSeries id =>
      simp only [step, deleteSeries, memoryStep]
      cases hid : id.truthy with
      | false =>
        simp only [Bool.not_false, if_true, Bool.false_eq_true, if_false]
        exact ⟨rfl, mirrorsAgree_of_mirrors_eq rfl rfl rfl, hs⟩
      | true =>
        simp only [Bool.not_true, Bool.false_eq_true, if_false, if_true]
        rw [if_neg hnf]
        obtain ⟨r, s', hw, hms, hml, hm, hc⟩ := withDb_split
          { s with memorySeries := s.memorySeries.delete id } e (deleteSeriesOperation e.tx id)
        rw [hw]
        refine ⟨rfl, mirrorsAgree_of_mirrors_eq hms hml hm, ?_⟩
        rcases hc with ⟨-, hdead⟩ | ⟨hf0, hp0, hop⟩
        · exact Synced.of_dead hdead
        · have hd := deleteSeriesOperation_ok hop
          obtain ⟨h1, h2, h3, h4⟩ := hs hf0 hp0
          intro _ _
          simp only
          rw [hd, hms, hml, hm]
          refine ⟨h1, h2, h3.filter _, ?_⟩
          intro k v
          simp only
          rw [JsMap.mem_delete, List.mem_filter, h4 k v]
          constructor
          · rintro ⟨⟨hv, hvk⟩, hk⟩
            exact ⟨⟨hv, by simpa [hvk] using hk⟩, hvk⟩
          · rintro ⟨⟨hv, hne⟩, hvk⟩
            refine ⟨⟨hv, hvk⟩, ?_⟩
            simp only [ne_eq, decide_eq_true_eq, decide_not, Bool.not_eq_true',
              decide_eq_false_iff_not] at hne
            simp only [ne_eq]
            rw [← hvk]
            exact hne

theorem sameAnswer_trans {c : Call} {a b d : Except JsError JsAny}
    (h1 : SameAnswer c a b) (h2 : SameAnswer c b d) : SameAnswer c a d := by
  cases c
  case getSeriesList =>
    obtain ⟨xs, ys, ha, hb, p⟩ := h1
    obtain ⟨ys', zs, hb', hd, q⟩ := h2
    have hy : ys = ys' := by
      rw [hb] at hb'
      injection hb' with hb'
      injection hb'
    subst hy
    exact ⟨xs, zs, ha, hd, p.trans q⟩
  all_goals exact Eq.trans h1 h2

theorem mirrorsAgree_trans {a b d : State} (h1 : MirrorsAgree a b) (h2 : MirrorsAgree b d) :
    MirrorsAgree a d :=
  ⟨h1.1.trans h2.1, h1.2.1.trans h2.2.1, fun kv => (h1.2.2 kv).trans (h2.2.2 kv)⟩

/-- One call of the simulation: a synced store and a memory-only store whose
mirrors agree give the same answer, up to the order of the series list, and
agree afterwards. -/
theorem sim_step (s m : State) (e : Env) (c : Call) (hwf : MirrorsWF s) (hs : Synced s)
    (hwm : MirrorsWF m) (ha : MirrorsAgree s m) (hm : MemOnly m) :
    SameAnswer c (step s e c).1 (step m unavailable c).1 ∧
    MirrorsAgree (step s e c).2 (step m unavailable c).2 := by
  obtain ⟨h1, h2, -⟩ := synced_step s e c hwf hs
  obtain ⟨h3, h4⟩ := memoryStep_agree s m c ha hwf hwm
  obtain ⟨h5, h6, h7, h8, -⟩ := step_memOnly m c hm
  refine ⟨?_, mirrorsAgree_trans (mirrorsAgree_trans h2 h4)
    (mirrorsAgree_of_mirrors_eq h6.symm h7.symm h8.symm)⟩
  rw [h5]
  exact sameAnswer_trans h1 h3

/-- The simulation holds along every sequence of calls. -/
theorem sim_run (pre : List (Env × Call)) : ∀ (s m : State), MirrorsWF s → Synced s →
    MirrorsWF m → MirrorsAgree s m → MemOnly m →
    MirrorsWF (run s pre) ∧ Synced (run s pre) ∧ MirrorsWF (run m (inMemory pre)) ∧
      MirrorsAgree (run s pre) (run m (inMemory pre)) ∧ MemOnly (run m (inMemory pre)) := by
  induction pre with
  | nil => intro s m h1 h2 h3 h4 h5; exact ⟨h1, h2, h3, h4, h5⟩
  | cons p rest ih =>
    intro s m h1 h2 h3 h4 h5
    obtain ⟨e, c⟩ := p
    simp only [inMemory, List.map_cons, run]
    exact ih _ _ (step_mirrorsWF s e c h1) (synced_step s e c h1 h2).2.2
      (step_mirrorsWF m unavailable c h3) (sim_step s m e c h1 h2 h3 h4 h5).2
      (step_memOnly m c h5).2.2.2.2

theorem initial_synced : Synced (initial emptyDurable) := by
  intro _ _
  refine ⟨rfl, rfl, List.nodup_nil, ?_⟩
  intro k v
  simp [initial, emptyDurable]

/-- C13 (counterexample): with a healthy backend, saving `{ id: "s2" }`, then
`{ id: "s1" }`, then listing returns the series in key order, `s1` before `s2`;
the same three calls with the backend unavailable from the start return them in
the order of saving, `s2` before `s1`. The third answers differ. -/
theorem series_order_counterexample :
    results (initial emptyDurable)
        [(healthy, .saveSeries (.obj [("id", .str "s2")])),
         (healthy, .saveSeries (.obj [("id", .str "s1")])),
         (healthy, .getSeriesList)] =
      [.ok (.value (.obj [("id", .str "s2")])), .ok (.value (.obj [("id", .str "s1")])),
       .ok (.array [.obj [("id", .str "s1")], .obj [("id", .str "s2")]])] ∧
    results (initial emptyDurable)
        (inMemory [(healthy, .saveSeries (.obj [("id", .str "s2")])),
         (healthy, .saveSeries (.obj [("id", .str "s1")])),
         (healthy, .getSeriesList)]) =
      [.ok (.value (.obj [("id", .str "s2")])), .ok (.value (.obj [("id", .str "s1")])),
       .ok (.array [.obj [("id", .str "s2")], .obj [("id", .str "s1")]])] ∧
    results (initial emptyDurable)
        [(healthy, .saveSeries (.obj [("id", .str "s2")])),
         (healthy, .saveSeries (.obj [("id", .str "s1")])),
         (healthy, .getSeriesList)] ≠
      results (initial emptyDurable)
        (inMemory [(healthy, .saveSeries (.obj [("id", .str "s2")])),
         (healthy, .saveSeries (.obj [("id", .str "s1")])),
         (healthy, .getSeriesList)]) := by
  have h1 : results (initial emptyDurable)
        [(healthy, .saveSeries (.obj [("id", .str "s2")])),
         (healthy, .saveSeries (.obj [("id", .str "s1")])),
         (healthy, .getSeriesList)] =
      [.ok (.value (.obj [("id", .str "s2")])), .ok (.value (.obj [("id", .str "s1")])),
       .ok (.array [.obj [("id", .str "s1")], .obj [("id", .str "s2")]])] := rfl
  have h2 : results (initial emptyDurable)
        (inMemory [(healthy, .saveSeries (.obj [("id", .str "s2")])),
         (healthy, .saveSeries (.obj [("id", .str "s1")])),
         (healthy, .getSeriesList)]) =
      [.ok (.value (.obj [("id", .str "s2")])), .ok (.value (.obj [("id", .str "s1")])),
       .ok (.array [.obj [("id", .str "s2")], .obj [("id", .str "s1")]])] := rfl
  refine ⟨h1, h2, ?_⟩
  rw [h1, h2]
  simp

/-- C13 (amended): starting from an empty database and empty mirrors, after any
finite sequence of calls during which the backend behaves in any way (it never
fails, fails from the first call, or starts failing at any call in between),
the next call returns the same value as after the same sequence run with the
backend unavailable from the start; the one exception is `getSeriesList`, whose
two answers are arrays of the same series, possibly in a different order. -/
theorem degraded_run_same_answers (pre : List (Env × Call)) (e : Env) (c : Call) :
    SameAnswer c (step (run (initial emptyDurable) pre) e c).1
      (step (run (initial emptyDurable) (inMemory pre)) unavailable c).1 := by
  obtain ⟨h1, h2, h3, h4, h5⟩ := sim_run pre (initial emptyDurable) (initial emptyDurable)
    (initial_mirrorsWF _) initial_synced (initial_mirrorsWF _)
    (mirrorsAgree_of_mirrors_eq rfl rfl rfl) (Or.inr rfl)
  exact (sim_step _ _ e c h1 h2 h3 h4 h5).1

end IndexedDbStore
